import Mathlib

/-!
Verification development for the demand-paged virtual memory simulator in
`src/main.c` (CS537 project 2).  The C program is shallowly embedded: the
global simulation state (page table, frame table `f_node` array, the FIFO
and 2FIFO list head/tail pointers, entry counters and statistics) becomes an
explicit state record, pointers into the frame array become `Option Nat`
frame indices, and each C function becomes a Lean function on states.
Null-pointer dereferences (and other undefined behaviour of the original)
are made explicit through a result type.
-/

namespace VMSim

/-- Protection bit constants, as in `sys/mman.h` (used by `page_table.h`). -/
def PROT_NONE : Nat := 0

/-- The read-permission bit. -/
def PROT_READ : Nat := 1

/-- The write-permission bit. -/
def PROT_WRITE : Nat := 2

/-- The 32-bit two's-complement value of the C expression `~PROT_WRITE`,
used verbatim by `find_clean_frame` in the test `node->bits & (~PROT_WRITE)`. -/
def notProtWrite : Nat := 4294967293

/-- One entry of the frame database `f_node` (main.c lines 87-94).
`next`/`prev` pointers into the frame array become optional frame indices. -/
structure FNode where
  page : Nat
  bits : Nat
  free : Nat
  f_list : Nat
  next : Option Nat
  prev : Option Nat
deriving Repr, DecidableEq

/-- The frame table is allocated with `memset(...,0,...)` (main.c line 192),
so every field starts at zero / NULL. -/
def FNode.zero : FNode := ⟨0, 0, 0, 0, none, none⟩

/-- One page-table entry as exposed by the external page-table abstraction:
a frame number and protection bits (`page_table_get_entry`/`set_entry`). -/
structure PTE where
  frame : Nat
  bits : Nat
deriving Repr, DecidableEq

/-- The statistics counters (main.c lines 51-56). -/
structure Stats where
  page_faults : Nat
  disk_reads : Nat
  disk_writes : Nat
  evictions : Nat
deriving Repr, DecidableEq

/-- The run configuration: `args.npages` and `args.nframes`. -/
structure Config where
  npages : Nat
  nframes : Nat
deriving Repr, DecidableEq

/-- `FIRST_L`, as computed by `main` (main.c lines 160-173): for
`nframes < 5` it is `nframes - 1`; otherwise `nframes*3/4` (C integer
division), incremented when `nframes % 4 != 0`. -/
def firstL (nframes : Nat) : Nat :=
  if nframes < 5 then nframes - 1
  else nframes * 3 / 4 + (if nframes % 4 ≠ 0 then 1 else 0)

/-- `SECOND_L`, as computed by `main` (main.c lines 160-173): `1` for
`nframes < 5`, otherwise `nframes * 1/4` (C integer division). -/
def secondL (nframes : Nat) : Nat :=
  if nframes < 5 then 1 else nframes * 1 / 4

/-- The whole mutable global state of the simulator: the page-table
abstraction contents, the frame table, the FIFO list head/tail, the 2FIFO
first- and second-chance head/tail pointers, the two list-entry counters
(C `int`s, hence `Int`), and the statistics. -/
structure SimState where
  pt : List PTE
  ft : List FNode
  fifoHead : Option Nat
  fifoTail : Option Nat
  ffHead : Option Nat
  ffTail : Option Nat
  sfHead : Option Nat
  sfTail : Option Nat
  fEntries : Int
  sEntries : Int
  stats : Stats
deriving Repr, DecidableEq

/-- The state right after startup: page table entries zeroed, the frame
table zeroed by `memset`, all list pointers NULL and counters zero. -/
def initState (c : Config) : SimState :=
  { pt := List.replicate c.npages ⟨0, 0⟩
    ft := List.replicate c.nframes FNode.zero
    fifoHead := none, fifoTail := none
    ffHead := none, ffTail := none
    sfHead := none, sfTail := none
    fEntries := 0, sEntries := 0
    stats := ⟨0, 0, 0, 0⟩ }

/-- Read frame-table entry `i` (the C macro world `frame_table[i]`). -/
def getF (s : SimState) (i : Nat) : FNode := s.ft.getD i FNode.zero

/-- Write one frame-table entry through an update function. -/
def updF (s : SimState) (i : Nat) (g : FNode → FNode) : SimState :=
  { s with ft := s.ft.set i (g (getF s i)) }

/-- Read a page-table entry (`page_table_get_entry`). -/
def getP (s : SimState) (p : Nat) : PTE := s.pt.getD p ⟨0, 0⟩

/-- `page_table_set_entry(pt, page, frame, bits)`. -/
def setEntry (s : SimState) (p frame bits : Nat) : SimState :=
  { s with pt := s.pt.set p ⟨frame, bits⟩ }

/-- Outcome of running embedded C code: a normal result, a clean abort
(`exit(1)` after a diagnostic), or undefined behaviour (a null-pointer
dereference, or a loop over a corrupted list that never terminates). -/
inductive Res (α : Type) where
  | ok (a : α)
  | halted
  | crashed
deriving Repr, DecidableEq

/-- Sequencing of embedded computations: aborts and crashes propagate. -/
def Res.bind {α β : Type} : Res α → (α → Res β) → Res β
  | .ok a, f => f a
  | .halted, _ => .halted
  | .crashed, _ => .crashed

/-- `++stats.disk_reads`. -/
def addRead (s : SimState) : SimState :=
  { s with stats := { s.stats with disk_reads := s.stats.disk_reads + 1 } }

/-- `evict` (main.c lines 827-847): write the page back if the frame's
recorded bits contain `PROT_WRITE`, invalidate the page-table entry of the
resident page, clear the frame's recorded bits, count one eviction. -/
def evict (s : SimState) (f_num : Nat) : SimState :=
  let s1 := if ((getF s f_num).bits &&& PROT_WRITE) ≠ 0 then
      { s with stats := { s.stats with disk_writes := s.stats.disk_writes + 1 } }
    else s
  let s2 := setEntry s1 (getF s1 f_num).page f_num PROT_NONE
  let s3 := updF s2 f_num (fun v => { v with bits := PROT_NONE })
  { s3 with stats := { s3.stats with evictions := s3.stats.evictions + 1 } }

/-- `find_free_frame` (main.c lines 503-510): leftmost frame with
`FREE(i) == 0`, or `-1`. -/
def findFreeFrame (c : Config) (s : SimState) : Int :=
  match (List.range c.nframes).find? (fun i => (getF s i).free == 0) with
  | some i => (i : Int)
  | none => -1

/-- `fifo_insert` (main.c lines 569-608).  Inserting into an empty list
only sets head, tail and `f_list` (the node's stale links are kept, as in
the C code); inserting a node whose `f_list` is already 1 is a no-op. -/
def fifoInsert (s : SimState) (frame_index : Nat) : SimState :=
  match s.fifoTail with
  | none =>
    let s1 := { s with fifoHead := some frame_index, fifoTail := some frame_index }
    updF s1 frame_index (fun v => { v with f_list := 1 })
  | some t =>
    if (getF s frame_index).f_list = 1 then s
    else
      let s1 := updF s frame_index (fun v => { v with next := some t, prev := none })
      let s2 := updF s1 t (fun v => { v with prev := some frame_index })
      let s3 := { s2 with fifoTail := some frame_index }
      updF s3 frame_index (fun v => { v with f_list := 1 })

/-- `fifo_remove` (main.c lines 614-647): remove the head (the oldest
frame).  Returns `-1` on an empty list.  In the multi-element branch the C
code does `fifo_head = fifo_head->prev; fifo_head->next = NULL;`, which
dereferences NULL if the head had no `prev` link. -/
def fifoRemove (s : SimState) : Res (Int × SimState) :=
  match s.fifoHead with
  | none => .ok (-1, s)
  | some h =>
    if s.fifoHead = s.fifoTail then
      let s1 := updF s h (fun v => { v with f_list := 0 })
      .ok ((h : Int), { s1 with fifoHead := none, fifoTail := none })
    else
      let s1 := updF s h (fun v => { v with f_list := 0 })
      match (getF s1 h).prev with
      | none => .crashed
      | some h2 =>
        let s2 := { s1 with fifoHead := some h2 }
        .ok ((h : Int), updF s2 h2 (fun v => { v with next := none }))

/-- The scan loop of `find_clean_frame` (main.c lines 520-532):
`while (node != NULL && i < chance) { if (node->bits & (~PROT_WRITE)) { i++;
candidate = node; } node = node->next; }`.  The fuel bounds the number of
iterations; running out of fuel means the C loop was walking a list longer
than the frame table, i.e. a corrupted (cyclic) list on which the C code
never terminates. -/
def fcfScan (s : SimState) (chance : Nat) : Nat → Option Nat → Nat → Option Nat →
    Option (Option Nat)
  | 0, _, _, _ => none
  | _ + 1, none, _, candidate => some candidate
  | fuel + 1, some x, i, candidate =>
    if i < chance then
      if ((getF s x).bits &&& notProtWrite) ≠ 0 then
        fcfScan s chance fuel (getF s x).next (i + 1) (some x)
      else
        fcfScan s chance fuel (getF s x).next i candidate
    else some candidate

/-- `find_clean_frame` (main.c lines 518-564): scan from `fifo_tail->next`
with look-ahead window `chance = nframes*5/6`, then splice the selected
node out of the doubly-linked FIFO list.  Starts by dereferencing
`fifo_tail`, so an empty list is undefined behaviour. -/
def findCleanFrame (c : Config) (s : SimState) : Res (Int × SimState) :=
  match s.fifoTail with
  | none => .crashed
  | some t =>
    let chance := c.nframes * 5 / 6
    match fcfScan s chance (c.nframes + 1) (getF s t).next 0 none with
    | none => .crashed
    | some none => .ok (-1, s)
    | some (some cand) =>
      if s.fifoTail = some cand then
        let newTail := (getF s cand).next
        let s1 := { s with fifoTail := newTail }
        match newTail with
        | some nt =>
          let s2 := updF s1 nt (fun v => { v with prev := none })
          .ok ((cand : Int), updF s2 cand (fun v => { v with f_list := 0 }))
        | none =>
          let s2 := { s1 with fifoHead := none }
          .ok ((cand : Int), updF s2 cand (fun v => { v with f_list := 0 }))
      else
        let s1 := match (getF s cand).next with
          | some nx => updF s nx (fun v => { v with prev := (getF s cand).prev })
          | none => s
        match (getF s1 cand).prev with
        | none => .crashed
        | some pv =>
          let s2 := updF s1 pv (fun v => { v with next := (getF s1 cand).next })
          .ok ((cand : Int), updF s2 cand (fun v => { v with f_list := 0 }))

/-- The shared handler epilogue of the rand/fifo/custom handlers
(main.c lines 272-278 / 321-327 / 483-489): update the page-table entry,
mirror page and bits into the frame table, mark the frame used. -/
def commonTail (s : SimState) (page frame_index bits : Nat) : SimState :=
  let s1 := setEntry s page frame_index bits
  let s2 := updF s1 frame_index (fun v => { v with page := page, bits := bits })
  updF s2 frame_index (fun v => { v with free := 1 })

/-- `page_fault_handler_rand` (main.c lines 244-289).  The random draw
`(int) lrand48() % args.nframes` is modelled by `r % nframes` for an
arbitrary oracle value `r`. -/
def handlerRand (c : Config) (r : Nat) (s : SimState) (page : Nat) : Res SimState :=
  let e := getP s page
  if e.bits = 0 then
    let bits := e.bits ||| PROT_READ
    let ffr := findFreeFrame c s
    if ffr < 0 then
      let fi := r % c.nframes
      let s1 := evict s fi
      .ok (commonTail (addRead s1) page fi bits)
    else
      .ok (commonTail (addRead s) page ffr.toNat bits)
  else if (e.bits &&& PROT_READ) ≠ 0 ∧ (e.bits &&& PROT_WRITE) = 0 then
    .ok (commonTail s page e.frame (e.bits ||| PROT_WRITE))
  else
    .ok s

/-- `page_fault_handler_fifo` (main.c lines 294-335). -/
def handlerFifo (c : Config) (s : SimState) (page : Nat) : Res SimState :=
  let e := getP s page
  if e.bits = 0 then
    let bits := e.bits ||| PROT_READ
    let ffr := findFreeFrame c s
    if ffr < 0 then
      match fifoRemove s with
      | .crashed => .crashed
      | .halted => .halted
      | .ok (fi, s1) =>
        if fi < 0 then .ok s1
        else
          let s2 := evict s1 fi.toNat
          .ok (fifoInsert (commonTail (addRead s2) page fi.toNat bits) fi.toNat)
    else
      .ok (fifoInsert (commonTail (addRead s) page ffr.toNat bits) ffr.toNat)
  else if (e.bits &&& PROT_READ) ≠ 0 ∧ (e.bits &&& PROT_WRITE) = 0 then
    let bits := e.bits ||| PROT_WRITE
    .ok (fifoInsert (commonTail s page e.frame bits) e.frame)
  else
    .ok s

/-- `page_fault_handler_custom` (main.c lines 453-497): like FIFO but
tries `find_clean_frame` before falling back to `fifo_remove`. -/
def handlerCustom (c : Config) (s : SimState) (page : Nat) : Res SimState :=
  let e := getP s page
  if e.bits = 0 then
    let bits := e.bits ||| PROT_READ
    let ffr := findFreeFrame c s
    if ffr < 0 then
      match findCleanFrame c s with
      | .crashed => .crashed
      | .halted => .halted
      | .ok (fc, s1) =>
        if fc < 0 then
          match fifoRemove s1 with
          | .crashed => .crashed
          | .halted => .halted
          | .ok (fi, s2) =>
            if fi < 0 then .ok s2
            else
              let s3 := evict s2 fi.toNat
              .ok (fifoInsert (commonTail (addRead s3) page fi.toNat bits) fi.toNat)
        else
          let s3 := evict s1 fc.toNat
          .ok (fifoInsert (commonTail (addRead s3) page fc.toNat bits) fc.toNat)
    else
      .ok (fifoInsert (commonTail (addRead s) page ffr.toNat bits) ffr.toNat)
  else if (e.bits &&& PROT_READ) ≠ 0 ∧ (e.bits &&& PROT_WRITE) = 0 then
    let bits := e.bits ||| PROT_WRITE
    .ok (fifoInsert (commonTail s page e.frame bits) e.frame)
  else
    .ok s

/-- Selector for the double pointer argument of `sfo_remove` (`&ff_head`
or `&sf_head`). -/
inductive HeadSel where
  | ff
  | sf
deriving Repr, DecidableEq

/-- Read the selected 2FIFO list head. -/
def getHead (s : SimState) : HeadSel → Option Nat
  | .ff => s.ffHead
  | .sf => s.sfHead

/-- Write the selected 2FIFO list head. -/
def setHead (s : SimState) (sel : HeadSel) (v : Option Nat) : SimState :=
  match sel with
  | .ff => { s with ffHead := v }
  | .sf => { s with sfHead := v }

/-- `sfo_remove` (main.c lines 780-822): unlink `node` from the first- or
second-chance list.  An empty list is `exit(1)`; the tail branches
dereference `node->prev`, and the middle branch dereferences both
neighbours, so missing links are undefined behaviour. -/
def sfoRemove (s : SimState) (n : Nat) (sel : HeadSel) : Res (Nat × SimState) :=
  match getHead s sel with
  | none => .halted
  | some h =>
    if h = n then
      let nh := (getF s h).next
      let s1 := setHead s sel nh
      match nh with
      | some h2 => .ok (h, updF s1 h2 (fun v => { v with prev := none }))
      | none => .ok (h, s1)
    else
      if s.sfTail = some n then
        match (getF s n).prev with
        | none => .crashed
        | some pv =>
          let s1 := { s with sfTail := some pv }
          .ok (n, updF s1 pv (fun v => { v with next := none }))
      else if s.ffTail = some n then
        match (getF s n).prev with
        | none => .crashed
        | some pv =>
          let s1 := { s with ffTail := some pv }
          .ok (n, updF s1 pv (fun v => { v with next := none }))
      else
        match (getF s n).prev with
        | none => .crashed
        | some pv =>
          let s1 := updF s pv (fun v => { v with next := (getF s n).next })
          match (getF s1 n).next with
          | none => .crashed
          | some nx => .ok (n, updF s1 nx (fun v => { v with prev := (getF s1 n).prev }))

/-- The demotion epilogue of `sfo_insert` (main.c lines 745-772), run after
a node has been moved to the second-chance tail: mark it, strip its page's
protection in the page table, and if the second list overflowed, evict its
head and advance `sf_head` (dereferencing the new head). -/
def sfoDemoteTail (c : Config) (s : SimState) : Res SimState :=
  match s.sfTail with
  | none => .crashed
  | some st =>
    let s1 := updF s st (fun v => { v with f_list := 2 })
    let s2 := setEntry s1 (getF s1 st).page st PROT_NONE
    let s3 := { s2 with sEntries := s2.sEntries + 1 }
    let after : Res SimState :=
      if s3.sEntries > (secondL c.nframes : Int) then
        match s3.sfHead with
        | none => .crashed
        | some sh =>
          let sA := evict s3 sh
          let sB := updF sA sh (fun v => { v with free := 0, f_list := 0 })
          let nh := (getF sB sh).next
          let sC := { sB with sfHead := nh }
          match nh with
          | none => .crashed
          | some nh2 =>
            let sD := updF sC nh2 (fun v => { v with prev := none })
            .ok { sD with sEntries := sD.sEntries - 1 }
      else .ok s3
    Res.bind after (fun s4 => .ok { s4 with fEntries := s4.fEntries - 1 })

/-- The link-in step of `sfo_insert` (main.c lines 694-708): append the
node at the tail of the first-chance list (the empty-list branch also
clears the node's links, as in the C code). -/
def sfoAppend (s : SimState) (n : Nat) : Res SimState :=
  match s.ffHead with
  | none =>
    let s1 := { s with ffHead := some n, ffTail := some n }
    .ok (updF s1 n (fun v => { v with next := none, prev := none }))
  | some _ =>
    match s.ffTail with
    | none => .crashed
    | some t =>
      let s1 := updF s t (fun v => { v with next := some n })
      let s2 := updF s1 n (fun v => { v with prev := some t })
      let s3 := { s2 with ffTail := some n }
      .ok (updF s3 n (fun v => { v with next := none }))

/-- The `if (f_entries > FIRST_L)` block of `sfo_insert` (main.c lines
711-773): on first-chance overflow, move the first-chance head to the
second-chance tail — when the second list is empty by direct pointer
surgery (the branch that dereferences the new `ff_head` right after
`ff_head = ff_head->next`), otherwise via `sfo_remove` plus a tail append
— and then run the demotion epilogue. -/
def sfoCascade (c : Config) (sK : SimState) : Res SimState :=
  if sK.fEntries > (firstL c.nframes : Int) then
    let moved : Res SimState :=
      if sK.sfHead = none then
        match sK.ffHead with
        | none => .crashed
        | some fh =>
          let sA := { sK with sfHead := some fh, sfTail := some fh }
          let nh := (getF sA fh).next
          let sB := { sA with ffHead := nh }
          match nh with
          | none => .crashed
          | some nh2 =>
            let sC := updF sB nh2 (fun v => { v with prev := none })
            .ok (updF sC fh (fun v => { v with next := none }))
      else
        match sK.ffHead with
        | none => .halted
        | some nd =>
          match sfoRemove sK nd .ff with
          | .crashed => .crashed
          | .halted => .halted
          | .ok (_, sA) =>
            match sA.sfTail with
            | none => .crashed
            | some st =>
              let sB := updF sA st (fun v => { v with next := some nd })
              let sC := updF sB nd (fun v => { v with prev := some st, next := none })
              .ok { sC with sfTail := some nd }
    Res.bind moved (sfoDemoteTail c)
  else .ok sK

/-- `sfo_insert` (main.c lines 690-774): append the node at the tail of
the first-chance list, mark it and count it, then handle a first-chance
overflow through the demotion cascade. -/
def sfoInsert (c : Config) (s : SimState) (n : Nat) : Res SimState :=
  Res.bind (sfoAppend s n) (fun sI =>
    let sJ := updF sI n (fun v => { v with f_list := 1 })
    sfoCascade c { sJ with fEntries := sJ.fEntries + 1 })

/-- The epilogue of `page_fault_handler_2fifo` (main.c lines 430-439):
the page-table entry and the frame's page/bits mirror are only updated
when the frame is not currently in the second-chance list. -/
def tail2fifo (s : SimState) (page frame_index bits : Nat) : SimState :=
  let s1 :=
    if (getF s frame_index).f_list ≠ 2 then
      let sA := setEntry s page frame_index bits
      updF sA frame_index (fun v => { v with page := page, bits := bits })
    else s
  updF s1 frame_index (fun v => { v with free := 1 })

/-- `page_fault_handler_2fifo` (main.c lines 340-447). -/
def handler2fifo (c : Config) (s : SimState) (page : Nat) : Res SimState :=
  let e := getP s page
  let frame := e.frame
  if e.bits = PROT_NONE then
    let bits0 := PROT_NONE ||| PROT_READ
    if page = (getF s frame).page ∧ (getF s frame).f_list = 2 then
      match sfoRemove s frame .sf with
      | .crashed => .crashed
      | .halted => .halted
      | .ok (_, s1) =>
        let s2 := { s1 with sEntries := s1.sEntries - 1 }
        match sfoInsert c s2 frame with
        | .crashed => .crashed
        | .halted => .halted
        | .ok s3 =>
          let s4 := updF s3 frame (fun v => { v with f_list := 1 })
          let bits := (getF s4 frame).bits
          .ok (tail2fifo s4 page frame bits)
    else if page = (getF s frame).page ∧ (getF s frame).f_list = 1 then
      .halted
    else
      let ffr := findFreeFrame c s
      let acquire : Res (Nat × SimState) :=
        if ffr = -1 then
          let removed : Res (Nat × SimState) :=
            if s.sfHead = none then
              match s.ffHead with
              | none => .halted
              | some fh =>
                match sfoRemove s fh .ff with
                | .crashed => .crashed
                | .halted => .halted
                | .ok (fi, s1) => .ok (fi, { s1 with fEntries := s1.fEntries - 1 })
            else
              match s.sfHead with
              | none => .halted
              | some sh =>
                match sfoRemove s sh .sf with
                | .crashed => .crashed
                | .halted => .halted
                | .ok (fi, s1) => .ok (fi, { s1 with sEntries := s1.sEntries - 1 })
          Res.bind removed (fun fs => .ok (fs.1, evict fs.2 fs.1))
        else .ok (ffr.toNat, s)
      Res.bind acquire (fun fs =>
        let fi := fs.1
        let s1 := updF fs.2 fi (fun v => { v with page := page })
        match sfoInsert c s1 fi with
        | .crashed => .crashed
        | .halted => .halted
        | .ok s3 =>
          let s4 := updF s3 fi (fun v => { v with f_list := 1 })
          .ok (tail2fifo (addRead s4) page fi bits0))
  else if (e.bits &&& PROT_READ) ≠ 0 ∧ (e.bits &&& PROT_WRITE) = 0 then
    .ok (tail2fifo s page frame (e.bits ||| PROT_WRITE))
  else
    .ok s

/-- The four replacement policies (`enum policy_e`). -/
inductive Policy where
  | rand
  | fifo
  | twoFifo
  | custom
deriving Repr, DecidableEq

/-- `page_fault_handler` (main.c lines 122-138): count the fault at
dispatch entry, then delegate to the active policy's handler.  `r` is the
random oracle consumed only by the rand policy. -/
def pageFaultHandler (c : Config) (pol : Policy) (r : Nat) (s : SimState) (page : Nat) :
    Res SimState :=
  let s1 := { s with stats := { s.stats with page_faults := s.stats.page_faults + 1 } }
  match pol with
  | .rand => handlerRand c r s1 page
  | .fifo => handlerFifo c s1 page
  | .twoFifo => handler2fifo c s1 page
  | .custom => handlerCustom c s1 page

/-- Run a sequence of faults; each element is a faulting page paired with
the random-oracle value for that fault. -/
def runFaults (c : Config) (pol : Policy) (tr : List (Nat × Nat)) : Res SimState :=
  tr.foldl (fun r pr => Res.bind r (fun s => pageFaultHandler c pol pr.2 s pr.1)) (.ok (initState c))

/-- Run a sequence of faulting pages under the 2FIFO policy. -/
def runTwoFifo (c : Config) (tr : List Nat) : Res SimState :=
  tr.foldl (fun r p => Res.bind r (fun s => pageFaultHandler c .twoFifo 0 s p)) (.ok (initState c))

/-- Whether a memory access (read, or write when `w`) to page `p` succeeds
without faulting, as judged by the page-table protection bits. -/
def accessOk (s : SimState) (p : Nat) (w : Bool) : Bool :=
  if w then ((getP s p).bits &&& PROT_WRITE) != 0 else ((getP s p).bits &&& PROT_READ) != 0

/-- One workload access: fault (through the dispatcher) and retry until
the access is permitted.  The fuel bounds the retries; two faults always
suffice for the runs considered here. -/
def doAccess (c : Config) (pol : Policy) : Nat → SimState → Nat → Bool → Res SimState
  | 0, _, _, _ => .crashed
  | fuel + 1, s, p, w =>
    if accessOk s p w then .ok s
    else Res.bind (pageFaultHandler c pol 0 s p) (fun s1 => doAccess c pol fuel s1 p w)

/-- Run a workload: a list of `(page, is_write)` accesses, each retried
after its fault until it succeeds. -/
def runAccesses (c : Config) (pol : Policy) (accs : List (Nat × Bool)) : Res SimState :=
  accs.foldl (fun r a => Res.bind r (fun s => doAccess c pol 3 s a.1 a.2)) (.ok (initState c))

/-- Extract the final state of a successful run (initial state otherwise;
used only to state concrete-run theorems compactly). -/
def resState (c : Config) (r : Res SimState) : SimState :=
  match r with
  | .ok s => s
  | _ => initState c

/-- Extract the frame index returned by a successful frame-search call
(`-2` is never returned by the embedded code, so it marks failure). -/
def resFst (r : Res (Int × SimState)) : Int :=
  match r with
  | .ok x => x.1
  | _ => -2

/-- A small concrete state: one occupied dirty frame (bits R|W) holding
page 0, two page-table entries.  Used to instantiate theorems with
hypotheses at a concrete input. -/
def demoState : SimState :=
  { pt := [⟨0, 3⟩, ⟨0, 0⟩]
    ft := [⟨0, 3, 1, 1, none, none⟩]
    fifoHead := some 0, fifoTail := some 0
    ffHead := none, ffTail := none
    sfHead := none, sfTail := none
    fEntries := 0, sEntries := 0
    stats := ⟨5, 4, 1, 1⟩ }

/-- Configuration of the custom-policy clean-preference scenario:
4 pages, 3 frames. -/
def c3cfg : Config := ⟨4, 3⟩

/-- State after the accesses read 0, read 1, read 2, write 0 under the
custom policy: frames 0,1,2 hold pages 0,1,2; frame 0 is dirty (R|W),
frames 1 and 2 are clean (R). -/
def c3pre : SimState :=
  resState c3cfg (runAccesses c3cfg .custom [(0, false), (1, false), (2, false), (0, true)])

/-- State after additionally reading page 3 (which must evict). -/
def c3post : SimState :=
  resState c3cfg
    (runAccesses c3cfg .custom [(0, false), (1, false), (2, false), (0, true), (3, false)])

/-- State reached under 2FIFO with 3 pages, 2 frames after faulting on
pages 0 and 1: the load of page 1 overflows the first-chance list
(FIRST_L = 1) and demotes frame 0 to second chance, stripping page 0's
page-table protection but not the frame-table copy. -/
def c1cex : SimState := resState ⟨3, 2⟩ (runTwoFifo ⟨3, 2⟩ [0, 1])

/-- Pairwise linkage of a FIFO-list segment, written front-pointer first:
for consecutive nodes `x, y` the `next` of `x` is `y` and the `prev` of
`y` is `x`.  End links of the segment are unconstrained, because
`fifo_insert`/`fifo_remove` never read them (an empty-list insertion even
keeps the node's stale links, as the C code does). -/
def FifoChain (ft : List FNode) : List Nat → Prop
  | [] => True
  | [_] => True
  | x :: y :: rest =>
    (ft.getD x FNode.zero).next = some y ∧ (ft.getD y FNode.zero).prev = some x ∧
      FifoChain ft (y :: rest)

instance instDecFifoChain (ft : List FNode) : (l : List Nat) → Decidable (FifoChain ft l)
  | [] => by unfold FifoChain; exact inferInstance
  | [_] => by unfold FifoChain; exact inferInstance
  | _ :: y :: rest => by
    unfold FifoChain
    have := instDecFifoChain ft (y :: rest)
    exact inferInstance

/-- The FIFO policy's queue in the state `s`, given as the list `tq` of
frame indices from the newest (`fifo_tail`) to the oldest (`fifo_head`),
i.e. in `next`-traversal order: well-linked, registered in the head/tail
pointers, duplicate-free, within the frame table, and marked via `f_list`
exactly on its members. -/
def WFfifoWith (c : Config) (s : SimState) (tq : List Nat) : Prop :=
  s.ft.length = c.nframes ∧
  FifoChain s.ft tq ∧
  s.fifoTail = tq.head? ∧
  s.fifoHead = tq.getLast? ∧
  tq.Nodup ∧
  (∀ x ∈ tq, x < c.nframes) ∧
  (∀ g, g < c.nframes → ((getF s g).f_list = 1 ↔ g ∈ tq))

instance instDecWFfifoWith (c : Config) (s : SimState) (tq : List Nat) :
    Decidable (WFfifoWith c s tq) := by
  unfold WFfifoWith
  exact inferInstance

/-- State with page 0 loaded read-only in frame 0 (FIFO policy, one
fault): a concrete input for the write-upgrade theorem. -/
def upgState : SimState := resState ⟨3, 2⟩ (runFaults ⟨3, 2⟩ .fifo [(0, 0)])

/-- An optional frame pointer is NULL or within the frame table. -/
def optR (c : Config) : Option Nat → Prop
  | none => True
  | some i => i < c.nframes

instance instDecOptR (c : Config) (o : Option Nat) : Decidable (optR c o) := by
  cases o with
  | none => exact .isTrue trivial
  | some i => unfold optR; exact inferInstance

/-- The inductive invariant of the rand/fifo/custom policies: table sizes
are fixed; page-table frames and all list pointers stay in range; an
occupied frame's resident page maps back to it with the frame's recorded
protection, and a mapped page's frame is occupied by exactly that page. -/
def InvThree (c : Config) (s : SimState) : Prop :=
  s.pt.length = c.npages ∧
  s.ft.length = c.nframes ∧
  (∀ p, p < c.npages → (getP s p).frame < c.nframes) ∧
  (∀ f, f < c.nframes → (getF s f).free ≠ 0 →
      (getF s f).free = 1 ∧
      (getF s f).page < c.npages ∧
      getP s ((getF s f).page) = ⟨f, (getF s f).bits⟩ ∧
      (getF s f).bits ≠ 0) ∧
  (∀ p, p < c.npages → (getP s p).bits ≠ 0 →
      (getF s ((getP s p).frame)).free = 1 ∧
      (getF s ((getP s p).frame)).page = p) ∧
  (∀ f, f < c.nframes → optR c (getF s f).next ∧ optR c (getF s f).prev) ∧
  optR c s.fifoHead ∧
  optR c s.fifoTail

instance instDecInvThree (c : Config) (s : SimState) : Decidable (InvThree c s) := by
  unfold InvThree
  exact inferInstance

/-- The invariant of a mid-fault state in which victim frame `v` has just
been vacated: everything of `InvThree` holds except that frame `v` may be
occupied-but-invalid, and no page maps to `v`. -/
def InvExceptAt (c : Config) (s : SimState) (v : Nat) : Prop :=
  s.pt.length = c.npages ∧
  s.ft.length = c.nframes ∧
  (∀ p, p < c.npages → (getP s p).frame < c.nframes) ∧
  (∀ f, f < c.nframes → f ≠ v → (getF s f).free ≠ 0 →
      (getF s f).free = 1 ∧
      (getF s f).page < c.npages ∧
      getP s ((getF s f).page) = ⟨f, (getF s f).bits⟩ ∧
      (getF s f).bits ≠ 0) ∧
  (∀ p, p < c.npages → (getP s p).bits ≠ 0 →
      (getP s p).frame ≠ v ∧
      (getF s ((getP s p).frame)).free = 1 ∧
      (getF s ((getP s p).frame)).page = p) ∧
  (∀ f, f < c.nframes → optR c (getF s f).next ∧ optR c (getF s f).prev) ∧
  optR c s.fifoHead ∧
  optR c s.fifoTail

/-- The forward link of the first-chance list: the 2FIFO code only ever
reads `next` pointers of first-chance nodes (all its removals from that
list are head removals). -/
def nextR (s : SimState) (a b : Nat) : Prop := (getF s a).next = some b

instance instDecNextR (s : SimState) (a b : Nat) : Decidable (nextR s a b) :=
  inferInstanceAs (Decidable ((getF s a).next = some b))

/-- Both links of the second-chance list: `sfo_remove` walks `prev`
pointers when unlinking a tail or middle node of that list. -/
def slR (s : SimState) (a b : Nat) : Prop :=
  (getF s a).next = some b ∧ (getF s b).prev = some a

instance instDecSlR (s : SimState) (a b : Nat) : Decidable (slR s a b) :=
  inferInstanceAs (Decidable ((getF s a).next = some b ∧ (getF s b).prev = some a))

/-- The list shape of a 2FIFO state: `fl` and `sl` are the first- and
second-chance lists front to back.  Head pointers always track the lists;
tail pointers are reliable only while the list is non-empty (`sfo_remove`
leaves the tail pointer stale when it empties a list). -/
def Shape (c : Config) (s : SimState) (fl sl : List Nat) : Prop :=
  (∀ x ∈ fl, x < c.nframes) ∧
  (∀ x ∈ sl, x < c.nframes) ∧
  (fl ++ sl).Nodup ∧
  List.Chain' (nextR s) fl ∧
  List.Chain' (slR s) sl ∧
  s.ffHead = fl.head? ∧
  s.sfHead = sl.head? ∧
  (fl ≠ [] → s.ffTail = fl.getLast?) ∧
  (sl ≠ [] → s.sfTail = sl.getLast?) ∧
  (∀ x, fl.getLast? = some x → (getF s x).next = none) ∧
  (∀ x, sl.getLast? = some x → (getF s x).next = none)

/-- The inductive invariant of the 2FIFO policy for `nframes ≥ 2`: the
frame table is well-shaped around two disjoint chance lists whose lengths
are the entry counters, page-table frames stay in range, a frame marked
`f_list = 2` really is in the second-chance list, list members are
occupied, and the second list is only ever populated while the first one
is. -/
def WF2 (c : Config) (s : SimState) (fl sl : List Nat) : Prop :=
  s.ft.length = c.nframes ∧
  (∀ p, p < c.npages → (getP s p).frame < c.nframes) ∧
  Shape c s fl sl ∧
  s.fEntries = (fl.length : Int) ∧
  s.sEntries = (sl.length : Int) ∧
  (∀ f, f < c.nframes → (getF s f).f_list = 2 → f ∈ sl) ∧
  (∀ x ∈ fl, (getF s x).free = 1) ∧
  (∀ x ∈ sl, (getF s x).free = 1) ∧
  (sl ≠ [] → fl ≠ [])

instance instDecChainNextR (s : SimState) :
    (l : List Nat) → Decidable (List.Chain' (nextR s) l)
  | [] => .isTrue List.chain'_nil
  | [_] => .isTrue (by simp)
  | a :: b :: tl =>
    match instDecNextR s a b, instDecChainNextR s (b :: tl) with
    | .isTrue h1, .isTrue h2 => .isTrue (List.chain'_cons.mpr ⟨h1, h2⟩)
    | .isFalse h1, _ => .isFalse (fun hc => h1 (List.chain'_cons.mp hc).1)
    | _, .isFalse h2 => .isFalse (fun hc => h2 (List.chain'_cons.mp hc).2)

instance instDecChainSlR (s : SimState) :
    (l : List Nat) → Decidable (List.Chain' (slR s) l)
  | [] => .isTrue List.chain'_nil
  | [_] => .isTrue (by simp)
  | a :: b :: tl =>
    match instDecSlR s a b, instDecChainSlR s (b :: tl) with
    | .isTrue h1, .isTrue h2 => .isTrue (List.chain'_cons.mpr ⟨h1, h2⟩)
    | .isFalse h1, _ => .isFalse (fun hc => h1 (List.chain'_cons.mp hc).1)
    | _, .isFalse h2 => .isFalse (fun hc => h2 (List.chain'_cons.mp hc).2)

instance instDecShape (c : Config) (s : SimState) (fl sl : List Nat) :
    Decidable (Shape c s fl sl) :=
  inferInstanceAs (Decidable ((∀ x ∈ fl, x < c.nframes) ∧
    (∀ x ∈ sl, x < c.nframes) ∧
    (fl ++ sl).Nodup ∧
    List.Chain' (nextR s) fl ∧
    List.Chain' (slR s) sl ∧
    s.ffHead = fl.head? ∧
    s.sfHead = sl.head? ∧
    (fl ≠ [] → s.ffTail = fl.getLast?) ∧
    (sl ≠ [] → s.sfTail = sl.getLast?) ∧
    (∀ x, fl.getLast? = some x → (getF s x).next = none) ∧
    (∀ x, sl.getLast? = some x → (getF s x).next = none)))

instance instDecWF2 (c : Config) (s : SimState) (fl sl : List Nat) :
    Decidable (WF2 c s fl sl) :=
  inferInstanceAs (Decidable (s.ft.length = c.nframes ∧
    (∀ p, p < c.npages → (getP s p).frame < c.nframes) ∧
    Shape c s fl sl ∧
    s.fEntries = (fl.length : Int) ∧
    s.sEntries = (sl.length : Int) ∧
    (∀ f, f < c.nframes → (getF s f).f_list = 2 → f ∈ sl) ∧
    (∀ x ∈ fl, (getF s x).free = 1) ∧
    (∀ x ∈ sl, (getF s x).free = 1) ∧
    (sl ≠ [] → fl ≠ [])))

/-- A pure list-surgery step: everything except link fields and list
registers is untouched. -/
def CoreEq (s s' : SimState) : Prop :=
  s'.pt = s.pt ∧ s'.stats = s.stats ∧ s'.fEntries = s.fEntries ∧
  s'.sEntries = s.sEntries ∧ s'.ft.length = s.ft.length ∧
  ∀ f, (getF s' f).page = (getF s f).page ∧ (getF s' f).bits = (getF s f).bits ∧
    (getF s' f).free = (getF s f).free ∧ (getF s' f).f_list = (getF s f).f_list

end VMSim

/-! From here on: theorems.  First small laws about the state accessors,
then the claim theorems. -/

namespace VMSim

theorem ft_length_updF (s : SimState) (i : Nat) (g : FNode → FNode) :
    (updF s i g).ft.length = s.ft.length := by
  simp [updF]

theorem getF_updF_self (s : SimState) (i : Nat) (g : FNode → FNode) (h : i < s.ft.length) :
    getF (updF s i g) i = g (getF s i) := by
  simp [getF, updF, List.getD_eq_getElem?_getD, List.getElem?_set_self h]

theorem getF_updF_ne (s : SimState) (i j : Nat) (g : FNode → FNode) (h : i ≠ j) :
    getF (updF s i g) j = getF s j := by
  simp [getF, updF, List.getD_eq_getElem?_getD, List.getElem?_set_ne h]

theorem getP_updF (s : SimState) (i : Nat) (g : FNode → FNode) (p : Nat) :
    getP (updF s i g) p = getP s p := rfl

theorem getF_setEntry (s : SimState) (p frame bits i : Nat) :
    getF (setEntry s p frame bits) i = getF s i := rfl

theorem getP_setEntry_self (s : SimState) (p frame bits : Nat) (h : p < s.pt.length) :
    getP (setEntry s p frame bits) p = ⟨frame, bits⟩ := by
  simp [getP, setEntry, List.getD_eq_getElem?_getD, List.getElem?_set_self h]

theorem getP_setEntry_ne (s : SimState) (p frame bits q : Nat) (h : p ≠ q) :
    getP (setEntry s p frame bits) q = getP s q := by
  simp [getP, setEntry, List.getD_eq_getElem?_getD, List.getElem?_set_ne h]

theorem getF_initState (c : Config) (i : Nat) :
    getF (initState c) i = FNode.zero := by
  simp only [getF, initState, List.getD_eq_getElem?_getD, List.getElem?_replicate]
  split <;> rfl

theorem getP_initState (c : Config) (p : Nat) :
    getP (initState c) p = ⟨0, 0⟩ := by
  simp only [getP, initState, List.getD_eq_getElem?_getD, List.getElem?_replicate]
  split <;> rfl

/-- C4: the 2FIFO list capacities computed at startup match the spec's
closed forms: for `nframes < 5`, `FIRST_L = nframes - 1` and
`SECOND_L = 1`; otherwise `FIRST_L = ⌈nframes*3/4⌉` (here `(3*n+3)/4`) and
`SECOND_L = ⌊nframes/4⌋`. -/
theorem firstL_secondL_spec (n : Nat) (h : 1 ≤ n) :
    (n < 5 → firstL n = n - 1 ∧ secondL n = 1) ∧
    (5 ≤ n → firstL n = (3 * n + 3) / 4 ∧ secondL n = n / 4) := by
  constructor
  · intro h5
    simp [firstL, secondL, h5]
  · intro h5
    have h5' : ¬ n < 5 := by omega
    refine ⟨?_, ?_⟩
    · simp only [firstL, h5', if_false]
      by_cases hm : n % 4 = 0
      · simp only [hm, ne_eq, not_true_eq_false, if_false]
        omega
      · have h3 : n % 4 = 1 ∨ n % 4 = 2 ∨ n % 4 = 3 := by omega
        simp only [ne_eq, hm, not_false_eq_true, if_true]
        rcases h3 with h | h | h <;> omega
    · simp [secondL, h5']

end VMSim

namespace VMSim

/-- C6: for every eviction under every policy (`evict` is the single
eviction routine shared by all four handlers): a disk write is issued iff
the victim frame's recorded protection includes the Writable bit (exactly
one write, else zero), the victim's page-table entry is invalidated to
empty protection with the frame recorded, the frame's recorded bits are
cleared, and the evictions counter increases by exactly one; the read and
fault counters are untouched.  The write (when it happens) precedes the
invalidation and any reuse, as in the C code. -/
theorem c6_evict_correct (s : SimState) (f : Nat) (hf : f < s.ft.length)
    (hp : (getF s f).page < s.pt.length) :
    (evict s f).stats.disk_writes =
      s.stats.disk_writes + (if ((getF s f).bits &&& PROT_WRITE) ≠ 0 then 1 else 0) ∧
    (evict s f).stats.evictions = s.stats.evictions + 1 ∧
    (evict s f).stats.disk_reads = s.stats.disk_reads ∧
    (evict s f).stats.page_faults = s.stats.page_faults ∧
    getP (evict s f) ((getF s f).page) = ⟨f, PROT_NONE⟩ ∧
    (getF (evict s f) f).bits = PROT_NONE := by
  by_cases hw : ((getF s f).bits &&& PROT_WRITE) ≠ 0
  · refine ⟨?_, ?_, ?_, ?_, ?_, ?_⟩
    · simp only [evict, if_pos hw]; rfl
    · simp only [evict, if_pos hw]; rfl
    · simp only [evict, if_pos hw]; rfl
    · simp only [evict, if_pos hw]; rfl
    · simp only [evict, if_pos hw]
      exact getP_setEntry_self _ _ f PROT_NONE hp
    · simp only [evict, if_pos hw]
      have := getF_updF_self
        (setEntry { s with stats := { s.stats with disk_writes := s.stats.disk_writes + 1 } }
          (getF s f).page f PROT_NONE) f (fun v => { v with bits := PROT_NONE }) hf
      simp only [getF] at this ⊢
      rw [this]
  · refine ⟨?_, ?_, ?_, ?_, ?_, ?_⟩
    · simp only [evict, if_neg hw]; rfl
    · simp only [evict, if_neg hw]; rfl
    · simp only [evict, if_neg hw]; rfl
    · simp only [evict, if_neg hw]; rfl
    · simp only [evict, if_neg hw]
      exact getP_setEntry_self _ _ f PROT_NONE hp
    · simp only [evict, if_neg hw]
      have := getF_updF_self (setEntry s (getF s f).page f PROT_NONE) f
        (fun v => { v with bits := PROT_NONE }) hf
      simp only [getF] at this ⊢
      rw [this]

/-- Witness for C6: `c6_evict_correct` applied to the concrete dirty frame
of `demoState`. -/
theorem c6_evict_correct_witness :
    (evict demoState 0).stats.disk_writes =
      demoState.stats.disk_writes +
        (if ((getF demoState 0).bits &&& PROT_WRITE) ≠ 0 then 1 else 0) ∧
    (evict demoState 0).stats.evictions = demoState.stats.evictions + 1 ∧
    (evict demoState 0).stats.disk_reads = demoState.stats.disk_reads ∧
    (evict demoState 0).stats.page_faults = demoState.stats.page_faults ∧
    getP (evict demoState 0) ((getF demoState 0).page) = ⟨0, PROT_NONE⟩ ∧
    (getF (evict demoState 0) 0).bits = PROT_NONE :=
  c6_evict_correct demoState 0 (by decide) (by decide)

/-- Counterexample for C2: the golden run (3 pages, 2 frames, FIFO,
write 0 / write 1 / write 2, each access retried after its faults) raises
six page faults, not three — every write on a fresh page faults twice
(first-touch load with R, then write upgrade). -/
theorem c2_counterexample :
    (resState ⟨3, 2⟩ (runAccesses ⟨3, 2⟩ .fifo [(0, true), (1, true), (2, true)])).stats.page_faults
        = 6 ∧
    (resState ⟨3, 2⟩ (runAccesses ⟨3, 2⟩ .fifo [(0, true), (1, true), (2, true)])).stats.page_faults
        ≠ 3 := by
  decide

/-- C2 (amended): the golden run's final counters are
page_faults = 6, disk_reads = 3, disk_writes = 1, evictions = 1. -/
theorem c2_golden_stats :
    (resState ⟨3, 2⟩ (runAccesses ⟨3, 2⟩ .fifo [(0, true), (1, true), (2, true)])).stats
      = ⟨6, 3, 1, 1⟩ := by
  decide

/-- C3 evidence: with 3 frames and pages 0,1,2 resident (page 0 dirty in
frame 0, pages 1,2 clean), the scan window of `find_clean_frame` is
`chance = 3*5/6 = 2` and starts at `fifo_tail->next`, i.e. clean frame 1
is the first frame scanned; yet the scan returns dirty frame 0 (its bit
test `bits & ~PROT_WRITE` accepts every resident frame and it keeps the
last match), and the subsequent fault on page 3 evicts frame 0 and issues
a disk write even though a clean in-window frame existed. -/
theorem c3_clean_scan_selects_dirty :
    ((getF c3pre 1).bits = PROT_READ ∧
      (getF c3pre 0).bits = (PROT_READ ||| PROT_WRITE) ∧
      c3pre.fifoTail = some 2 ∧ (getF c3pre 2).next = some 1) ∧
    resFst (findCleanFrame c3cfg c3pre) = 0 ∧
    c3post.stats.disk_writes = 1 ∧
    (getP c3post 3).frame = 0 := by
  decide

/-- Counterexample for C1: `c1cex` is reachable under the 2FIFO policy,
and in it frame 0 is occupied while its resident page 0 has page-table
protection `PROT_NONE` — so the frame-table protection (R) has drifted
from the page-table protection (none), and no page maps to frame 0 with
non-empty protection even though the frame is occupied. -/
theorem c1_counterexample :
    runTwoFifo ⟨3, 2⟩ [0, 1] = .ok c1cex ∧
    (getF c1cex 0).free = 1 ∧
    (getF c1cex 0).page = 0 ∧
    (getF c1cex 0).bits = PROT_READ ∧
    (getP c1cex 0).bits = PROT_NONE ∧
    (getP c1cex 0).frame = 0 ∧
    (¬ ∃ p, p < 3 ∧ (getP c1cex p).bits ≠ 0 ∧ (getP c1cex p).frame = 0) := by
  decide

end VMSim

namespace VMSim

theorem fifoChain_append_left (ft : List FNode) : (a b : List Nat) →
    FifoChain ft (a ++ b) → FifoChain ft a
  | [], _, _ => trivial
  | [_], _, _ => trivial
  | x :: y :: rest, b, hc =>
    ⟨hc.1, hc.2.1, fifoChain_append_left ft (y :: rest) b hc.2.2⟩

theorem fifoChain_last_prev (ft : List FNode) : (pre : List Nat) → (last g : Nat) →
    pre.getLast? = some g → FifoChain ft (pre ++ [last]) →
    (ft.getD last FNode.zero).prev = some g ∧ (ft.getD g FNode.zero).next = some last
  | [], _, _, hg, _ => by simp at hg
  | [x], last, g, hg, hc => by
    simp at hg
    subst hg
    exact ⟨hc.2.1, hc.1⟩
  | x :: y :: rest, last, g, hg, hc => by
    rw [List.getLast?_cons_cons] at hg
    exact fifoChain_last_prev ft (y :: rest) last g hg hc.2.2

end VMSim

namespace VMSim

theorem fifoChain_congr' (ft ft' : List FNode) : (l : List Nat) →
    (∀ x ∈ l.dropLast, (ft'.getD x FNode.zero).next = (ft.getD x FNode.zero).next) →
    (∀ x ∈ l.tail, (ft'.getD x FNode.zero).prev = (ft.getD x FNode.zero).prev) →
    FifoChain ft l → FifoChain ft' l
  | [], _, _, hc => hc
  | [_], _, _, hc => hc
  | x :: y :: rest, hn, hp, hc =>
    ⟨by rw [hn x (by simp)]; exact hc.1,
     by rw [hp y (by simp)]; exact hc.2.1,
     fifoChain_congr' ft ft' (y :: rest)
       (fun z hz => hn z (by simp only [List.dropLast_cons₂]; exact List.mem_cons_of_mem x hz))
       (fun z hz => hp z (List.mem_cons_of_mem y hz)) hc.2.2⟩

theorem fifoInsert_mem_eq (c : Config) (s : SimState) (tq : List Nat) (f : Nat)
    (hwf : WFfifoWith c s tq) (hf : f < c.nframes) (hmem : f ∈ tq) :
    fifoInsert s f = s := by
  obtain ⟨hlen, hchain, htail, hhead, hnodup, hrange, hmap⟩ := hwf
  cases tq with
  | nil => simp at hmem
  | cons t rest =>
    have htail' : s.fifoTail = some t := by rw [htail]; rfl
    have hfl : (getF s f).f_list = 1 := (hmap f hf).2 hmem
    simp only [fifoInsert, htail']
    rw [if_pos hfl]
end VMSim

namespace VMSim

theorem fifoInsert_fresh (c : Config) (s : SimState) (tq : List Nat) (f : Nat)
    (hwf : WFfifoWith c s tq) (hf : f < c.nframes) (hmem : f ∉ tq) :
    WFfifoWith c (fifoInsert s f) (f :: tq) := by
  obtain ⟨hlen, hchain, htail, hhead, hnodup, hrange, hmap⟩ := hwf
  have hflen : f < s.ft.length := by rw [hlen]; exact hf
  cases tq with
  | nil =>
    have htail' : s.fifoTail = none := by rw [htail]; rfl
    simp only [fifoInsert, htail']
    refine ⟨by simp [ft_length_updF]; exact hlen, trivial, rfl, rfl, by simp, ?_, ?_⟩
    · intro x hx
      simp at hx
      subst hx
      exact hf
    · intro g hg
      by_cases hgf : g = f
      · subst hgf
        rw [getF_updF_self { s with fifoHead := some g, fifoTail := some g } g _ hflen]
        simp
      · rw [getF_updF_ne { s with fifoHead := some f, fifoTail := some f } f g _
          (fun he => hgf he.symm)]
        have hold := hmap g hg
        simp only [List.not_mem_nil, iff_false] at hold
        simp only [List.mem_cons, List.not_mem_nil, or_false, hgf, iff_false]
        exact hold
  | cons t rest =>
    have htail' : s.fifoTail = some t := by rw [htail]; rfl
    have hfl : (getF s f).f_list ≠ 1 := by
      intro h1
      exact hmem ((hmap f hf).1 h1)
    have htf : t ≠ f := by
      intro he
      exact hmem (he ▸ List.mem_cons_self t rest)
    have htlen : t < s.ft.length := by rw [hlen]; exact hrange t (List.mem_cons_self t rest)
    simp only [fifoInsert, htail']
    rw [if_neg hfl]
    set g1 : FNode → FNode := fun v => { v with next := some t, prev := none } with hg1
    set g2 : FNode → FNode := fun v => { v with prev := some f } with hg2
    set g4 : FNode → FNode := fun v => { v with f_list := 1 } with hg4
    set s1 := updF s f g1 with hs1
    set s2 := updF s1 t g2 with hs2
    set s3 : SimState := { s2 with fifoTail := some f } with hs3
    set s4 := updF s3 f g4 with hs4
    have h1len : s1.ft.length = s.ft.length := ft_length_updF s f g1
    have h2len : s2.ft.length = s.ft.length := by rw [hs2, ft_length_updF, h1len]
    have h3len : s3.ft.length = s.ft.length := h2len
    have h4len : s4.ft.length = s.ft.length := by rw [hs4, ft_length_updF, h3len]
    -- field computations
    have hgs1f : getF s1 f = g1 (getF s f) := getF_updF_self s f g1 hflen
    have hgs2f : getF s2 f = getF s1 f := getF_updF_ne s1 t f g2 htf
    have hgs3f : getF s3 f = getF s2 f := rfl
    have hgs4f : getF s4 f = g4 (getF s3 f) := getF_updF_self s3 f g4 (by rw [h3len]; exact hflen)
    have hft : getF s4 f = { getF s f with next := some t, prev := none, f_list := 1 } := by
      rw [hgs4f, hgs3f, hgs2f, hgs1f]
    have hgs1t : getF s1 t = getF s t := getF_updF_ne s f t g1 (fun he => htf he.symm)
    have hgs2t : getF s2 t = g2 (getF s1 t) := getF_updF_self s1 t g2 (by rw [h1len]; exact htlen)
    have hgs4t : getF s4 t = getF s3 t := getF_updF_ne s3 f t g4 (fun he => htf he.symm)
    have htt : getF s4 t = { getF s t with prev := some f } := by
      rw [hgs4t]
      show getF s2 t = _
      rw [hgs2t, hgs1t]
    have hother : ∀ z, z ≠ f → z ≠ t → getF s4 z = getF s z := by
      intro z hzf hzt
      rw [hs4, getF_updF_ne _ _ _ _ (fun he => hzf he.symm)]
      show getF s2 z = getF s z
      rw [hs2, getF_updF_ne _ _ _ _ (fun he => hzt he.symm), hs1,
        getF_updF_ne _ _ _ _ (fun he => hzf he.symm)]
    refine ⟨by rw [h4len]; exact hlen, ?_, rfl, ?_, ?_, ?_, ?_⟩
    · -- chain (f :: t :: rest)
      refine ⟨?_, ?_, ?_⟩
      · show (getF s4 f).next = some t
        rw [hft]
      · show (getF s4 t).prev = some f
        rw [htt]
      · -- FifoChain s4.ft (t :: rest)
        refine fifoChain_congr' s.ft s4.ft (t :: rest) ?_ ?_ hchain
        · intro z hz
          have hzmem : z ∈ t :: rest := List.dropLast_subset _ hz
          by_cases hzt : z = t
          · subst hzt
            show (getF s4 z).next = (getF s z).next
            rw [htt]
          · have hzf : z ≠ f := fun he => hmem (he ▸ hzmem)
            show (getF s4 z).next = (getF s z).next
            rw [hother z hzf hzt]
        · intro z hz
          have hzmem : z ∈ t :: rest := List.mem_cons_of_mem t hz
          have hzf : z ≠ f := fun he => hmem (he ▸ hzmem)
          have hzt : z ≠ t := by
            intro he
            subst he
            exact (List.nodup_cons.mp hnodup).1 hz
          show (getF s4 z).prev = (getF s z).prev
          rw [hother z hzf hzt]
    · show s.fifoHead = (f :: t :: rest).getLast?
      rw [hhead, List.getLast?_cons_cons]
    · exact List.nodup_cons.mpr ⟨hmem, hnodup⟩
    · intro x hx
      rcases List.mem_cons.mp hx with he | hm
      · subst he; exact hf
      · exact hrange x hm
    · intro g hg
      by_cases hgf : g = f
      · subst hgf
        rw [hft]
        simp
      · by_cases hgt : g = t
        · subst hgt
          rw [htt]
          have := hmap g hg
          simp only [List.mem_cons] at this ⊢
          show (getF s g).f_list = 1 ↔ _
          rw [this]
          simp [hgf]
        · rw [hother g hgf hgt]
          have := hmap g hg
          rw [this]
          simp [hgf]

end VMSim

namespace VMSim

theorem fifoRemove_last (c : Config) (s : SimState) (pre : List Nat) (last : Nat)
    (hwf : WFfifoWith c s (pre ++ [last])) :
    ∃ s', fifoRemove s = .ok (((last : Nat) : Int), s') ∧ WFfifoWith c s' pre := by
  obtain ⟨hlen, hchain, htail, hhead, hnodup, hrange, hmap⟩ := hwf
  have hhead' : s.fifoHead = some last := by rw [hhead, List.getLast?_concat]
  have hlastmem : last ∈ pre ++ [last] := by simp
  have hlastlen : last < s.ft.length := by rw [hlen]; exact hrange last hlastmem
  have hnd := List.nodup_append.mp hnodup
  have hlastpre : last ∉ pre := by
    intro hm
    exact hnd.2.2 hm (List.mem_singleton_self last)
  cases pre with
  | nil =>
    have htail' : s.fifoTail = some last := by rw [htail]; rfl
    refine ⟨{ updF s last (fun v => { v with f_list := 0 }) with
        fifoHead := none, fifoTail := none }, ?_, ?_⟩
    · simp only [fifoRemove, hhead']
      rw [htail', if_pos rfl]
    · refine ⟨by rw [ft_length_updF]; exact hlen, trivial, rfl, rfl, by simp, by simp, ?_⟩
      intro q hq
      have hqget : getF ({ updF s last (fun v => { v with f_list := 0 }) with
          fifoHead := none, fifoTail := none } : SimState) q
          = getF (updF s last (fun v => { v with f_list := 0 })) q := rfl
      rw [hqget]
      by_cases hql : q = last
      · subst hql
        rw [getF_updF_self s q _ hlastlen]
        simp
      · rw [getF_updF_ne s last q _ (fun he => hql he.symm)]
        have hold := hmap q hq
        simp only [List.nil_append, List.mem_singleton, hql, iff_false] at hold
        simp only [List.not_mem_nil, iff_false]
        exact hold
  | cons p0 pre' =>
    have htail' : s.fifoTail = some p0 := by rw [htail]; rfl
    have hp0mem : p0 ∈ (p0 :: pre') ++ [last] := by simp
    have hlp0 : last ≠ p0 := by
      intro he
      exact hlastpre (he ▸ List.mem_cons_self p0 pre')
    have hne : ¬ (s.fifoHead = s.fifoTail) := by
      rw [hhead', htail']
      intro he
      exact hlp0 (Option.some.inj he)
    obtain ⟨g, hg⟩ : ∃ g, (p0 :: pre').getLast? = some g := by
      cases hq : (p0 :: pre').getLast? with
        | none => simp [List.getLast?_eq_none_iff] at hq
        | some g => exact ⟨g, rfl⟩
    have hL : (p0 :: pre').dropLast ++ [g] = p0 :: pre' := List.dropLast_append_getLast? g hg
    have hgmem : g ∈ p0 :: pre' := by
      rw [← hL]
      simp
    have hgdrop : g ∉ (p0 :: pre').dropLast := by
      have : ((p0 :: pre').dropLast ++ [g]).Nodup := by rw [hL]; exact hnd.1
      intro hm
      exact (List.nodup_append.mp this).2.2 hm (List.mem_singleton_self g)
    have hglen : g < s.ft.length := by
      rw [hlen]
      exact hrange g (List.mem_append.mpr (Or.inl hgmem))
    have hgl : g ≠ last := by
      intro he
      exact hlastpre (he ▸ hgmem)
    have hlinks := fifoChain_last_prev s.ft (p0 :: pre') last g hg hchain
    set s1 := updF s last (fun v => { v with f_list := 0 }) with hs1
    have h1len : s1.ft.length = s.ft.length := ft_length_updF s last _
    have hs1prev : (getF s1 last).prev = some g := by
      rw [hs1, getF_updF_self s last _ hlastlen]
      exact hlinks.1
    set s2 : SimState := { s1 with fifoHead := some g } with hs2
    set s3 := updF s2 g (fun v => { v with next := none }) with hs3
    have h3len : s3.ft.length = s.ft.length := by
      rw [hs3, ft_length_updF]
      exact h1len
    have hgsl : getF s3 last = { getF s last with f_list := 0 } := by
      rw [hs3, getF_updF_ne _ _ _ _ hgl]
      show getF s1 last = _
      rw [hs1, getF_updF_self s last _ hlastlen]
    have hgs2g : getF s2 g = getF s g := by
      show getF s1 g = getF s g
      rw [hs1, getF_updF_ne _ _ _ _ (fun he => hgl he.symm)]
    have hgsg : getF s3 g = { getF s g with next := none } := by
      rw [hs3, getF_updF_self s2 g _ (by rw [show s2.ft.length = s1.ft.length from rfl, h1len]; exact hglen)]
      rw [hgs2g]
    have hother : ∀ z, z ≠ last → z ≠ g → getF s3 z = getF s z := by
      intro z hzl hzg
      rw [hs3, getF_updF_ne _ _ _ _ (fun he => hzg he.symm)]
      show getF s1 z = getF s z
      rw [hs1, getF_updF_ne _ _ _ _ (fun he => hzl he.symm)]
    refine ⟨s3, ?_, ?_⟩
    · simp only [fifoRemove, hhead', htail']
      rw [if_neg (fun he => hlp0 (Option.some.inj he)), hs1prev]
    · refine ⟨by rw [h3len]; exact hlen, ?_, htail', hg.symm, hnd.1, ?_, ?_⟩
      · refine fifoChain_congr' s.ft s3.ft (p0 :: pre') ?_ ?_
          (fifoChain_append_left s.ft (p0 :: pre') [last] hchain)
        · intro z hz
          have hzmem : z ∈ p0 :: pre' := List.dropLast_subset _ hz
          have hzl : z ≠ last := fun he => hlastpre (he ▸ hzmem)
          have hzg : z ≠ g := by
            intro he
            exact hgdrop (he ▸ hz)
          rw [show ((s3.ft.getD z FNode.zero) : FNode) = getF s3 z from rfl,
            show ((s.ft.getD z FNode.zero) : FNode) = getF s z from rfl,
            hother z hzl hzg]
        · intro z hz
          have hzmem : z ∈ p0 :: pre' := List.mem_cons_of_mem p0 hz
          have hzl : z ≠ last := fun he => hlastpre (he ▸ hzmem)
          rw [show ((s3.ft.getD z FNode.zero) : FNode) = getF s3 z from rfl,
            show ((s.ft.getD z FNode.zero) : FNode) = getF s z from rfl]
          by_cases hzg : z = g
          · subst hzg
            rw [hgsg]
          · rw [hother z hzl hzg]
      · intro x hx
        exact hrange x (List.mem_append.mpr (Or.inl hx))
      · intro q hq
        by_cases hql : q = last
        · subst hql
          rw [hgsl]
          simp only [show ((0 : Nat) = 1) = False from by simp, iff_false]
          simp only [false_iff]
          intro hm
          exact hlastpre hm
        · have hold := hmap q hq
          have hmemiff : (q ∈ (p0 :: pre') ++ [last]) ↔ q ∈ p0 :: pre' := by
            simp [List.mem_append, hql]
          by_cases hqg : q = g
          · subst hqg
            rw [hgsg]
            show (getF s q).f_list = 1 ↔ _
            rw [hold, hmemiff]
          · rw [hother q hql hqg, hold, hmemiff]

end VMSim

namespace VMSim

/-- C7: the FIFO policy's queue discipline.  `tq` lists the queue from
`fifo_tail` (newest) to `fifo_head` (oldest), so "insert at the tail"
prepends to `tq` and "remove the head" takes `tq`'s last element.  For any
well-formed queue: (i) inserting a frame already in the queue leaves the
state unchanged (idempotence); (ii) inserting a fresh frame yields the
well-formed queue with that frame at the tail end; (iii) removal returns
exactly the head (the oldest frame, the first inserted) and leaves the
well-formed remainder — so frames are evicted in insertion order;
(iv) concretely, with nframes = 2 and pages 0, 1, 2 loaded in that order
with no write upgrades, the third fault evicts the first-loaded frame
(its page 0 is invalidated and page 2 takes frame 0). -/
theorem c7_fifo_queue (c : Config) (s : SimState) (tq : List Nat) (f : Nat)
    (hwf : WFfifoWith c s tq) (hf : f < c.nframes) :
    (f ∈ tq → fifoInsert s f = s) ∧
    (f ∉ tq → WFfifoWith c (fifoInsert s f) (f :: tq)) ∧
    (∀ pre last, tq = pre ++ [last] →
      ∃ s', fifoRemove s = .ok (((last : Nat) : Int), s') ∧ WFfifoWith c s' pre) ∧
    ((resState ⟨3, 2⟩ (runFaults ⟨3, 2⟩ .fifo [(0, 0), (1, 0), (2, 0)])).stats.evictions = 1 ∧
      (getP (resState ⟨3, 2⟩ (runFaults ⟨3, 2⟩ .fifo [(0, 0), (1, 0), (2, 0)])) 0).bits
        = PROT_NONE ∧
      getP (resState ⟨3, 2⟩ (runFaults ⟨3, 2⟩ .fifo [(0, 0), (1, 0), (2, 0)])) 2
        = ⟨0, PROT_READ⟩) :=
  ⟨fun hm => fifoInsert_mem_eq c s tq f hwf hf hm,
   fun hm => fifoInsert_fresh c s tq f hwf hf hm,
   fun pre last he => fifoRemove_last c s pre last (he ▸ hwf),
   by decide⟩

/-- Witness for C7: idempotent re-insertion on a concrete one-element
queue, and a fresh insertion into the concrete empty initial queue. -/
theorem c7_fifo_queue_witness :
    fifoInsert demoState 0 = demoState ∧
    WFfifoWith ⟨2, 1⟩ (fifoInsert (initState ⟨2, 1⟩) 0) [0] :=
  ⟨(c7_fifo_queue ⟨2, 1⟩ demoState [0] 0 (by decide) (by decide)).1 (by decide),
   (c7_fifo_queue ⟨2, 1⟩ (initState ⟨2, 1⟩) [] 0 (by decide) (by decide)).2.1 (by decide)⟩

end VMSim

namespace VMSim

/-- Witness for C4: the capacity formulas evaluated at nframes = 3 and 7. -/
theorem c4_witness :
    ((3 < 5 → firstL 3 = 3 - 1 ∧ secondL 3 = 1) ∧
      (5 ≤ 3 → firstL 3 = (3 * 3 + 3) / 4 ∧ secondL 3 = 3 / 4)) ∧
    ((7 < 5 → firstL 7 = 7 - 1 ∧ secondL 7 = 1) ∧
      (5 ≤ 7 → firstL 7 = (3 * 7 + 3) / 4 ∧ secondL 7 = 7 / 4)) :=
  ⟨firstL_secondL_spec 3 (by decide), firstL_secondL_spec 7 (by decide)⟩

end VMSim

namespace VMSim

theorem evict_pf (s : SimState) (f : Nat) :
    (evict s f).stats.page_faults = s.stats.page_faults := by
  by_cases hw : ((getF s f).bits &&& PROT_WRITE) ≠ 0
  · simp only [evict, if_pos hw]
    rfl
  · simp only [evict, if_neg hw]
    rfl

theorem fifoInsert_stats (s : SimState) (f : Nat) :
    (fifoInsert s f).stats = s.stats := by
  unfold fifoInsert
  split
  · rfl
  · split
    · rfl
    · rfl

theorem commonTail_stats (s : SimState) (p fi b : Nat) :
    (commonTail s p fi b).stats = s.stats := rfl

theorem tail2fifo_stats (s : SimState) (p fi b : Nat) :
    (tail2fifo s p fi b).stats = s.stats := by
  unfold tail2fifo
  split
  · rfl
  · rfl

theorem fifoRemove_stats (s : SimState) (r : Int) (s' : SimState)
    (h : fifoRemove s = .ok (r, s')) : s'.stats = s.stats := by
  unfold fifoRemove at h
  split at h
  · cases h
    rfl
  · split at h
    · cases h
      rfl
    · dsimp only at h
      split at h
      · cases h
      · cases h
        rfl

theorem findCleanFrame_stats (c : Config) (s : SimState) (r : Int) (s' : SimState)
    (h : findCleanFrame c s = .ok (r, s')) : s'.stats = s.stats := by
  unfold findCleanFrame at h
  split at h
  · cases h
  · dsimp only at h
    split at h
    · cases h
    · cases h
      rfl
    · split at h
      · split at h
        · cases h
          rfl
        · cases h
          rfl
      · split at h
        · cases h
        · cases h
          split
          · rfl
          · rfl

theorem sfoRemove_stats (s : SimState) (n : Nat) (sel : HeadSel) (f : Nat) (s' : SimState)
    (h : sfoRemove s n sel = .ok (f, s')) : s'.stats = s.stats := by
  unfold sfoRemove at h
  split at h
  · cases h
  · split at h
    · dsimp only at h
      split at h
      · cases h
        show (setHead s sel (getF s f).next).stats = s.stats
        cases sel <;> rfl
      · cases h
        show (setHead s sel (getF s f).next).stats = s.stats
        cases sel <;> rfl
    · split at h
      · split at h
        · cases h
        · cases h
          rfl
      · split at h
        · split at h
          · cases h
          · cases h
            rfl
        · split at h
          · cases h
          · dsimp only at h
            split at h
            · cases h
            · cases h
              rfl

theorem sfoDemoteTail_pf (c : Config) (s s' : SimState)
    (h : sfoDemoteTail c s = .ok s') : s'.stats.page_faults = s.stats.page_faults := by
  unfold sfoDemoteTail at h
  split at h
  · cases h
  · dsimp only at h
    split at h
    · split at h
      · dsimp only [Res.bind] at h
        cases h
      · split at h
        · dsimp only [Res.bind] at h
          cases h
        · dsimp only [Res.bind] at h
          cases h
          exact evict_pf _ _
    · dsimp only [Res.bind] at h
      cases h
      rfl

theorem Res.bind_eq_ok {α β : Type} (m : Res α) (k : α → Res β) (b : β)
    (h : Res.bind m k = .ok b) : ∃ a, m = .ok a ∧ k a = .ok b := by
  cases m with
  | ok a => exact ⟨a, rfl, h⟩
  | halted => cases h
  | crashed => cases h

theorem sfoCascade_pf (c : Config) (sK s' : SimState)
    (h : sfoCascade c sK = .ok s') : s'.stats.page_faults = sK.stats.page_faults := by
  unfold sfoCascade at h
  split at h
  · dsimp only at h
    obtain ⟨a, hm, hd⟩ := Res.bind_eq_ok _ _ _ h
    have ha : a.stats = sK.stats := by
      split at hm
      · split at hm
        · cases hm
        · split at hm
          · cases hm
          · cases hm
            rfl
      · split at hm
        · cases hm
        · split at hm
          · cases hm
          · cases hm
          · rename_i x2 sA2 heq2
            split at hm
            · cases hm
            · cases hm
              have hx := sfoRemove_stats _ _ _ _ _ heq2
              exact hx
    rw [sfoDemoteTail_pf c a s' hd, ha]
  · cases h
    rfl

theorem sfoInsert_pf (c : Config) (s : SimState) (n : Nat) (s' : SimState)
    (h : sfoInsert c s n = .ok s') : s'.stats.page_faults = s.stats.page_faults := by
  unfold sfoInsert at h
  obtain ⟨sI, hi, hc⟩ := Res.bind_eq_ok _ _ _ h
  have hIs : sI.stats = s.stats := by
    unfold sfoAppend at hi
    split at hi
    · cases hi
      rfl
    · split at hi
      · cases hi
      · dsimp only at hi
        cases hi
        rfl
  have hcpf := sfoCascade_pf c _ s' hc
  rw [hcpf]
  show sI.stats.page_faults = s.stats.page_faults
  rw [hIs]

end VMSim

namespace VMSim

theorem handlerRand_pf (c : Config) (r : Nat) (s : SimState) (p : Nat) (s' : SimState)
    (h : handlerRand c r s p = .ok s') : s'.stats.page_faults = s.stats.page_faults := by
  unfold handlerRand at h
  dsimp only at h
  by_cases h0 : (getP s p).bits = 0
  · rw [if_pos h0] at h
    by_cases hff : findFreeFrame c s < 0
    · rw [if_pos hff] at h
      cases h
      exact evict_pf _ _
    · rw [if_neg hff] at h
      cases h
      rfl
  · rw [if_neg h0] at h
    by_cases h1 : (getP s p).bits &&& PROT_READ ≠ 0 ∧ (getP s p).bits &&& PROT_WRITE = 0
    · rw [if_pos h1] at h
      cases h
      rfl
    · rw [if_neg h1] at h
      cases h
      rfl

theorem handlerFifo_pf (c : Config) (s : SimState) (p : Nat) (s' : SimState)
    (h : handlerFifo c s p = .ok s') : s'.stats.page_faults = s.stats.page_faults := by
  unfold handlerFifo at h
  dsimp only at h
  by_cases h0 : (getP s p).bits = 0
  · rw [if_pos h0] at h
    by_cases hff : findFreeFrame c s < 0
    · rw [if_pos hff] at h
      split at h
      · cases h
      · cases h
      · rename_i fi s1 heq
        by_cases hfi : fi < 0
        · rw [if_pos hfi] at h
          cases h
          rw [(fifoRemove_stats s fi s' heq : s'.stats = s.stats)]
        · rw [if_neg hfi] at h
          cases h
          rw [fifoInsert_stats]
          show (evict s1 fi.toNat).stats.page_faults = s.stats.page_faults
          rw [evict_pf s1 fi.toNat, (fifoRemove_stats s fi s1 heq : s1.stats = s.stats)]
    · rw [if_neg hff] at h
      cases h
      rw [fifoInsert_stats]
      rfl
  · rw [if_neg h0] at h
    by_cases h1 : (getP s p).bits &&& PROT_READ ≠ 0 ∧ (getP s p).bits &&& PROT_WRITE = 0
    · rw [if_pos h1] at h
      cases h
      rw [fifoInsert_stats]
      rfl
    · rw [if_neg h1] at h
      cases h
      rfl

theorem handlerCustom_pf (c : Config) (s : SimState) (p : Nat) (s' : SimState)
    (h : handlerCustom c s p = .ok s') : s'.stats.page_faults = s.stats.page_faults := by
  unfold handlerCustom at h
  dsimp only at h
  by_cases h0 : (getP s p).bits = 0
  · rw [if_pos h0] at h
    by_cases hff : findFreeFrame c s < 0
    · rw [if_pos hff] at h
      split at h
      · cases h
      · cases h
      · rename_i fc s1 heqc
        by_cases hfc : fc < 0
        · rw [if_pos hfc] at h
          split at h
          · cases h
          · cases h
          · rename_i fi s2 heqr
            by_cases hfi : fi < 0
            · rw [if_pos hfi] at h
              cases h
              rw [(fifoRemove_stats s1 fi s' heqr : s'.stats = s1.stats),
                (findCleanFrame_stats c s fc s1 heqc : s1.stats = s.stats)]
            · rw [if_neg hfi] at h
              cases h
              rw [fifoInsert_stats]
              show (evict s2 fi.toNat).stats.page_faults = s.stats.page_faults
              rw [evict_pf s2 fi.toNat,
                (fifoRemove_stats s1 fi s2 heqr : s2.stats = s1.stats),
                (findCleanFrame_stats c s fc s1 heqc : s1.stats = s.stats)]
        · rw [if_neg hfc] at h
          cases h
          rw [fifoInsert_stats]
          show (evict s1 fc.toNat).stats.page_faults = s.stats.page_faults
          rw [evict_pf s1 fc.toNat,
            (findCleanFrame_stats c s fc s1 heqc : s1.stats = s.stats)]
    · rw [if_neg hff] at h
      cases h
      rw [fifoInsert_stats]
      rfl
  · rw [if_neg h0] at h
    by_cases h1 : (getP s p).bits &&& PROT_READ ≠ 0 ∧ (getP s p).bits &&& PROT_WRITE = 0
    · rw [if_pos h1] at h
      cases h
      rw [fifoInsert_stats]
      rfl
    · rw [if_neg h1] at h
      cases h
      rfl

theorem handler2fifo_pf (c : Config) (s : SimState) (p : Nat) (s' : SimState)
    (h : handler2fifo c s p = .ok s') : s'.stats.page_faults = s.stats.page_faults := by
  unfold handler2fifo at h
  dsimp only at h
  by_cases h0 : (getP s p).bits = PROT_NONE
  · rw [if_pos h0] at h
    by_cases hp2 : p = (getF s (getP s p).frame).page ∧ (getF s (getP s p).frame).f_list = 2
    · rw [if_pos hp2] at h
      split at h
      · cases h
      · cases h
      · rename_i x1 s1 heqr
        split at h
        · cases h
        · cases h
        · rename_i s3 heqi
          cases h
          rw [tail2fifo_stats]
          show s3.stats.page_faults = s.stats.page_faults
          rw [sfoInsert_pf c _ _ s3 heqi]
          show s1.stats.page_faults = s.stats.page_faults
          rw [(sfoRemove_stats _ _ _ _ _ heqr : s1.stats = s.stats)]
    · rw [if_neg hp2] at h
      by_cases hp1 : p = (getF s (getP s p).frame).page ∧ (getF s (getP s p).frame).f_list = 1
      · rw [if_pos hp1] at h
        cases h
      · rw [if_neg hp1] at h
        obtain ⟨fs1, hacq, hrest⟩ := Res.bind_eq_ok _ _ _ h
        have hfs : fs1.2.stats.page_faults = s.stats.page_faults := by
          by_cases hff : findFreeFrame c s = -1
          · rw [if_pos hff] at hacq
            obtain ⟨fs0, hrem, hev⟩ := Res.bind_eq_ok _ _ _ hacq
            have hfs0 : fs0.2.stats = s.stats := by
              by_cases hsf : s.sfHead = none
              · rw [if_pos hsf] at hrem
                split at hrem
                · cases hrem
                · split at hrem
                  · cases hrem
                  · cases hrem
                  · rename_i fi s1 heqr
                    cases hrem
                    have hx := sfoRemove_stats _ _ _ _ _ heqr
                    exact hx
              · rw [if_neg hsf] at hrem
                split at hrem
                · cases hrem
                · split at hrem
                  · cases hrem
                  · cases hrem
                  · rename_i fi s1 heqr
                    cases hrem
                    have hx := sfoRemove_stats _ _ _ _ _ heqr
                    exact hx
            cases hev
            show (evict fs0.2 fs0.1).stats.page_faults = s.stats.page_faults
            rw [evict_pf, hfs0]
          · rw [if_neg hff] at hacq
            cases hacq
            rfl
        split at hrest
        · cases hrest
        · cases hrest
        · rename_i s3 heqi
          cases hrest
          rw [tail2fifo_stats]
          show s3.stats.page_faults = s.stats.page_faults
          rw [sfoInsert_pf c _ _ s3 heqi]
          exact hfs
  · rw [if_neg h0] at h
    by_cases h1 : (getP s p).bits &&& PROT_READ ≠ 0 ∧ (getP s p).bits &&& PROT_WRITE = 0
    · rw [if_pos h1] at h
      cases h
      rw [tail2fifo_stats]
    · rw [if_neg h1] at h
      cases h
      rfl

/-- C9: every invocation of the fault dispatcher that completes (including
the fatal all-bits-set branch, which only warns and returns) increments
`page_faults` by exactly one — the increment happens at dispatch entry and
no policy handler ever touches the counter. -/
theorem c9_dispatch_counts_once (c : Config) (pol : Policy) (r : Nat) (s : SimState)
    (page : Nat) (s' : SimState) (h : pageFaultHandler c pol r s page = .ok s') :
    s'.stats.page_faults = s.stats.page_faults + 1 := by
  unfold pageFaultHandler at h
  cases pol with
  | rand => exact handlerRand_pf c r _ page s' h
  | fifo => exact handlerFifo_pf c _ page s' h
  | twoFifo => exact handler2fifo_pf c _ page s' h
  | custom => exact handlerCustom_pf c _ page s' h

end VMSim

namespace VMSim

/-- Witness for C9: a dispatcher invocation on `demoState`, whose page 0
already has both protection bits — the fatal warn-and-return branch — still
bumps the counter from 5 to 6. -/
theorem c9_witness :
    (resState ⟨2, 1⟩ (pageFaultHandler ⟨2, 1⟩ .fifo 0 demoState 0)).stats.page_faults
      = demoState.stats.page_faults + 1 :=
  c9_dispatch_counts_once ⟨2, 1⟩ .fifo 0 demoState 0
    (resState ⟨2, 1⟩ (pageFaultHandler ⟨2, 1⟩ .fifo 0 demoState 0)) (by decide)

end VMSim

namespace VMSim

theorem fifoInsert_pt (s : SimState) (f : Nat) : (fifoInsert s f).pt = s.pt := by
  unfold fifoInsert
  split
  · rfl
  · split
    · rfl
    · rfl

theorem commonTail_getP (s : SimState) (p fi b : Nat) (hp : p < s.pt.length) :
    getP (commonTail s p fi b) p = ⟨fi, b⟩ :=
  getP_setEntry_self s p fi b hp

theorem tail2fifo_getP (s : SimState) (p fi b : Nat) (hp : p < s.pt.length)
    (hne : (getF s fi).f_list ≠ 2) :
    getP (tail2fifo s p fi b) p = ⟨fi, b⟩ := by
  unfold tail2fifo
  rw [if_pos hne]
  exact getP_setEntry_self s p fi b hp

theorem handlerRand_upgrade (c : Config) (r : Nat) (s : SimState) (p : Nat)
    (hbits : (getP s p).bits = PROT_READ) :
    handlerRand c r s p
      = .ok (commonTail s p (getP s p).frame ((getP s p).bits ||| PROT_WRITE)) := by
  unfold handlerRand
  dsimp only
  rw [if_neg (by rw [hbits]; decide),
    if_pos (⟨by rw [hbits]; decide, by rw [hbits]; decide⟩ :
      (getP s p).bits &&& PROT_READ ≠ 0 ∧ (getP s p).bits &&& PROT_WRITE = 0)]

theorem handlerFifo_upgrade (c : Config) (s : SimState) (p : Nat)
    (hbits : (getP s p).bits = PROT_READ) :
    handlerFifo c s p
      = .ok (fifoInsert (commonTail s p (getP s p).frame ((getP s p).bits ||| PROT_WRITE))
          (getP s p).frame) := by
  unfold handlerFifo
  dsimp only
  rw [if_neg (by rw [hbits]; decide),
    if_pos (⟨by rw [hbits]; decide, by rw [hbits]; decide⟩ :
      (getP s p).bits &&& PROT_READ ≠ 0 ∧ (getP s p).bits &&& PROT_WRITE = 0)]

theorem handlerCustom_upgrade (c : Config) (s : SimState) (p : Nat)
    (hbits : (getP s p).bits = PROT_READ) :
    handlerCustom c s p
      = .ok (fifoInsert (commonTail s p (getP s p).frame ((getP s p).bits ||| PROT_WRITE))
          (getP s p).frame) := by
  unfold handlerCustom
  dsimp only
  rw [if_neg (by rw [hbits]; decide),
    if_pos (⟨by rw [hbits]; decide, by rw [hbits]; decide⟩ :
      (getP s p).bits &&& PROT_READ ≠ 0 ∧ (getP s p).bits &&& PROT_WRITE = 0)]

theorem handler2fifo_upgrade (c : Config) (s : SimState) (p : Nat)
    (hbits : (getP s p).bits = PROT_READ) :
    handler2fifo c s p
      = .ok (tail2fifo s p (getP s p).frame ((getP s p).bits ||| PROT_WRITE)) := by
  unfold handler2fifo
  dsimp only
  rw [if_neg (by rw [hbits]; decide),
    if_pos (⟨by rw [hbits]; decide, by rw [hbits]; decide⟩ :
      (getP s p).bits &&& PROT_READ ≠ 0 ∧ (getP s p).bits &&& PROT_WRITE = 0)]

end VMSim

namespace VMSim

/-- C8: a fault on a page whose protection is exactly Readable (a write
upgrade) issues no disk I/O and no eviction under every policy: the read,
write and eviction counters are unchanged, and the page keeps its frame
while its protection becomes Readable+Writable.  For 2FIFO the page's frame
must not be tracked in the second-chance list (a state the code never
creates for a page with live Readable protection, since demotion strips the
page-table protection first). -/
theorem c8_write_upgrade (c : Config) (pol : Policy) (r : Nat) (s : SimState) (p : Nat)
    (hp : p < s.pt.length) (hbits : (getP s p).bits = PROT_READ)
    (h2f : pol = .twoFifo → (getF s (getP s p).frame).f_list ≠ 2) :
    pageFaultHandler c pol r s p = .ok (resState c (pageFaultHandler c pol r s p)) ∧
    (resState c (pageFaultHandler c pol r s p)).stats.disk_reads = s.stats.disk_reads ∧
    (resState c (pageFaultHandler c pol r s p)).stats.disk_writes = s.stats.disk_writes ∧
    (resState c (pageFaultHandler c pol r s p)).stats.evictions = s.stats.evictions ∧
    getP (resState c (pageFaultHandler c pol r s p)) p
      = ⟨(getP s p).frame, PROT_READ ||| PROT_WRITE⟩ := by
  set s1 : SimState :=
    { s with stats := { s.stats with page_faults := s.stats.page_faults + 1 } } with hs1
  cases pol with
  | rand =>
    have heq : pageFaultHandler c .rand r s p
        = .ok (commonTail s1 p (getP s p).frame ((getP s p).bits ||| PROT_WRITE)) :=
      handlerRand_upgrade c r s1 p hbits
    rw [heq]
    refine ⟨rfl, rfl, rfl, rfl, ?_⟩
    show getP (commonTail s1 p (getP s p).frame ((getP s p).bits ||| PROT_WRITE)) p = _
    rw [commonTail_getP s1 p _ _ hp, hbits]
  | fifo =>
    have heq : pageFaultHandler c .fifo r s p
        = .ok (fifoInsert (commonTail s1 p (getP s p).frame
            ((getP s p).bits ||| PROT_WRITE)) (getP s p).frame) :=
      handlerFifo_upgrade c s1 p hbits
    rw [heq]
    have hstats : (fifoInsert (commonTail s1 p (getP s p).frame
        ((getP s p).bits ||| PROT_WRITE)) (getP s p).frame).stats = s1.stats :=
      fifoInsert_stats _ _
    refine ⟨rfl, ?_, ?_, ?_, ?_⟩
    · show (fifoInsert (commonTail s1 p (getP s p).frame
          ((getP s p).bits ||| PROT_WRITE)) (getP s p).frame).stats.disk_reads = _
      rw [hstats]
    · show (fifoInsert (commonTail s1 p (getP s p).frame
          ((getP s p).bits ||| PROT_WRITE)) (getP s p).frame).stats.disk_writes = _
      rw [hstats]
    · show (fifoInsert (commonTail s1 p (getP s p).frame
          ((getP s p).bits ||| PROT_WRITE)) (getP s p).frame).stats.evictions = _
      rw [hstats]
    · show getP (fifoInsert (commonTail s1 p (getP s p).frame
          ((getP s p).bits ||| PROT_WRITE)) (getP s p).frame) p = _
      have hpt : getP (fifoInsert (commonTail s1 p (getP s p).frame
            ((getP s p).bits ||| PROT_WRITE)) (getP s p).frame) p
          = getP (commonTail s1 p (getP s p).frame ((getP s p).bits ||| PROT_WRITE)) p := by
        unfold getP
        rw [fifoInsert_pt]
      rw [hpt, commonTail_getP s1 p _ _ hp, hbits]
  | custom =>
    have heq : pageFaultHandler c .custom r s p
        = .ok (fifoInsert (commonTail s1 p (getP s p).frame
            ((getP s p).bits ||| PROT_WRITE)) (getP s p).frame) :=
      handlerCustom_upgrade c s1 p hbits
    rw [heq]
    have hstats : (fifoInsert (commonTail s1 p (getP s p).frame
        ((getP s p).bits ||| PROT_WRITE)) (getP s p).frame).stats = s1.stats :=
      fifoInsert_stats _ _
    refine ⟨rfl, ?_, ?_, ?_, ?_⟩
    · show (fifoInsert (commonTail s1 p (getP s p).frame
          ((getP s p).bits ||| PROT_WRITE)) (getP s p).frame).stats.disk_reads = _
      rw [hstats]
    · show (fifoInsert (commonTail s1 p (getP s p).frame
          ((getP s p).bits ||| PROT_WRITE)) (getP s p).frame).stats.disk_writes = _
      rw [hstats]
    · show (fifoInsert (commonTail s1 p (getP s p).frame
          ((getP s p).bits ||| PROT_WRITE)) (getP s p).frame).stats.evictions = _
      rw [hstats]
    · show getP (fifoInsert (commonTail s1 p (getP s p).frame
          ((getP s p).bits ||| PROT_WRITE)) (getP s p).frame) p = _
      have hpt : getP (fifoInsert (commonTail s1 p (getP s p).frame
            ((getP s p).bits ||| PROT_WRITE)) (getP s p).frame) p
          = getP (commonTail s1 p (getP s p).frame ((getP s p).bits ||| PROT_WRITE)) p := by
        unfold getP
        rw [fifoInsert_pt]
      rw [hpt, commonTail_getP s1 p _ _ hp, hbits]
  | twoFifo =>
    have heq : pageFaultHandler c .twoFifo r s p
        = .ok (tail2fifo s1 p (getP s p).frame ((getP s p).bits ||| PROT_WRITE)) :=
      handler2fifo_upgrade c s1 p hbits
    rw [heq]
    have hstats : (tail2fifo s1 p (getP s p).frame
        ((getP s p).bits ||| PROT_WRITE)).stats = s1.stats :=
      tail2fifo_stats _ _ _ _
    refine ⟨rfl, ?_, ?_, ?_, ?_⟩
    · show (tail2fifo s1 p (getP s p).frame
          ((getP s p).bits ||| PROT_WRITE)).stats.disk_reads = _
      rw [hstats]
    · show (tail2fifo s1 p (getP s p).frame
          ((getP s p).bits ||| PROT_WRITE)).stats.disk_writes = _
      rw [hstats]
    · show (tail2fifo s1 p (getP s p).frame
          ((getP s p).bits ||| PROT_WRITE)).stats.evictions = _
      rw [hstats]
    · show getP (tail2fifo s1 p (getP s p).frame ((getP s p).bits ||| PROT_WRITE)) p = _
      rw [tail2fifo_getP s1 p _ _ hp (h2f rfl), hbits]

end VMSim

namespace VMSim

/-- Witness for C8: the write-upgrade fault on page 0 of `upgState`
(loaded read-only at frame 0) under the FIFO policy. -/
theorem c8_witness :
    pageFaultHandler ⟨3, 2⟩ .fifo 0 upgState 0
        = .ok (resState ⟨3, 2⟩ (pageFaultHandler ⟨3, 2⟩ .fifo 0 upgState 0)) ∧
    (resState ⟨3, 2⟩ (pageFaultHandler ⟨3, 2⟩ .fifo 0 upgState 0)).stats.disk_reads
        = upgState.stats.disk_reads ∧
    (resState ⟨3, 2⟩ (pageFaultHandler ⟨3, 2⟩ .fifo 0 upgState 0)).stats.disk_writes
        = upgState.stats.disk_writes ∧
    (resState ⟨3, 2⟩ (pageFaultHandler ⟨3, 2⟩ .fifo 0 upgState 0)).stats.evictions
        = upgState.stats.evictions ∧
    getP (resState ⟨3, 2⟩ (pageFaultHandler ⟨3, 2⟩ .fifo 0 upgState 0)) 0
        = ⟨(getP upgState 0).frame, PROT_READ ||| PROT_WRITE⟩ :=
  c8_write_upgrade ⟨3, 2⟩ .fifo 0 upgState 0 (by decide) (by decide) (by decide)

end VMSim

namespace VMSim

theorem optR_some (c : Config) (i : Nat) (h : optR c (some i)) : i < c.nframes := h

theorem getF_updF (s : SimState) (i j : Nat) (g : FNode → FNode) :
    getF (updF s i g) j = if i = j ∧ i < s.ft.length then g (getF s i) else getF s j := by
  by_cases hij : i = j
  · subst hij
    by_cases hi : i < s.ft.length
    · rw [getF_updF_self s i g hi, if_pos ⟨rfl, hi⟩]
    · rw [if_neg (fun hc => hi hc.2)]
      unfold getF updF
      rw [List.set_eq_of_length_le (Nat.le_of_not_lt hi)]
  · rw [getF_updF_ne s i j g hij, if_neg (fun hc => hij hc.1)]

theorem getP_setEntry (s : SimState) (p frame bits q : Nat) :
    getP (setEntry s p frame bits) q
      = if p = q ∧ p < s.pt.length then ⟨frame, bits⟩ else getP s q := by
  by_cases hpq : p = q
  · subst hpq
    by_cases hp : p < s.pt.length
    · rw [getP_setEntry_self s p frame bits hp, if_pos ⟨rfl, hp⟩]
    · rw [if_neg (fun hc => hp hc.2)]
      unfold getP setEntry
      rw [List.set_eq_of_length_le (Nat.le_of_not_lt hp)]
  · rw [getP_setEntry_ne s p frame bits q hpq, if_neg (fun hc => hpq hc.1)]

theorem InvThree_transfer (c : Config) (s s' : SimState)
    (hpt : s'.pt = s.pt) (hlen : s'.ft.length = s.ft.length)
    (hcore : ∀ i, (getF s' i).page = (getF s i).page ∧ (getF s' i).bits = (getF s i).bits ∧
      (getF s' i).free = (getF s i).free)
    (hlk : ∀ f, f < c.nframes → optR c (getF s' f).next ∧ optR c (getF s' f).prev)
    (hh : optR c s'.fifoHead) (ht : optR c s'.fifoTail)
    (hinv : InvThree c s) : InvThree c s' := by
  obtain ⟨h1, h2, h3, h4, h5, h6, h7, h8⟩ := hinv
  have hgp : ∀ p, getP s' p = getP s p := by
    intro p
    unfold getP
    rw [hpt]
  refine ⟨by rw [hpt]; exact h1, by rw [hlen]; exact h2, ?_, ?_, ?_, hlk, hh, ht⟩
  · intro p hp
    rw [hgp]
    exact h3 p hp
  · intro f hf hfree
    rw [(hcore f).1, (hcore f).2.1, hgp, (hcore f).2.2]
    rw [(hcore f).2.2] at hfree
    exact h4 f hf hfree
  · intro p hp hb
    rw [hgp] at hb ⊢
    rw [(hcore ((getP s p).frame)).2.2, (hcore ((getP s p).frame)).1]
    exact h5 p hp hb

theorem fifoInsert_inv (c : Config) (s : SimState) (f : Nat)
    (hinv : InvThree c s) (hf : f < c.nframes) : InvThree c (fifoInsert s f) := by
  have h6 := hinv.2.2.2.2.2.1
  have h8 := hinv.2.2.2.2.2.2.2
  have hlen2 := hinv.2.1
  unfold fifoInsert
  split
  · refine InvThree_transfer c s _ rfl (by simp [updF]) ?_ ?_ hf hf hinv
    · intro i
      simp only [show ∀ (s1 : SimState) (hd tl : Option Nat),
        getF { s1 with fifoHead := hd, fifoTail := tl } i = getF s1 i from fun _ _ _ => rfl]
      rw [getF_updF]
      split
      · rename_i hcond
        rw [hcond.1]
        exact ⟨rfl, rfl, rfl⟩
      · exact ⟨rfl, rfl, rfl⟩
    · intro g hg
      simp only [show ∀ (s1 : SimState) (hd tl : Option Nat),
        getF { s1 with fifoHead := hd, fifoTail := tl } g = getF s1 g from fun _ _ _ => rfl]
      rw [getF_updF]
      split
      · exact h6 f hf
      · exact h6 g hg
  · rename_i t heq
    split
    · exact hinv
    · have ht : t < c.nframes := optR_some c t (heq ▸ h8)
      have h7 := hinv.2.2.2.2.2.2.1
      have hstrip : ∀ (s1 : SimState) (tl : Option Nat) (i : Nat),
          getF { s1 with fifoTail := tl } i = getF s1 i := fun _ _ _ => rfl
      have hstriplen : ∀ (s1 : SimState) (tl : Option Nat),
          ({ s1 with fifoTail := tl } : SimState).ft.length = s1.ft.length := fun _ _ => rfl
      dsimp only
      refine InvThree_transfer c s _ rfl ?_ ?_ ?_ h7 hf hinv
      · simp [updF]
      · intro i
        simp only [hstrip, getF_updF, ft_length_updF, hstriplen]
        split_ifs
        all_goals try dsimp only
        all_goals try exact ⟨rfl, rfl, rfl⟩
        all_goals casesm* _ ∧ _
        all_goals subst_vars
        all_goals exact ⟨rfl, rfl, rfl⟩
      · intro g hg
        simp only [hstrip, getF_updF, ft_length_updF, hstriplen]
        split_ifs
        all_goals try dsimp only
        all_goals try casesm* _ ∧ _
        all_goals try subst_vars
        all_goals refine ⟨?_, ?_⟩
        all_goals first
          | trivial
          | exact ht
          | exact hf
          | exact hg
          | exact (h6 _ hg).1
          | exact (h6 _ hg).2
          | exact (h6 _ hf).1
          | exact (h6 _ hf).2
          | exact (h6 _ ht).1
          | exact (h6 _ ht).2

end VMSim

namespace VMSim

theorem fifoRemove_inv (c : Config) (s : SimState) (r : Int) (s' : SimState)
    (hinv : InvThree c s) (h : fifoRemove s = .ok (r, s')) :
    InvThree c s' ∧ (r < 0 ∨ r.toNat < c.nframes) := by
  have h6 := hinv.2.2.2.2.2.1
  have h7 := hinv.2.2.2.2.2.2.1
  have hlen2 := hinv.2.1
  unfold fifoRemove at h
  split at h
  · cases h
    exact ⟨hinv, Or.inl (by decide)⟩
  · rename_i hd heq
    have hhd : hd < c.nframes := optR_some c hd (heq ▸ h7)
    split at h
    · cases h
      refine ⟨?_, Or.inr (by simpa using hhd)⟩
      have hstrip : ∀ (s1 : SimState) (hd2 tl : Option Nat) (i : Nat),
          getF { s1 with fifoHead := hd2, fifoTail := tl } i = getF s1 i := fun _ _ _ _ => rfl
      refine InvThree_transfer c s _ rfl (by simp [updF]) ?_ ?_ trivial trivial hinv
      · intro i
        simp only [hstrip, getF_updF]
        split_ifs
        all_goals try dsimp only
        all_goals try exact ⟨rfl, rfl, rfl⟩
        all_goals casesm* _ ∧ _
        all_goals subst_vars
        all_goals exact ⟨rfl, rfl, rfl⟩
      · intro g hg
        simp only [hstrip, getF_updF]
        split_ifs
        all_goals try dsimp only
        all_goals try casesm* _ ∧ _
        all_goals try subst_vars
        all_goals exact h6 _ hg
    · dsimp only at h
      split at h
      · cases h
      · rename_i h2 heq2
        have hprev : (getF s hd).prev = some h2 := by
          rw [getF_updF] at heq2
          split at heq2
          · exact heq2
          · exact heq2
        have hh2 : h2 < c.nframes := optR_some c h2 (hprev ▸ (h6 hd hhd).2)
        cases h
        refine ⟨?_, Or.inr (by simpa using hhd)⟩
        have hstrip : ∀ (s1 : SimState) (hd2 : Option Nat) (i : Nat),
            getF { s1 with fifoHead := hd2 } i = getF s1 i := fun _ _ _ => rfl
        have hstriplen : ∀ (s1 : SimState) (hd2 : Option Nat),
            ({ s1 with fifoHead := hd2 } : SimState).ft.length = s1.ft.length := fun _ _ => rfl
        refine InvThree_transfer c s _ rfl ?_ ?_ ?_ hh2 hinv.2.2.2.2.2.2.2 hinv
        · simp [updF]
        · intro i
          simp only [hstrip, getF_updF, ft_length_updF, hstriplen]
          split_ifs
          all_goals try dsimp only
          all_goals try exact ⟨rfl, rfl, rfl⟩
          all_goals casesm* _ ∧ _
          all_goals subst_vars
          all_goals exact ⟨rfl, rfl, rfl⟩
        · intro g hg
          simp only [hstrip, getF_updF, ft_length_updF, hstriplen]
          split_ifs
          all_goals try dsimp only
          all_goals try casesm* _ ∧ _
          all_goals try subst_vars
          all_goals refine ⟨?_, ?_⟩
          all_goals first
            | trivial
            | exact hhd
            | exact hh2
            | exact hg
            | exact (h6 _ hg).1
            | exact (h6 _ hg).2
            | exact (h6 _ hhd).1
            | exact (h6 _ hhd).2
            | exact (h6 _ hh2).1
            | exact (h6 _ hh2).2

end VMSim

namespace VMSim

theorem fcfScan_range (c : Config) (s : SimState) (chance : Nat)
    (hlk : ∀ f, f < c.nframes → optR c (getF s f).next) :
    ∀ (fuel : Nat) (node : Option Nat) (i : Nat) (cand : Option Nat),
      optR c node → optR c cand →
      ∀ res, fcfScan s chance fuel node i cand = some res → optR c res
  | 0, node, i, cand, hn, hc, res, h => by cases h
  | fuel + 1, none, i, cand, hn, hc, res, h => by
    simp only [fcfScan] at h
    cases h
    exact hc
  | fuel + 1, some x, i, cand, hn, hc, res, h => by
    simp only [fcfScan] at h
    split at h
    · split at h
      · exact fcfScan_range c s chance hlk fuel _ (i + 1) (some x) (hlk x hn) hn res h
      · exact fcfScan_range c s chance hlk fuel _ i cand (hlk x hn) hc res h
    · cases h
      exact hc

theorem findCleanFrame_inv (c : Config) (s : SimState) (r : Int) (s' : SimState)
    (hinv : InvThree c s) (h : findCleanFrame c s = .ok (r, s')) :
    InvThree c s' ∧ (r < 0 ∨ r.toNat < c.nframes) := by
  have h6 := hinv.2.2.2.2.2.1
  have h7 := hinv.2.2.2.2.2.2.1
  have h8 := hinv.2.2.2.2.2.2.2
  unfold findCleanFrame at h
  split at h
  · cases h
  · rename_i t heq
    have ht : t < c.nframes := optR_some c t (heq ▸ h8)
    dsimp only at h
    split at h
    · cases h
    · cases h
      exact ⟨hinv, Or.inl (by decide)⟩
    · rename_i cand heqs
      have hcand : cand < c.nframes := by
        have := fcfScan_range c s (c.nframes * 5 / 6)
          (fun f hf => (h6 f hf).1) (c.nframes + 1) ((getF s t).next) 0 none
          ((h6 t ht).1) trivial (some cand) heqs
        exact this
      have hcnext : optR c (getF s cand).next := (h6 cand hcand).1
      have hcprev : optR c (getF s cand).prev := (h6 cand hcand).2
      split at h
      · -- cand is the tail
        split at h
        · rename_i nt heqn
          have hnt : nt < c.nframes := optR_some c nt (heqn ▸ hcnext)
          cases h
          refine ⟨?_, Or.inr (by simpa using hcand)⟩
          have hstrip : ∀ (s1 : SimState) (tl : Option Nat) (i : Nat),
              getF { s1 with fifoTail := tl } i = getF s1 i := fun _ _ _ => rfl
          have hstriplen : ∀ (s1 : SimState) (tl : Option Nat),
              ({ s1 with fifoTail := tl } : SimState).ft.length = s1.ft.length := fun _ _ => rfl
          refine InvThree_transfer c s _ rfl ?_ ?_ ?_ h7 (heqn ▸ hcnext) hinv
          · simp [updF]
          · intro i
            simp only [hstrip, getF_updF, ft_length_updF, hstriplen]
            split_ifs
            all_goals try dsimp only
            all_goals try exact ⟨rfl, rfl, rfl⟩
            all_goals casesm* _ ∧ _
            all_goals subst_vars
            all_goals exact ⟨rfl, rfl, rfl⟩
          · intro g hg
            simp only [hstrip, getF_updF, ft_length_updF, hstriplen]
            split_ifs
            all_goals try dsimp only
            all_goals try casesm* _ ∧ _
            all_goals try subst_vars
            all_goals refine ⟨?_, ?_⟩
            all_goals first
              | trivial
              | exact hcand
              | exact hnt
              | exact hg
              | exact (h6 _ hg).1
              | exact (h6 _ hg).2
              | exact (h6 _ hcand).1
              | exact (h6 _ hcand).2
              | exact (h6 _ hnt).1
              | exact (h6 _ hnt).2
        · cases h
          refine ⟨?_, Or.inr (by simpa using hcand)⟩
          have hstrip : ∀ (s1 : SimState) (hd tl : Option Nat) (i : Nat),
              getF { s1 with fifoHead := hd, fifoTail := tl } i = getF s1 i := fun _ _ _ _ => rfl
          have hstriplen : ∀ (s1 : SimState) (hd tl : Option Nat),
              ({ s1 with fifoHead := hd, fifoTail := tl } : SimState).ft.length = s1.ft.length :=
            fun _ _ _ => rfl
          refine InvThree_transfer c s _ rfl ?_ ?_ ?_ ?_ ?_ hinv
          · simp [updF]
          · intro i
            simp only [hstrip, getF_updF, ft_length_updF, hstriplen]
            split_ifs
            all_goals try dsimp only
            all_goals try exact ⟨rfl, rfl, rfl⟩
            all_goals casesm* _ ∧ _
            all_goals subst_vars
            all_goals exact ⟨rfl, rfl, rfl⟩
          · intro g hg
            simp only [hstrip, getF_updF, ft_length_updF, hstriplen]
            split_ifs
            all_goals try dsimp only
            all_goals try casesm* _ ∧ _
            all_goals try subst_vars
            all_goals exact h6 _ hg
          · exact trivial
          · exact hcnext
      · -- splice out of the middle
        rename_i hnott
        split at h
        · cases h
        · rename_i pv heqp
          have hstrip0 : ∀ (s1 : SimState) (i : Nat), getF s1 i = getF s1 i := fun _ _ => rfl
          rcases hn : (getF s cand).next with _ | nx
          · rw [hn] at h heqp
            dsimp only at h heqp
            have hpv : pv < c.nframes := optR_some c pv (heqp ▸ hcprev)
            cases h
            refine ⟨?_, Or.inr (by simpa using hcand)⟩
            refine InvThree_transfer c s _ rfl ?_ ?_ ?_ ?_ ?_ hinv
            · simp [updF]
            · intro i
              simp only [getF_updF, ft_length_updF]
              split_ifs
              all_goals try dsimp only
              all_goals try exact ⟨rfl, rfl, rfl⟩
              all_goals casesm* _ ∧ _
              all_goals subst_vars
              all_goals exact ⟨rfl, rfl, rfl⟩
            · intro g hg
              simp only [getF_updF, ft_length_updF, hn]
              split_ifs
              all_goals try dsimp only
              all_goals try casesm* _ ∧ _
              all_goals try subst_vars
              all_goals try refine ⟨?_, ?_⟩
              all_goals first
                | trivial
                | exact hcand
                | exact hpv
                | exact hg
                | exact (h6 _ hg).1
                | exact (h6 _ hg).2
                | exact (h6 _ hcand).1
                | exact (h6 _ hcand).2
                | exact (h6 _ hpv).1
                | exact (h6 _ hpv).2
            · exact h7
            · exact h8
          · rw [hn] at h heqp
            dsimp only at h heqp
            have hnx : nx < c.nframes := optR_some c nx (hn ▸ hcnext)
            have hpvs : (getF s cand).prev = some pv := by
              rw [getF_updF] at heqp
              split at heqp
              · exact heqp
              · exact heqp
            have hpv : pv < c.nframes := optR_some c pv (hpvs ▸ hcprev)
            cases h
            refine ⟨?_, Or.inr (by simpa using hcand)⟩
            refine InvThree_transfer c s _ rfl ?_ ?_ ?_ ?_ ?_ hinv
            · simp [updF]
            · intro i
              simp only [getF_updF, ft_length_updF]
              split_ifs
              all_goals try dsimp only
              all_goals try exact ⟨rfl, rfl, rfl⟩
              all_goals casesm* _ ∧ _
              all_goals subst_vars
              all_goals exact ⟨rfl, rfl, rfl⟩
            · intro g hg
              simp only [getF_updF, ft_length_updF, hn]
              split_ifs
              all_goals try dsimp only
              all_goals try casesm* _ ∧ _
              all_goals try subst_vars
              all_goals try refine ⟨?_, ?_⟩
              all_goals first
                | trivial
                | exact hcand
                | exact hpv
                | exact hnx
                | exact hg
                | exact (h6 _ hg).1
                | exact (h6 _ hg).2
                | exact (h6 _ hcand).1
                | exact (h6 _ hcand).2
                | exact (h6 _ hpv).1
                | exact (h6 _ hpv).2
                | exact (h6 _ hnx).1
                | exact (h6 _ hnx).2
                | exact (hn ▸ (h6 _ hcand).1)
                | exact (hpvs ▸ (h6 _ hcand).2)
            · exact h7
            · exact h8
        all_goals try exact ⟨hinv, Or.inl (by decide)⟩

end VMSim


namespace VMSim

theorem lor_w_ne_zero (x : Nat) : (x ||| PROT_WRITE) ≠ 0 := by
  intro h
  have h2 : (x ||| PROT_WRITE).testBit 1 = true := by
    rw [Nat.testBit_or]
    simp
    exact Or.inr (by decide)
  rw [h] at h2
  simp at h2

theorem land_r_ne_zero (x : Nat) (h : (x &&& PROT_READ) ≠ 0) : x ≠ 0 := by
  intro hx
  subst hx
  simp at h

theorem evict_reduce (s : SimState) (v : Nat) :
    ∃ st : Stats, evict s v =
      { updF (setEntry s (getF s v).page v PROT_NONE) v
          (fun w => { w with bits := PROT_NONE }) with stats := st } := by
  unfold evict
  by_cases hw : ((getF s v).bits &&& PROT_WRITE) ≠ 0
  · rw [if_pos hw]
    exact ⟨_, rfl⟩
  · rw [if_neg hw]
    exact ⟨_, rfl⟩

theorem evict_except (c : Config) (s : SimState) (v : Nat)
    (hinv : InvThree c s) (hv : v < c.nframes) (hocc : (getF s v).free ≠ 0) :
    InvExceptAt c (evict s v) v := by
  obtain ⟨h1, h2, h3, h4, h5, h6, h7, h8⟩ := hinv
  obtain ⟨hfv, hpv, hpev, hbv⟩ := h4 v hv hocc
  have hvp : (getF s v).page < s.pt.length := by rw [h1]; exact hpv
  obtain ⟨st, hev⟩ := evict_reduce s v
  have hplen : (evict s v).pt.length = s.pt.length := by
    rw [hev]; simp [updF, setEntry]
  have hflen : (evict s v).ft.length = s.ft.length := by
    rw [hev]; simp [updF, setEntry]
  have hhd : (evict s v).fifoHead = s.fifoHead := by rw [hev]; rfl
  have htl : (evict s v).fifoTail = s.fifoTail := by rw [hev]; rfl
  have hgp : ∀ q, getP (evict s v) q
      = if (getF s v).page = q then ⟨v, PROT_NONE⟩ else getP s q := by
    intro q
    rw [hev]
    show getP (setEntry s (getF s v).page v PROT_NONE) q = _
    rw [getP_setEntry]
    by_cases hq : (getF s v).page = q
    · rw [if_pos ⟨hq, hvp⟩, if_pos hq]
    · rw [if_neg (fun hc => hq hc.1), if_neg hq]
  have hgf : ∀ i, getF (evict s v) i
      = if v = i then { getF s i with bits := PROT_NONE } else getF s i := by
    intro i
    rw [hev]
    show getF (updF (setEntry s (getF s v).page v PROT_NONE) v
        (fun w => { w with bits := PROT_NONE })) i = _
    have hsetlen : (setEntry s (getF s v).page v PROT_NONE).ft.length = s.ft.length := rfl
    rw [getF_updF, hsetlen]
    by_cases hq : v = i
    · subst hq
      rw [if_pos ⟨rfl, h2.symm ▸ hv⟩, if_pos rfl]
      rfl
    · rw [if_neg (fun hc => hq hc.1), if_neg hq]
      rfl
  have hinj : ∀ f, f < c.nframes → f ≠ v → (getF s f).free ≠ 0 →
      (getF s f).page ≠ (getF s v).page := by
    intro f hf hfne hocc2 hpp
    obtain ⟨_, _, hef, _⟩ := h4 f hf hocc2
    rw [hpp, hpev] at hef
    exact hfne (congrArg PTE.frame hef).symm
  refine ⟨by rw [hplen]; exact h1, by rw [hflen]; exact h2, ?_, ?_, ?_, ?_,
    by rw [hhd]; exact h7, by rw [htl]; exact h8⟩
  · intro q hq
    rw [hgp]
    split
    · exact hv
    · exact h3 q hq
  · intro f hf hne hocc2
    rw [hgf, if_neg (Ne.symm hne)] at hocc2
    obtain ⟨ha, hb, hc, hd⟩ := h4 f hf hocc2
    rw [hgf, if_neg (Ne.symm hne), hgp, if_neg (fun hc2 => hinj f hf hne hocc2 hc2.symm)]
    exact ⟨ha, hb, hc, hd⟩
  · intro q hq hbq
    rw [hgp] at hbq ⊢
    by_cases hpq : (getF s v).page = q
    · rw [if_pos hpq] at hbq
      simp [PROT_NONE] at hbq
    · rw [if_neg hpq] at hbq ⊢
      obtain ⟨ha, hb⟩ := h5 q hq hbq
      have hfr : (getP s q).frame ≠ v := by
        intro he
        rw [he] at hb
        exact hpq hb
      refine ⟨hfr, ?_, ?_⟩
      · rw [hgf, if_neg (fun hc => hfr hc.symm)]
        exact ha
      · rw [hgf, if_neg (fun hc => hfr hc.symm)]
        exact hb
  · intro f hf
    rw [hgf]
    split
    · exact h6 f hf
    · exact h6 f hf

end VMSim

namespace VMSim

theorem free_except (c : Config) (s : SimState) (v : Nat)
    (hinv : InvThree c s) (hfree : (getF s v).free = 0) :
    InvExceptAt c s v := by
  obtain ⟨h1, h2, h3, h4, h5, h6, h7, h8⟩ := hinv
  refine ⟨h1, h2, h3, fun f hf _ hocc => h4 f hf hocc, ?_, h6, h7, h8⟩
  intro q hq hb
  obtain ⟨ha, hbp⟩ := h5 q hq hb
  refine ⟨?_, ha, hbp⟩
  intro he
  rw [he, hfree] at ha
  exact absurd ha (by decide)

theorem evict_bits_zero (s : SimState) (v p : Nat) (h : (getP s p).bits = 0) :
    (getP (evict s v) p).bits = 0 := by
  obtain ⟨st, hev⟩ := evict_reduce s v
  rw [hev]
  show (getP (setEntry s (getF s v).page v PROT_NONE) p).bits = 0
  rw [getP_setEntry]
  split
  · rfl
  · exact h

theorem commonTail_inv (c : Config) (s : SimState) (p v b : Nat)
    (h1 : s.pt.length = c.npages) (h2 : s.ft.length = c.nframes)
    (h3 : ∀ q, q < c.npages → (getP s q).frame < c.nframes)
    (h4 : ∀ f, f < c.nframes → f ≠ v → (getF s f).free ≠ 0 →
        (getF s f).free = 1 ∧ (getF s f).page < c.npages ∧
        getP s ((getF s f).page) = ⟨f, (getF s f).bits⟩ ∧ (getF s f).bits ≠ 0)
    (h5 : ∀ q, q < c.npages → q ≠ p → (getP s q).bits ≠ 0 →
        (getP s q).frame ≠ v ∧ (getF s ((getP s q).frame)).free = 1 ∧
        (getF s ((getP s q).frame)).page = q)
    (h6 : ∀ f, f < c.nframes → optR c (getF s f).next ∧ optR c (getF s f).prev)
    (h7 : optR c s.fifoHead) (h8 : optR c s.fifoTail)
    (hv : v < c.nframes) (hp : p < c.npages) (hb : b ≠ 0)
    (hclaim : ∀ f, f < c.nframes → f ≠ v → (getF s f).free ≠ 0 → (getF s f).page ≠ p) :
    InvThree c (commonTail s p v b) := by
  have hpl : p < s.pt.length := by rw [h1]; exact hp
  have hvl : v < s.ft.length := by rw [h2]; exact hv
  have hgp : ∀ q, getP (commonTail s p v b) q
      = if p = q then ⟨v, b⟩ else getP s q := by
    intro q
    show getP (setEntry s p v b) q = _
    rw [getP_setEntry]
    by_cases hq : p = q
    · rw [if_pos ⟨hq, hpl⟩, if_pos hq]
    · rw [if_neg (fun hc => hq hc.1), if_neg hq]
  have hgf : ∀ i, getF (commonTail s p v b) i
      = if v = i then { getF s i with page := p, bits := b, free := 1 } else getF s i := by
    intro i
    by_cases hq : v = i
    · subst hq
      rw [if_pos rfl]
      show getF (updF (updF (setEntry s p v b) v _) v _) v = _
      rw [getF_updF_self (updF (setEntry s p v b) v
            (fun w => { w with page := p, bits := b })) v
            (fun w => { w with free := 1 }) (by rw [ft_length_updF]; exact hvl)]
      rw [getF_updF_self (setEntry s p v b) v
            (fun w => { w with page := p, bits := b })
            (show v < (setEntry s p v b).ft.length from hvl)]
      rfl
    · rw [if_neg hq]
      show getF (updF (updF (setEntry s p v b) v _) v _) i = _
      rw [getF_updF_ne _ _ _ _ hq, getF_updF_ne _ _ _ _ hq]
      rfl
  refine ⟨?_, ?_, ?_, ?_, ?_, ?_, h7, h8⟩
  · show (s.pt.set p ⟨v, b⟩).length = c.npages
    rw [List.length_set]; exact h1
  · show ((commonTail s p v b).ft).length = c.nframes
    simp only [commonTail, updF, setEntry, List.length_set]
    exact h2
  · intro q hq
    rw [hgp]
    split
    · exact hv
    · exact h3 q hq
  · intro f hf hocc
    rw [hgf] at hocc ⊢
    by_cases hvf : v = f
    · rw [if_pos hvf] at hocc ⊢
      dsimp only
      refine ⟨rfl, hp, ?_, hb⟩
      rw [hgp, if_pos rfl]
      rw [← hvf]
    · rw [if_neg hvf] at hocc ⊢
      have hfne : f ≠ v := fun he => hvf he.symm
      obtain ⟨ha, hb', hc, hd⟩ := h4 f hf hfne hocc
      rw [hgp, if_neg (fun hc2 => hclaim f hf hfne hocc hc2.symm)]
      exact ⟨ha, hb', hc, hd⟩
  · intro q hq hbq
    rw [hgp] at hbq ⊢
    by_cases hq2 : p = q
    · rw [if_pos hq2] at hbq ⊢
      dsimp only
      rw [hgf, if_pos rfl]
      exact ⟨rfl, hq2⟩
    · rw [if_neg hq2] at hbq ⊢
      obtain ⟨hnv, ha, hb'⟩ := h5 q hq (fun he => hq2 he.symm) hbq
      rw [hgf, if_neg (fun hc => hnv hc.symm)]
      exact ⟨ha, hb'⟩
  · intro f hf
    rw [hgf]
    split
    · exact h6 f hf
    · exact h6 f hf

theorem load_except_inv (c : Config) (s : SimState) (p v b : Nat)
    (hx : InvExceptAt c s v) (hv : v < c.nframes) (hp : p < c.npages)
    (hpb : (getP s p).bits = 0) (hb : b ≠ 0) :
    InvThree c (commonTail s p v b) := by
  obtain ⟨h1, h2, h3, h4, h5, h6, h7, h8⟩ := hx
  refine commonTail_inv c s p v b h1 h2 h3 h4 ?_ h6 h7 h8 hv hp hb ?_
  · intro q hq _ hbq
    exact h5 q hq hbq
  · intro f hf hfne hocc hpp
    obtain ⟨_, _, hc, hd⟩ := h4 f hf hfne hocc
    rw [hpp] at hc
    have hbit := congrArg PTE.bits hc
    rw [hpb] at hbit
    exact hd hbit.symm

theorem upgrade_inv (c : Config) (s : SimState) (p b : Nat)
    (hinv : InvThree c s) (hp : p < c.npages) (hpb : (getP s p).bits ≠ 0)
    (hb : b ≠ 0) :
    InvThree c (commonTail s p ((getP s p).frame) b) := by
  obtain ⟨h1, h2, h3, h4, h5, h6, h7, h8⟩ := hinv
  obtain ⟨hfv, hpv⟩ := h5 p hp hpb
  refine commonTail_inv c s p _ b h1 h2 h3 (fun f hf _ hocc => h4 f hf hocc)
    ?_ h6 h7 h8 (h3 p hp) hp hb ?_
  · intro q hq hqp hbq
    obtain ⟨ha, hb'⟩ := h5 q hq hbq
    refine ⟨?_, ha, hb'⟩
    intro he
    rw [he, hpv] at hb'
    exact hqp hb'.symm
  · intro f hf hfne hocc hpp
    obtain ⟨_, _, hc, _⟩ := h4 f hf hocc
    rw [hpp] at hc
    have hfr := congrArg PTE.frame hc
    exact hfne hfr.symm

theorem findFreeFrame_neg (c : Config) (s : SimState) (h : findFreeFrame c s < 0) :
    ∀ f, f < c.nframes → (getF s f).free ≠ 0 := by
  intro f hf
  unfold findFreeFrame at h
  cases hfind : (List.range c.nframes).find? (fun i => (getF s i).free == 0) with
  | none =>
    have := List.find?_eq_none.mp hfind f (List.mem_range.mpr hf)
    simpa using this
  | some i =>
    rw [hfind] at h
    dsimp only at h
    omega

theorem findFreeFrame_nonneg (c : Config) (s : SimState) (h : ¬ findFreeFrame c s < 0) :
    (findFreeFrame c s).toNat < c.nframes ∧ (getF s ((findFreeFrame c s).toNat)).free = 0 := by
  unfold findFreeFrame at h ⊢
  cases hfind : (List.range c.nframes).find? (fun i => (getF s i).free == 0) with
  | none =>
    rw [hfind] at h
    exact absurd (by decide) h
  | some i =>
    dsimp only
    have h1 := List.find?_some hfind
    have h2 := List.mem_range.mp (List.mem_of_find?_eq_some hfind)
    simp at h1
    constructor
    · simpa using h2
    · simpa using h1

end VMSim

namespace VMSim

theorem fifoRemove_frames (s : SimState) (r : Int) (s' : SimState)
    (h : fifoRemove s = .ok (r, s')) :
    s'.pt = s.pt ∧ ∀ i, (getF s' i).free = (getF s i).free ∧
      (getF s' i).page = (getF s i).page ∧ (getF s' i).bits = (getF s i).bits := by
  unfold fifoRemove at h
  split at h
  · cases h
    exact ⟨rfl, fun i => ⟨rfl, rfl, rfl⟩⟩
  · split at h
    · cases h
      refine ⟨rfl, ?_⟩
      intro i
      have hstrip : ∀ (s1 : SimState) (hd2 tl : Option Nat) (i : Nat),
          getF { s1 with fifoHead := hd2, fifoTail := tl } i = getF s1 i := fun _ _ _ _ => rfl
      simp only [hstrip, getF_updF]
      split_ifs
      all_goals try dsimp only
      all_goals try exact ⟨rfl, rfl, rfl⟩
      all_goals casesm* _ ∧ _
      all_goals subst_vars
      all_goals exact ⟨rfl, rfl, rfl⟩
    · dsimp only at h
      split at h
      · cases h
      · cases h
        refine ⟨rfl, ?_⟩
        intro i
        have hstrip : ∀ (s1 : SimState) (hd2 : Option Nat) (i : Nat),
            getF { s1 with fifoHead := hd2 } i = getF s1 i := fun _ _ _ => rfl
        simp only [hstrip, getF_updF, ft_length_updF]
        split_ifs
        all_goals try dsimp only
        all_goals try exact ⟨rfl, rfl, rfl⟩
        all_goals casesm* _ ∧ _
        all_goals subst_vars
        all_goals exact ⟨rfl, rfl, rfl⟩

theorem findCleanFrame_frames (c : Config) (s : SimState) (r : Int) (s' : SimState)
    (h : findCleanFrame c s = .ok (r, s')) :
    s'.pt = s.pt ∧ ∀ i, (getF s' i).free = (getF s i).free ∧
      (getF s' i).page = (getF s i).page ∧ (getF s' i).bits = (getF s i).bits := by
  have hstrip : ∀ (s1 : SimState) (hd tl : Option Nat) (i : Nat),
      getF { s1 with fifoHead := hd, fifoTail := tl } i = getF s1 i := fun _ _ _ _ => rfl
  have hstl : ∀ (s1 : SimState) (tl : Option Nat) (i : Nat),
      getF { s1 with fifoTail := tl } i = getF s1 i := fun _ _ _ => rfl
  unfold findCleanFrame at h
  split at h
  · cases h
  · dsimp only at h
    split at h
    · cases h
    · cases h
      exact ⟨rfl, fun i => ⟨rfl, rfl, rfl⟩⟩
    · split at h
      · split at h
        · cases h
          refine ⟨rfl, ?_⟩
          intro i
          simp only [hstrip, hstl, getF_updF, ft_length_updF]
          split_ifs
          all_goals try dsimp only
          all_goals try exact ⟨rfl, rfl, rfl⟩
          all_goals casesm* _ ∧ _
          all_goals subst_vars
          all_goals exact ⟨rfl, rfl, rfl⟩
        · cases h
          refine ⟨rfl, ?_⟩
          intro i
          simp only [hstrip, hstl, getF_updF, ft_length_updF]
          split_ifs
          all_goals try dsimp only
          all_goals try exact ⟨rfl, rfl, rfl⟩
          all_goals casesm* _ ∧ _
          all_goals subst_vars
          all_goals exact ⟨rfl, rfl, rfl⟩
      · split at h
        · cases h
        · rename_i pv heqp
          rcases hn : (getF s _).next with _ | nx
          · rw [hn] at h heqp
            dsimp only at h heqp
            cases h
            refine ⟨rfl, ?_⟩
            intro i
            simp only [getF_updF, ft_length_updF]
            split_ifs
            all_goals try dsimp only
            all_goals try exact ⟨rfl, rfl, rfl⟩
            all_goals casesm* _ ∧ _
            all_goals subst_vars
            all_goals exact ⟨rfl, rfl, rfl⟩
          · rw [hn] at h heqp
            dsimp only at h heqp
            cases h
            refine ⟨rfl, ?_⟩
            intro i
            simp only [getF_updF, ft_length_updF]
            split_ifs
            all_goals try dsimp only
            all_goals try exact ⟨rfl, rfl, rfl⟩
            all_goals casesm* _ ∧ _
            all_goals subst_vars
            all_goals exact ⟨rfl, rfl, rfl⟩

end VMSim

namespace VMSim

theorem lor_r_ne_zero (x : Nat) : (x ||| PROT_READ) ≠ 0 := by
  intro h
  have h2 : (x ||| PROT_READ).testBit 0 = true := by
    rw [Nat.testBit_or, Bool.or_eq_true]
    exact Or.inr (by decide)
  rw [h] at h2
  simp at h2

theorem handlerRand_inv (c : Config) (r : Nat) (s : SimState) (p : Nat) (s' : SimState)
    (hinv : InvThree c s) (hp : p < c.npages) (hn : 0 < c.nframes)
    (h : handlerRand c r s p = .ok s') : InvThree c s' := by
  unfold handlerRand at h
  dsimp only at h
  by_cases h0 : (getP s p).bits = 0
  · rw [if_pos h0] at h
    by_cases hff : findFreeFrame c s < 0
    · rw [if_pos hff] at h
      cases h
      have hfi : r % c.nframes < c.nframes := Nat.mod_lt r hn
      have hocc := findFreeFrame_neg c s hff (r % c.nframes) hfi
      have hx : InvExceptAt c (evict s (r % c.nframes)) (r % c.nframes) :=
        evict_except c s (r % c.nframes) hinv hfi hocc
      have hpb : (getP (evict s (r % c.nframes)) p).bits = 0 :=
        evict_bits_zero s (r % c.nframes) p h0
      exact load_except_inv c (addRead (evict s (r % c.nframes))) p (r % c.nframes)
        ((getP s p).bits ||| PROT_READ) hx hfi hp hpb (lor_r_ne_zero _)
    · rw [if_neg hff] at h
      cases h
      obtain ⟨hlt, hfree⟩ := findFreeFrame_nonneg c s hff
      exact load_except_inv c (addRead s) p ((findFreeFrame c s).toNat)
        ((getP s p).bits ||| PROT_READ) (free_except c s _ hinv hfree) hlt hp h0
        (lor_r_ne_zero _)
  · rw [if_neg h0] at h
    by_cases h1 : (getP s p).bits &&& PROT_READ ≠ 0 ∧ (getP s p).bits &&& PROT_WRITE = 0
    · rw [if_pos h1] at h
      cases h
      exact upgrade_inv c s p _ hinv hp h0 (lor_w_ne_zero _)
    · rw [if_neg h1] at h
      cases h
      exact hinv

theorem handlerFifo_inv (c : Config) (s : SimState) (p : Nat) (s' : SimState)
    (hinv : InvThree c s) (hp : p < c.npages)
    (h : handlerFifo c s p = .ok s') : InvThree c s' := by
  unfold handlerFifo at h
  dsimp only at h
  by_cases h0 : (getP s p).bits = 0
  · rw [if_pos h0] at h
    by_cases hff : findFreeFrame c s < 0
    · rw [if_pos hff] at h
      split at h
      · cases h
      · cases h
      · rename_i fi s1 heq
        obtain ⟨hinv1, hrange⟩ := fifoRemove_inv c s fi s1 hinv heq
        obtain ⟨hpt1, hcore1⟩ := fifoRemove_frames s fi s1 heq
        by_cases hfi : fi < 0
        · rw [if_pos hfi] at h
          cases h
          exact hinv1
        · rw [if_neg hfi] at h
          cases h
          have hlt : fi.toNat < c.nframes := hrange.resolve_left hfi
          have hocc1 : (getF s1 fi.toNat).free ≠ 0 := by
            rw [(hcore1 fi.toNat).1]
            exact findFreeFrame_neg c s hff fi.toNat hlt
          have hx := evict_except c s1 fi.toNat hinv1 hlt hocc1
          have hpb1 : (getP s1 p).bits = 0 := by
            unfold getP
            rw [hpt1]
            exact h0
          have hpb2 : (getP (evict s1 fi.toNat) p).bits = 0 :=
            evict_bits_zero s1 _ p hpb1
          have hload := load_except_inv c (addRead (evict s1 fi.toNat)) p fi.toNat
            ((getP s p).bits ||| PROT_READ) hx hlt hp hpb2 (lor_r_ne_zero _)
          exact fifoInsert_inv c _ fi.toNat hload hlt
    · rw [if_neg hff] at h
      cases h
      obtain ⟨hlt, hfree⟩ := findFreeFrame_nonneg c s hff
      have hload := load_except_inv c (addRead s) p (findFreeFrame c s).toNat
        ((getP s p).bits ||| PROT_READ) (free_except c s _ hinv hfree) hlt hp h0
        (lor_r_ne_zero _)
      exact fifoInsert_inv c _ _ hload hlt
  · rw [if_neg h0] at h
    by_cases h1 : (getP s p).bits &&& PROT_READ ≠ 0 ∧ (getP s p).bits &&& PROT_WRITE = 0
    · rw [if_pos h1] at h
      cases h
      exact fifoInsert_inv c _ _ (upgrade_inv c s p _ hinv hp h0 (lor_w_ne_zero _))
        (hinv.2.2.1 p hp)
    · rw [if_neg h1] at h
      cases h
      exact hinv

theorem handlerCustom_inv (c : Config) (s : SimState) (p : Nat) (s' : SimState)
    (hinv : InvThree c s) (hp : p < c.npages)
    (h : handlerCustom c s p = .ok s') : InvThree c s' := by
  unfold handlerCustom at h
  dsimp only at h
  by_cases h0 : (getP s p).bits = 0
  · rw [if_pos h0] at h
    by_cases hff : findFreeFrame c s < 0
    · rw [if_pos hff] at h
      split at h
      · cases h
      · cases h
      · rename_i fc s1 heq
        obtain ⟨hinv1, hrange1⟩ := findCleanFrame_inv c s fc s1 hinv heq
        obtain ⟨hpt1, hcore1⟩ := findCleanFrame_frames c s fc s1 heq
        have hpb1 : (getP s1 p).bits = 0 := by
          unfold getP
          rw [hpt1]
          exact h0
        by_cases hfc : fc < 0
        · rw [if_pos hfc] at h
          split at h
          · cases h
          · cases h
          · rename_i fi s2 heq2
            obtain ⟨hinv2, hrange2⟩ := fifoRemove_inv c s1 fi s2 hinv1 heq2
            obtain ⟨hpt2, hcore2⟩ := fifoRemove_frames s1 fi s2 heq2
            by_cases hfi : fi < 0
            · rw [if_pos hfi] at h
              cases h
              exact hinv2
            · rw [if_neg hfi] at h
              cases h
              have hlt : fi.toNat < c.nframes := hrange2.resolve_left hfi
              have hocc2 : (getF s2 fi.toNat).free ≠ 0 := by
                rw [(hcore2 fi.toNat).1, (hcore1 fi.toNat).1]
                exact findFreeFrame_neg c s hff fi.toNat hlt
              have hx := evict_except c s2 fi.toNat hinv2 hlt hocc2
              have hpb2 : (getP s2 p).bits = 0 := by
                unfold getP
                rw [hpt2]
                exact hpb1
              have hpb3 := evict_bits_zero s2 fi.toNat p hpb2
              have hload := load_except_inv c (addRead (evict s2 fi.toNat)) p fi.toNat
                ((getP s p).bits ||| PROT_READ) hx hlt hp hpb3 (lor_r_ne_zero _)
              exact fifoInsert_inv c _ _ hload hlt
        · rw [if_neg hfc] at h
          cases h
          have hlt : fc.toNat < c.nframes := hrange1.resolve_left hfc
          have hocc1 : (getF s1 fc.toNat).free ≠ 0 := by
            rw [(hcore1 fc.toNat).1]
            exact findFreeFrame_neg c s hff fc.toNat hlt
          have hx := evict_except c s1 fc.toNat hinv1 hlt hocc1
          have hpb2 := evict_bits_zero s1 fc.toNat p hpb1
          have hload := load_except_inv c (addRead (evict s1 fc.toNat)) p fc.toNat
            ((getP s p).bits ||| PROT_READ) hx hlt hp hpb2 (lor_r_ne_zero _)
          exact fifoInsert_inv c _ _ hload hlt
    · rw [if_neg hff] at h
      cases h
      obtain ⟨hlt, hfree⟩ := findFreeFrame_nonneg c s hff
      have hload := load_except_inv c (addRead s) p (findFreeFrame c s).toNat
        ((getP s p).bits ||| PROT_READ) (free_except c s _ hinv hfree) hlt hp h0
        (lor_r_ne_zero _)
      exact fifoInsert_inv c _ _ hload hlt
  · rw [if_neg h0] at h
    by_cases h1 : (getP s p).bits &&& PROT_READ ≠ 0 ∧ (getP s p).bits &&& PROT_WRITE = 0
    · rw [if_pos h1] at h
      cases h
      exact fifoInsert_inv c _ _ (upgrade_inv c s p _ hinv hp h0 (lor_w_ne_zero _))
        (hinv.2.2.1 p hp)
    · rw [if_neg h1] at h
      cases h
      exact hinv

theorem pageFaultHandler_inv (c : Config) (pol : Policy) (r : Nat) (s : SimState)
    (p : Nat) (s' : SimState) (hpol : pol ≠ .twoFifo) (hinv : InvThree c s)
    (hp : p < c.npages) (hn : 0 < c.nframes)
    (h : pageFaultHandler c pol r s p = .ok s') : InvThree c s' := by
  unfold pageFaultHandler at h
  cases pol with
  | rand =>
    dsimp only at h
    exact handlerRand_inv c r
      { s with stats := { s.stats with page_faults := s.stats.page_faults + 1 } }
      p s' hinv hp hn h
  | fifo =>
    dsimp only at h
    exact handlerFifo_inv c
      { s with stats := { s.stats with page_faults := s.stats.page_faults + 1 } }
      p s' hinv hp h
  | custom =>
    dsimp only at h
    exact handlerCustom_inv c
      { s with stats := { s.stats with page_faults := s.stats.page_faults + 1 } }
      p s' hinv hp h
  | twoFifo => exact absurd rfl hpol

theorem initState_inv (c : Config) (hn : 0 < c.nframes) : InvThree c (initState c) := by
  refine ⟨?_, ?_, ?_, ?_, ?_, ?_, trivial, trivial⟩
  · simp [initState]
  · simp [initState]
  · intro q hq
    rw [getP_initState]
    exact hn
  · intro f hf hocc
    rw [getF_initState] at hocc
    exact absurd rfl hocc
  · intro q hq hb
    rw [getP_initState] at hb
    exact absurd rfl hb
  · intro f hf
    rw [getF_initState]
    exact ⟨trivial, trivial⟩

theorem runFaults_go_inv (c : Config) (pol : Policy) (hpol : pol ≠ .twoFifo)
    (hn : 0 < c.nframes) :
    ∀ (tr : List (Nat × Nat)) (a : Res SimState),
      (∀ s0, a = .ok s0 → InvThree c s0) →
      (∀ pr ∈ tr, pr.1 < c.npages) →
      ∀ s', tr.foldl
        (fun r pr => Res.bind r (fun s => pageFaultHandler c pol pr.2 s pr.1)) a = .ok s' →
      InvThree c s'
  | [], a, ha, htr, s', h => ha s' h
  | pr :: tl, a, ha, htr, s', h => by
    refine runFaults_go_inv c pol hpol hn tl
      (Res.bind a (fun s => pageFaultHandler c pol pr.2 s pr.1)) ?_ ?_ s' h
    · intro s0 hb
      obtain ⟨sm, hm, hstep⟩ := Res.bind_eq_ok _ _ _ hb
      exact pageFaultHandler_inv c pol pr.2 sm pr.1 s0 hpol (ha sm hm)
        (htr pr (List.mem_cons_self pr tl)) hn hstep
    · intro q hq
      exact htr q (List.mem_cons_of_mem pr hq)

theorem runFaults_inv (c : Config) (pol : Policy) (tr : List (Nat × Nat)) (s' : SimState)
    (hpol : pol ≠ .twoFifo) (hn : 0 < c.nframes)
    (htr : ∀ pr ∈ tr, pr.1 < c.npages)
    (h : runFaults c pol tr = .ok s') : InvThree c s' := by
  refine runFaults_go_inv c pol hpol hn tr (.ok (initState c)) ?_ htr s' h
  intro s0 hb
  cases hb
  exact initState_inv c hn

end VMSim

namespace VMSim

/-- C1, amended to the rand, fifo and custom policies: after any successful
run of faults on in-range pages, a frame is occupied iff some page's
page-table entry maps to it with non-empty protection, and the frame
table's recorded protection equals the page-table protection of the
resident page. -/
theorem c1_frame_table_consistency (c : Config) (pol : Policy) (tr : List (Nat × Nat))
    (s' : SimState) (hpol : pol ≠ .twoFifo) (hn : 0 < c.nframes)
    (htr : ∀ pr ∈ tr, pr.1 < c.npages)
    (h : runFaults c pol tr = .ok s') :
    ∀ f, f < c.nframes →
      ((getF s' f).free ≠ 0 ↔
        ∃ p, p < c.npages ∧ (getP s' p).bits ≠ 0 ∧ (getP s' p).frame = f) ∧
      ∀ p, p < c.npages → (getP s' p).bits ≠ 0 → (getP s' p).frame = f →
        (getF s' f).bits = (getP s' p).bits := by
  obtain ⟨h1, h2, h3, h4, h5, h6, h7, h8⟩ := runFaults_inv c pol tr s' hpol hn htr h
  intro f hf
  constructor
  · constructor
    · intro hocc
      obtain ⟨ha, hb, hc, hd⟩ := h4 f hf hocc
      refine ⟨(getF s' f).page, hb, ?_, ?_⟩
      · rw [hc]
        exact hd
      · rw [hc]
    · rintro ⟨p, hp, hbp, hfp⟩
      have hfree := (h5 p hp hbp).1
      rw [hfp] at hfree
      rw [hfree]
      exact one_ne_zero
  · intro p hp hbp hfp
    obtain ⟨hfree, hpage⟩ := h5 p hp hbp
    rw [hfp] at hfree hpage
    obtain ⟨_, _, hc, _⟩ := h4 f hf (by rw [hfree]; exact one_ne_zero)
    rw [hpage] at hc
    exact (congrArg PTE.bits hc).symm

theorem c1_consistency_witness :
    (0 : Nat) < 2 ∧
    ((getF (resState ⟨2, 2⟩ (runFaults ⟨2, 2⟩ .fifo [(0, 0)])) 0).free ≠ 0 ↔
      ∃ p, p < 2 ∧ (getP (resState ⟨2, 2⟩ (runFaults ⟨2, 2⟩ .fifo [(0, 0)])) p).bits ≠ 0 ∧
        (getP (resState ⟨2, 2⟩ (runFaults ⟨2, 2⟩ .fifo [(0, 0)])) p).frame = 0) :=
  ⟨by decide,
    (c1_frame_table_consistency ⟨2, 2⟩ .fifo [(0, 0)]
      (resState ⟨2, 2⟩ (runFaults ⟨2, 2⟩ .fifo [(0, 0)])) (by decide) (by decide)
      (by decide) (by decide) 0 (by decide)).1⟩

end VMSim

namespace VMSim

theorem chain'_of_mem_imp {R S : Nat → Nat → Prop} :
    ∀ (l : List Nat), (∀ a ∈ l, ∀ b ∈ l, R a b → S a b) →
      List.Chain' R l → List.Chain' S l
  | [], _, _ => List.chain'_nil
  | [a], _, _ => List.chain'_singleton a
  | a :: b :: tl, himp, hch => by
    rw [List.chain'_cons] at hch ⊢
    refine ⟨himp a (by simp) b (by simp) hch.1, ?_⟩
    exact chain'_of_mem_imp (b :: tl)
      (fun x hx y hy => himp x (List.mem_cons_of_mem a hx) y (List.mem_cons_of_mem a hy))
      hch.2

theorem chain_next_congr (s s' : SimState) (l : List Nat)
    (h : ∀ x ∈ l, (getF s' x).next = (getF s x).next) :
    List.Chain' (nextR s) l → List.Chain' (nextR s') l := by
  refine chain'_of_mem_imp l ?_
  intro a ha b _ hr
  unfold nextR at hr ⊢
  rw [h a ha]
  exact hr

theorem chain_sl_congr (s s' : SimState) (l : List Nat)
    (h : ∀ x ∈ l, (getF s' x).next = (getF s x).next ∧ (getF s' x).prev = (getF s x).prev) :
    List.Chain' (slR s) l → List.Chain' (slR s') l := by
  refine chain'_of_mem_imp l ?_
  intro a ha b hb hr
  unfold slR at hr ⊢
  rw [(h a ha).1, (h b hb).2]
  exact hr

theorem shape_congr (c : Config) (s s' : SimState) (fl sl : List Nat)
    (hfl : ∀ x ∈ fl, (getF s' x).next = (getF s x).next)
    (hsl : ∀ x ∈ sl, (getF s' x).next = (getF s x).next ∧ (getF s' x).prev = (getF s x).prev)
    (hh1 : s'.ffHead = s.ffHead) (hh2 : s'.sfHead = s.sfHead)
    (ht1 : s'.ffTail = s.ffTail) (ht2 : s'.sfTail = s.sfTail)
    (hs : Shape c s fl sl) : Shape c s' fl sl := by
  obtain ⟨g1, g2, g3, g4, g5, g6, g7, g8, g9, g10, g11⟩ := hs
  refine ⟨g1, g2, g3, chain_next_congr s s' fl hfl g4, chain_sl_congr s s' sl hsl g5,
    by rw [hh1]; exact g6, by rw [hh2]; exact g7,
    fun hne => by rw [ht1]; exact g8 hne, fun hne => by rw [ht2]; exact g9 hne, ?_, ?_⟩
  · intro x hx
    rw [hfl x (List.mem_of_mem_getLast? (by rw [hx]; exact Option.mem_some_iff.mpr rfl))]
    exact g10 x hx
  · intro x hx
    rw [(hsl x (List.mem_of_mem_getLast? (by rw [hx]; exact Option.mem_some_iff.mpr rfl))).1]
    exact g11 x hx

end VMSim

namespace VMSim

theorem chain_next_congr_butlast (s s' : SimState) :
    ∀ (l : List Nat) (t : Nat), l.getLast? = some t → l.Nodup →
      (∀ x ∈ l, x ≠ t → (getF s' x).next = (getF s x).next) →
      List.Chain' (nextR s) l → List.Chain' (nextR s') l
  | [], _, h, _, _, _ => by cases h
  | [a], _, _, _, _, _ => List.chain'_singleton a
  | a :: b :: tl, t, h, hnd, hne, hch => by
    rw [List.chain'_cons] at hch ⊢
    have hgl : (b :: tl).getLast? = some t := by
      rw [List.getLast?_cons_cons] at h
      exact h
    have hat : a ≠ t := by
      intro he
      subst he
      exact (List.nodup_cons.mp hnd).1 (List.mem_of_mem_getLast? hgl)
    refine ⟨?_, chain_next_congr_butlast s s' (b :: tl) t hgl (List.nodup_cons.mp hnd).2
      (fun x hx hxt => hne x (List.mem_cons_of_mem a hx) hxt) hch.2⟩
    unfold nextR at hch ⊢
    rw [hne a (by simp) hat]
    exact hch.1

theorem sfoAppend_wf (c : Config) (s : SimState) (fl sl : List Nat) (n : Nat)
    (hft : s.ft.length = c.nframes) (hn : n < c.nframes)
    (hnf : n ∉ fl) (hns : n ∉ sl)
    (hs : Shape c s fl sl) :
    ∃ s', sfoAppend s n = .ok s' ∧ CoreEq s s' ∧ Shape c s' (fl ++ [n]) sl := by
  obtain ⟨g1, g2, g3, g4, g5, g6, g7, g8, g9, g10, g11⟩ := hs
  have hnft : n < s.ft.length := by rw [hft]; exact hn
  unfold sfoAppend
  cases fl with
  | nil =>
    rw [g6]
    dsimp only [List.head?]
    refine ⟨_, rfl, ?_, ?_⟩
    · refine ⟨rfl, rfl, rfl, rfl, by simp [updF], ?_⟩
      intro f
      have hstrip : ∀ (s1 : SimState) (x y : Option Nat) (i : Nat),
          getF { s1 with ffHead := x, ffTail := y } i = getF s1 i := fun _ _ _ _ => rfl
      have hstriplen : ∀ (s1 : SimState) (x y : Option Nat),
          ({ s1 with ffHead := x, ffTail := y } : SimState).ft.length = s1.ft.length :=
        fun _ _ _ => rfl
      simp only [getF_updF, hstrip, hstriplen]
      split_ifs
      all_goals try dsimp only
      all_goals try exact ⟨rfl, rfl, rfl, rfl⟩
      all_goals casesm* _ ∧ _
      all_goals subst_vars
      all_goals exact ⟨rfl, rfl, rfl, rfl⟩
    · have hlink : ∀ x, x ≠ n → getF
          (updF { s with ffHead := some n, ffTail := some n } n
            (fun v => { v with next := none, prev := none })) x = getF s x := by
        intro x hx
        rw [getF_updF_ne _ _ _ _ (fun he => hx he.symm)]
        rfl
      have hself : getF
          (updF { s with ffHead := some n, ffTail := some n } n
            (fun v => { v with next := none, prev := none })) n
          = { getF s n with next := none, prev := none } := by
        rw [getF_updF_self _ _ _
          (show n < ({ s with ffHead := some n, ffTail := some n } : SimState).ft.length from hnft)]
        rfl
      refine ⟨?_, g2, ?_, List.chain'_singleton n, ?_, rfl, g7, fun _ => rfl, g9, ?_, ?_⟩
      · intro x hx
        simp at hx
        rw [hx]
        exact hn
      · show (n :: sl).Nodup
        rw [List.nodup_cons]
        simp only [List.nil_append] at g3
        exact ⟨hns, g3⟩
      · refine chain_sl_congr s _ sl ?_ g5
        intro x hx
        rw [hlink x (fun he => hns (he ▸ hx))]
        exact ⟨rfl, rfl⟩
      · intro x hx
        simp at hx
        rw [← hx, hself]
      · intro x hx
        rw [(hlink x (fun he => hns (he ▸ List.mem_of_mem_getLast? hx))) ]
        exact g11 x hx
  | cons a tl =>
    rw [g6]
    dsimp only [List.head?]
    have hge : (a :: tl).getLast? = some ((a :: tl).getLast (by simp)) :=
      List.getLast?_eq_getLast _ _
    set t := (a :: tl).getLast (by simp) with hts
    have htm : t ∈ a :: tl := List.mem_of_mem_getLast? hge
    have htn : t ≠ n := fun he => hnf (he ▸ htm)
    have htlt : t < s.ft.length := by rw [hft]; exact g1 t htm
    rw [g8 (by simp), hge]
    dsimp only
    set s1 := updF s t (fun v => { v with next := some n }) with hs1
    set s2 := updF s1 n (fun v => { v with prev := some t }) with hs2
    set s4 := updF { s2 with ffTail := some n } n (fun v => { v with next := none }) with hs4
    refine ⟨s4, rfl, ?_, ?_⟩
    · refine ⟨rfl, rfl, rfl, rfl, by simp [hs4, hs2, hs1, updF], ?_⟩
      intro f
      have hstrip : ∀ (s0 : SimState) (x : Option Nat) (i : Nat),
          getF { s0 with ffTail := x } i = getF s0 i := fun _ _ _ => rfl
      have hstriplen : ∀ (s0 : SimState) (x : Option Nat),
          ({ s0 with ffTail := x } : SimState).ft.length = s0.ft.length := fun _ _ => rfl
      simp only [hs4, hs2, hs1, getF_updF, hstrip, hstriplen, ft_length_updF]
      split_ifs
      all_goals try dsimp only
      all_goals try exact ⟨rfl, rfl, rfl, rfl⟩
      all_goals casesm* _ ∧ _
      all_goals subst_vars
      all_goals exact ⟨rfl, rfl, rfl, rfl⟩
    · have hlink : ∀ x, x ≠ n → x ≠ t → getF s4 x = getF s x := by
        intro x hx hxt
        rw [hs4]
        have hstrip : ∀ (s0 : SimState) (y : Option Nat) (i : Nat),
            getF { s0 with ffTail := y } i = getF s0 i := fun _ _ _ => rfl
        rw [getF_updF_ne _ _ _ _ (fun he => hx he.symm), hstrip, hs2,
          getF_updF_ne _ _ _ _ (fun he => hx he.symm), hs1,
          getF_updF_ne _ _ _ _ (fun he => hxt he.symm)]
      have hnlt2 : n < s2.ft.length := by rw [hs2, ft_length_updF, hs1, ft_length_updF]; exact hnft
      have hself : getF s4 n = { getF s2 n with next := none } := by
        rw [hs4]
        have hstrip : ∀ (s0 : SimState) (y : Option Nat) (i : Nat),
            getF { s0 with ffTail := y } i = getF s0 i := fun _ _ _ => rfl
        rw [getF_updF_self _ _ _ (show n < ({ s2 with ffTail := some n } : SimState).ft.length from hnlt2), hstrip]
      have hn2 : getF s2 n = { getF s n with prev := some t } := by
        rw [hs2, getF_updF_self _ _ _ (by rw [hs1, ft_length_updF]; exact hnft), hs1,
          getF_updF_ne _ _ _ _ htn]
      have htlink : getF s4 t = { getF s t with next := some n } := by
        rw [hs4]
        have hstrip : ∀ (s0 : SimState) (y : Option Nat) (i : Nat),
            getF { s0 with ffTail := y } i = getF s0 i := fun _ _ _ => rfl
        rw [getF_updF_ne _ _ _ _ (fun he => htn he.symm), hstrip, hs2,
          getF_updF_ne _ _ _ _ (fun he => htn he.symm), hs1, getF_updF_self _ _ _ htlt]
      have hnodup : ((a :: tl) ++ [n] ++ sl).Nodup := by
        rw [List.nodup_append] at g3 ⊢
        obtain ⟨n1, n2, n3⟩ := g3
        refine ⟨?_, n2, ?_⟩
        · rw [List.nodup_append]
          refine ⟨n1, by simp, ?_⟩
          intro x hx
          simp
          intro he
          exact hnf (he ▸ hx)
        · intro x hx
          rw [List.mem_append] at hx
          cases hx with
          | inl hx => exact n3 hx
          | inr hx =>
            simp at hx
            rw [hx]
            exact hns
      refine ⟨?_, g2, hnodup, ?_, ?_, ?_, g7,
        fun _ => by show some n = ((a :: tl) ++ [n]).getLast?; rw [List.getLast?_concat], g9,
        ?_, ?_⟩
      · intro x hx
        rw [List.mem_append] at hx
        cases hx with
        | inl hx => exact g1 x hx
        | inr hx => simp at hx; rw [hx]; exact hn
      · rw [List.chain'_append]
        refine ⟨?_, List.chain'_singleton n, ?_⟩
        · refine chain_next_congr_butlast s s4 (a :: tl) t hge
            (List.Nodup.of_append_left g3) ?_ g4
          intro x hx hxt
          rw [hlink x (fun he => hnf (he ▸ hx)) hxt]
        · intro x hx y hy
          simp at hy
          rw [hge] at hx
          simp at hx
          subst hx
          subst hy
          unfold nextR
          rw [htlink]
      · refine chain_sl_congr s s4 sl ?_ g5
        intro x hx
        have hxn : x ≠ n := fun he => hns (he ▸ hx)
        have hxt : x ≠ t := by
          intro he
          rw [List.nodup_append] at g3
          exact g3.2.2 htm (he ▸ hx)
        rw [hlink x hxn hxt]
        exact ⟨rfl, rfl⟩
      · show s.ffHead = ((a :: tl) ++ [n]).head?
        rw [g6]
        simp
      · intro x hx
        rw [List.getLast?_concat] at hx
        cases hx
        rw [hself, hn2]
      · intro x hx
        have hxm := List.mem_of_mem_getLast? hx
        have hxn : x ≠ n := fun he => hns (he ▸ hxm)
        have hxt : x ≠ t := by
          intro he
          rw [List.nodup_append] at g3
          exact g3.2.2 htm (he ▸ hxm)
        rw [hlink x hxn hxt]
        exact g11 x hx

end VMSim

namespace VMSim

theorem chain_sl_congr_butlast (s s' : SimState) :
    ∀ (l : List Nat) (t : Nat), l.getLast? = some t → l.Nodup →
      (∀ x ∈ l, x ≠ t → (getF s' x).next = (getF s x).next) →
      (∀ x ∈ l, (getF s' x).prev = (getF s x).prev) →
      List.Chain' (slR s) l → List.Chain' (slR s') l
  | [], _, h, _, _, _, _ => by cases h
  | [a], _, _, _, _, _, _ => List.chain'_singleton a
  | a :: b :: tl, t, h, hnd, hne, hpr, hch => by
    rw [List.chain'_cons] at hch ⊢
    have hgl : (b :: tl).getLast? = some t := by
      rw [List.getLast?_cons_cons] at h
      exact h
    have hat : a ≠ t := by
      intro he
      subst he
      exact (List.nodup_cons.mp hnd).1 (List.mem_of_mem_getLast? hgl)
    refine ⟨?_, chain_sl_congr_butlast s s' (b :: tl) t hgl (List.nodup_cons.mp hnd).2
      (fun x hx hxt => hne x (List.mem_cons_of_mem a hx) hxt)
      (fun x hx => hpr x (List.mem_cons_of_mem a hx)) hch.2⟩
    unfold slR at hch ⊢
    rw [hne a (by simp) hat, hpr b (by simp)]
    exact hch.1

theorem chain_sl_congr_buthead (s s' : SimState) :
    ∀ (l : List Nat) (hd : Nat), l.head? = some hd → l.Nodup →
      (∀ x ∈ l, (getF s' x).next = (getF s x).next) →
      (∀ x ∈ l, x ≠ hd → (getF s' x).prev = (getF s x).prev) →
      List.Chain' (slR s) l → List.Chain' (slR s') l
  | [], _, h, _, _, _, _ => by cases h
  | [a], _, _, _, _, _, _ => List.chain'_singleton a
  | a :: b :: tl, hd, h, hnd, hne, hpr, hch => by
    cases h
    rw [List.chain'_cons] at hch ⊢
    have hba : b ≠ a := by
      intro he
      exact (List.nodup_cons.mp hnd).1 (he ▸ (by simp : b ∈ b :: tl))
    constructor
    · unfold slR at hch ⊢
      rw [hne a (by simp), hpr b (by simp) hba]
      exact hch.1
    · refine chain_sl_congr_buthead s s' (b :: tl) b rfl (List.nodup_cons.mp hnd).2
        (fun x hx => hne x (List.mem_cons_of_mem a hx)) ?_ hch.2
      intro x hx hxb
      by_cases hxa : x = a
      · subst hxa
        exact absurd hx (List.nodup_cons.mp hnd).1
      · exact hpr x (List.mem_cons_of_mem a hx) hxa

theorem sfoRemove_ffHead_wf (c : Config) (s : SimState) (h : Nat) (tl sl : List Nat)
    (hft : s.ft.length = c.nframes)
    (hs : Shape c s (h :: tl) sl) :
    ∃ s1, sfoRemove s h .ff = .ok (h, s1) ∧ CoreEq s s1 ∧ Shape c s1 tl sl := by
  obtain ⟨g1, g2, g3, g4, g5, g6, g7, g8, g9, g10, g11⟩ := hs
  unfold sfoRemove getHead
  dsimp only
  rw [g6]
  dsimp only [List.head?]
  rw [if_pos rfl]
  cases tl with
  | nil =>
    have hnx : (getF s h).next = none := g10 h rfl
    rw [hnx]
    dsimp only [setHead]
    refine ⟨_, rfl, ⟨rfl, rfl, rfl, rfl, rfl, fun f => ⟨rfl, rfl, rfl, rfl⟩⟩, ?_⟩
    refine ⟨(by intro x hx; cases hx), g2, (by simpa using (List.nodup_append.mp g3).2.1),
      List.chain'_nil, ?_, rfl, g7, (fun hc => absurd rfl hc), g9,
      (by intro x hx; cases hx), g11⟩
    refine chain_sl_congr s _ sl ?_ g5
    intro x _
    exact ⟨rfl, rfl⟩
  | cons b tl2 =>
    have hnx : (getF s h).next = some b := by
      rw [List.chain'_cons] at g4
      exact g4.1
    rw [hnx]
    dsimp only [setHead]
    have hbm : b ∈ h :: b :: tl2 := by simp
    have hblt : b < s.ft.length := by rw [hft]; exact g1 b hbm
    have hhb : h ≠ b := by
      intro he
      exact (List.nodup_cons.mp (List.Nodup.of_append_left g3)).1 (he ▸ (by simp : b ∈ b :: tl2))
    set s1 := updF { s with ffHead := some b } b (fun v => { v with prev := none }) with hs1
    have hstrip : ∀ (s0 : SimState) (x : Option Nat) (i : Nat),
        getF { s0 with ffHead := x } i = getF s0 i := fun _ _ _ => rfl
    have hlink : ∀ x, x ≠ b → getF s1 x = getF s x := by
      intro x hx
      rw [hs1, getF_updF_ne _ _ _ _ (fun he => hx he.symm), hstrip]
    have hself : getF s1 b = { getF s b with prev := none } := by
      rw [hs1, getF_updF_self _ _ _
        (show b < ({ s with ffHead := some b } : SimState).ft.length from hblt), hstrip]
    refine ⟨s1, rfl, ?_, ?_⟩
    · refine ⟨rfl, rfl, rfl, rfl, by simp [hs1, updF], ?_⟩
      intro f
      by_cases hfb : f = b
      · subst hfb
        rw [hself]
        exact ⟨rfl, rfl, rfl, rfl⟩
      · rw [hlink f hfb]
        exact ⟨rfl, rfl, rfl, rfl⟩
    · have hnd2 := (List.nodup_cons.mp (List.nodup_append.mp g3).1)
      refine ⟨fun x hx => g1 x (List.mem_cons_of_mem h hx), g2, ?_, ?_, ?_, rfl, g7, ?_, g9,
        ?_, ?_⟩
      · rw [List.nodup_append] at g3 ⊢
        exact ⟨(List.nodup_cons.mp g3.1).2, g3.2.1,
          fun x hx => g3.2.2 (List.mem_cons_of_mem h hx)⟩
      · refine chain_next_congr s s1 (b :: tl2) ?_ (List.chain'_cons.mp g4).2
        intro x hx
        by_cases hxb : x = b
        · subst hxb
          rw [hself]
        · rw [hlink x hxb]
      · refine chain_sl_congr s s1 sl ?_ g5
        intro x hx
        have hxb : x ≠ b := by
          intro he
          rw [List.nodup_append] at g3
          exact g3.2.2 hbm (he ▸ hx)
        rw [hlink x hxb]
        exact ⟨rfl, rfl⟩
      · intro _
        show s.ffTail = _
        rw [g8 (by simp)]
        rw [List.getLast?_cons_cons]
      · intro x hx
        have hxm : x ∈ h :: b :: tl2 := List.mem_cons_of_mem h (List.mem_of_mem_getLast? hx)
        by_cases hxb : x = b
        · rw [hxb] at hx ⊢
          rw [hself]
          exact g10 b (by rw [List.getLast?_cons_cons]; exact hx)
        · rw [hlink x hxb]
          exact g10 x (by rw [List.getLast?_cons_cons]; exact hx)
      · intro x hx
        have hxb : x ≠ b := by
          intro he
          rw [List.nodup_append] at g3
          exact g3.2.2 hbm (he ▸ List.mem_of_mem_getLast? hx)
        rw [hlink x hxb]
        exact g11 x hx

end VMSim

namespace VMSim

theorem sfoRemove_sf_wf (c : Config) (s : SimState) (n : Nat) (fl l1 l2 : List Nat)
    (hft : s.ft.length = c.nframes) (hfl : fl ≠ [])
    (hs : Shape c s fl (l1 ++ n :: l2)) :
    ∃ s1, sfoRemove s n .sf = .ok (n, s1) ∧ CoreEq s s1 ∧ Shape c s1 fl (l1 ++ l2) := by
  obtain ⟨g1, g2, g3, g4, g5, g6, g7, g8, g9, g10, g11⟩ := hs
  have hslne : l1 ++ n :: l2 ≠ [] := by simp
  have hnm : n ∈ l1 ++ n :: l2 := by simp
  have hnlt : n < s.ft.length := by rw [hft]; exact g2 n hnm
  have hndsl : (l1 ++ n :: l2).Nodup := (List.nodup_append.mp g3).2.1
  have hdisj : List.Disjoint fl (l1 ++ n :: l2) := (List.nodup_append.mp g3).2.2
  have hnn1 : n ∉ l1 := fun hx => (List.nodup_append.mp hndsl).2.2 hx (by simp)
  have hnn2 : n ∉ l2 :=
    (List.nodup_cons.mp (List.nodup_append.mp hndsl).2.1).1
  obtain ⟨ch1, ch2, hjoin⟩ := List.chain'_append.mp g5
  unfold sfoRemove getHead
  dsimp only
  rw [g7]
  cases l1 with
  | nil =>
    dsimp only [List.nil_append, List.head?]
    rw [if_pos rfl]
    cases l2 with
    | nil =>
      have hnx : (getF s n).next = none := g11 n (by simp)
      rw [hnx]
      dsimp only [setHead]
      refine ⟨{ s with sfHead := none }, rfl,
        ⟨rfl, rfl, rfl, rfl, rfl, fun f => ⟨rfl, rfl, rfl, rfl⟩⟩, ?_⟩
      refine ⟨g1, (by intro x hx; cases hx), ?_, ?_, List.chain'_nil, g6, rfl, g8,
        (fun hc => absurd rfl hc), ?_, (by intro x hx; cases hx)⟩
      · simp only [List.append_nil]
        exact List.Nodup.of_append_left g3
      · exact chain_next_congr s _ fl (fun x _ => rfl) g4
      · intro x hx
        exact g10 x hx
    | cons b t2 =>
      have hnx : (getF s n).next = some b := (List.chain'_cons.mp ch2).1.1
      rw [hnx]
      dsimp only [setHead]
      have hbm : b ∈ ([] : List Nat) ++ n :: b :: t2 := by simp
      have hblt : b < s.ft.length := by rw [hft]; exact g2 b hbm
      set s1 := updF { s with sfHead := some b } b (fun v => { v with prev := none }) with hs1
      have hstrip : ∀ (s0 : SimState) (x : Option Nat) (i : Nat),
          getF { s0 with sfHead := x } i = getF s0 i := fun _ _ _ => rfl
      have hlink : ∀ x, x ≠ b → getF s1 x = getF s x := by
        intro x hx
        rw [hs1, getF_updF_ne _ _ _ _ (fun he => hx he.symm), hstrip]
      have hself : getF s1 b = { getF s b with prev := none } := by
        rw [hs1, getF_updF_self _ _ _
          (show b < ({ s with sfHead := some b } : SimState).ft.length from hblt), hstrip]
      refine ⟨s1, rfl, ?_, ?_⟩
      · refine ⟨rfl, rfl, rfl, rfl, (by simp [hs1, updF]), ?_⟩
        intro f
        by_cases hfb : f = b
        · rw [hfb, hself]
          exact ⟨rfl, rfl, rfl, rfl⟩
        · rw [hlink f hfb]
          exact ⟨rfl, rfl, rfl, rfl⟩
      · have hnd2 : (n :: b :: t2).Nodup := by
          have := (List.nodup_append.mp g3).2.1
          simpa using this
        refine ⟨g1, (fun x hx => g2 x (by simp at hx ⊢; exact Or.inr hx)), ?_, ?_, ?_,
          g6, rfl, g8, ?_, ?_, ?_⟩
        · rw [List.nodup_append] at g3 ⊢
          refine ⟨g3.1, (List.nodup_cons.mp (by simpa using g3.2.1 : (n :: b :: t2).Nodup)).2, ?_⟩
          intro x hx hx2
          exact g3.2.2 hx (by simp at hx2 ⊢; exact Or.inr hx2)
        · refine chain_next_congr s s1 fl ?_ g4
          intro x hx
          have hxb : x ≠ b := fun he => hdisj (he ▸ hx) hbm
          rw [hlink x hxb]
        · refine chain_sl_congr_buthead s s1 (b :: t2) b rfl (List.nodup_cons.mp hnd2).2 ?_ ?_
            (List.chain'_cons.mp ch2).2
          · intro x hx
            by_cases hxb : x = b
            · rw [hxb, hself]
            · rw [hlink x hxb]
          · intro x hx hxb
            rw [hlink x hxb]
        · intro hc
          show s.sfTail = _
          rw [g9 hslne]
          simp
        · intro x hx
          have hxb : x ≠ b := fun he => hdisj (he ▸ List.mem_of_mem_getLast? hx) hbm
          rw [hlink x hxb]
          exact g10 x hx
        · intro x hx
          have hxm : x ∈ b :: t2 := List.mem_of_mem_getLast? hx
          by_cases hxb : x = b
          · rw [hxb] at hx ⊢
            rw [hself]
            exact g11 b (by simp only [List.nil_append, List.getLast?_cons_cons]; exact hx)
          · rw [hlink x hxb]
            exact g11 x (by simp only [List.nil_append, List.getLast?_cons_cons]; exact hx)
  | cons a t1 =>
    dsimp only [List.cons_append, List.head?]
    have han : a ≠ n := by
      intro he
      exact hnn1 (he ▸ (by simp : a ∈ a :: t1))
    rw [if_neg han]
    have hl1ne : a :: t1 ≠ [] := by simp
    have hpvl : (a :: t1).getLast? = some ((a :: t1).getLast hl1ne) :=
      List.getLast?_eq_getLast _ _
    set pv := (a :: t1).getLast hl1ne with hpvs
    have hpvm : pv ∈ a :: t1 := List.mem_of_mem_getLast? hpvl
    have hpvsl : pv ∈ (a :: t1) ++ n :: l2 := List.mem_append_left _ hpvm
    have hpvlt : pv < s.ft.length := by rw [hft]; exact g2 pv hpvsl
    have hpvn : pv ≠ n := fun he => hnn1 (he ▸ hpvm)
    have hjoin2 : slR s pv n := hjoin pv hpvl n (by simp)
    have hprevn : (getF s n).prev = some pv := hjoin2.2
    cases l2 with
    | nil =>
      have htl : s.sfTail = some n := by
        rw [g9 hslne]
        rw [List.getLast?_append]
        simp
      rw [htl, if_pos rfl, hprevn]
      dsimp only
      simp only [List.append_nil]
      set s1 := updF { s with sfHead := some a, sfTail := some pv } pv
        (fun v => { v with next := none }) with hs1
      have hstrip : ∀ (s0 : SimState) (x y : Option Nat) (i : Nat),
          getF { s0 with sfHead := x, sfTail := y } i = getF s0 i := fun _ _ _ _ => rfl
      have hlink : ∀ x, x ≠ pv → getF s1 x = getF s x := by
        intro x hx
        rw [hs1, getF_updF_ne _ _ _ _ (fun he => hx he.symm), hstrip]
      have hself : getF s1 pv = { getF s pv with next := none } := by
        rw [hs1, getF_updF_self _ _ _
          (show pv < ({ s with sfHead := some a, sfTail := some pv } : SimState).ft.length
            from hpvlt), hstrip]
      refine ⟨s1, rfl, ?_, ?_⟩
      · refine ⟨rfl, rfl, rfl, rfl, (by simp [hs1, updF]), ?_⟩
        intro f
        by_cases hfp : f = pv
        · rw [hfp, hself]
          exact ⟨rfl, rfl, rfl, rfl⟩
        · rw [hlink f hfp]
          exact ⟨rfl, rfl, rfl, rfl⟩
      · have hnd1 : (a :: t1).Nodup := (List.nodup_append.mp hndsl).1
        refine ⟨g1, (fun x hx => g2 x (List.mem_append_left _ hx)), ?_, ?_, ?_,
          g6, rfl, g8, ?_, ?_, ?_⟩
        · rw [List.nodup_append] at g3 ⊢
          refine ⟨g3.1, hnd1, ?_⟩
          intro x hx hx2
          exact g3.2.2 hx (List.mem_append_left _ hx2)
        · refine chain_next_congr s s1 fl ?_ g4
          intro x hx
          have hxp : x ≠ pv := fun he => hdisj hx (he ▸ hpvsl)
          rw [hlink x hxp]
        · refine chain_sl_congr_butlast s s1 (a :: t1) pv hpvl hnd1 ?_ ?_ ch1
          · intro x hx hxp
            rw [hlink x hxp]
          · intro x hx
            by_cases hxp : x = pv
            · rw [hxp, hself]
            · rw [hlink x hxp]
        · intro _
          show some pv = _
          rw [hpvl]
        · intro x hx
          have hxp : x ≠ pv := fun he => hdisj (List.mem_of_mem_getLast? hx) (he ▸ hpvsl)
          rw [hlink x hxp]
          exact g10 x hx
        · intro x hx
          rw [hx] at hpvl
          cases hpvl
          rw [hself]
    | cons b t2 =>
      have hbm2 : b ∈ (a :: t1) ++ n :: b :: t2 := by simp
      have hblt : b < s.ft.length := by rw [hft]; exact g2 b hbm2
      have hpb : pv ≠ b := by
        intro he
        rw [List.nodup_append] at hndsl
        exact hndsl.2.2 (he ▸ hpvm) (by simp)
      have hglb : (b :: t2).getLast? = some ((b :: t2).getLast (by simp)) :=
        List.getLast?_eq_getLast _ _
      set gb := (b :: t2).getLast (by simp) with hgbs
      have hgbm : gb ∈ b :: t2 := List.mem_of_mem_getLast? hglb
      have hgbn : gb ≠ n := fun he => hnn2 (he ▸ hgbm)
      have htl : s.sfTail = some gb := by
        rw [g9 hslne, List.getLast?_append]
        rw [List.getLast?_cons_cons, hglb]
        rfl
      rw [htl]
      rw [if_neg (fun he => hgbn (Option.some.inj he))]
      have hfftl : s.ffTail = some (fl.getLast hfl) := by
        rw [g8 hfl]
        exact List.getLast?_eq_getLast _ _
      have hffn : fl.getLast hfl ≠ n := by
        intro he
        exact hdisj (he ▸ List.getLast_mem hfl) hnm
      rw [hfftl, if_neg (fun he => hffn (Option.some.inj he))]
      rw [hprevn]
      dsimp only
      have hnxn : (getF s n).next = some b := (List.chain'_cons.mp ch2).1.1
      set s1 := updF s pv (fun v => { v with next := (getF s n).next }) with hs1
      have hn1 : getF s1 n = getF s n := by
        rw [hs1, getF_updF_ne _ _ _ _ hpvn]
      rw [hn1, hnxn, hprevn]
      dsimp only
      set s2 := updF s1 b (fun v => { v with prev := some pv }) with hs2
      have hblt1 : b < s1.ft.length := by rw [hs1, ft_length_updF]; exact hblt
      have hlink1 : ∀ x, x ≠ pv → getF s1 x = getF s x := by
        intro x hx
        rw [hs1, getF_updF_ne _ _ _ _ (fun he => hx he.symm)]
      have hself1 : getF s1 pv = { getF s pv with next := (getF s n).next } := by
        rw [hs1, getF_updF_self _ _ _ hpvlt]
      have hlink2 : ∀ x, x ≠ b → getF s2 x = getF s1 x := by
        intro x hx
        rw [hs2, getF_updF_ne _ _ _ _ (fun he => hx he.symm)]
      have hself2 : getF s2 b = { getF s1 b with prev := some pv } := by
        rw [hs2, getF_updF_self _ _ _ hblt1]
      have hlk : ∀ x, x ≠ pv → x ≠ b → getF s2 x = getF s x := by
        intro x h1 h2
        rw [hlink2 x h2, hlink1 x h1]
      have hndbt : (b :: t2).Nodup :=
        (List.nodup_cons.mp (List.nodup_append.mp hndsl).2.1).2
      have hnd1 : (a :: t1).Nodup := (List.nodup_append.mp hndsl).1
      have hdisj12 : List.Disjoint (a :: t1) (b :: t2) := by
        intro x hx hx2
        exact (List.nodup_append.mp hndsl).2.2 hx (by simp at hx2 ⊢; exact Or.inr hx2)
      refine ⟨s2, rfl, ?_, ?_⟩
      · refine ⟨rfl, rfl, rfl, rfl, (by simp [hs2, hs1, updF]), ?_⟩
        intro f
        by_cases hfb : f = b
        · rw [hfb, hself2, hlink1 b (fun he => hpb he.symm)]
          exact ⟨rfl, rfl, rfl, rfl⟩
        · rw [hlink2 f hfb]
          by_cases hfp : f = pv
          · rw [hfp, hself1]
            exact ⟨rfl, rfl, rfl, rfl⟩
          · rw [hlink1 f hfp]
            exact ⟨rfl, rfl, rfl, rfl⟩
      · show Shape c s2 fl ((a :: t1) ++ (b :: t2))
        refine ⟨g1, ?_, ?_, ?_, ?_, g6, ?_, g8, ?_, ?_, ?_⟩
        · intro x hx
          rw [List.mem_append] at hx
          refine g2 x ?_
          cases hx with
          | inl hx => exact List.mem_append_left _ hx
          | inr hx =>
            refine List.mem_append_right _ ?_
            simp at hx ⊢
            tauto
        · have hsub : List.Sublist ((a :: t1) ++ (b :: t2)) ((a :: t1) ++ n :: b :: t2) :=
            List.Sublist.append_left (List.sublist_cons_self n (b :: t2)) (a :: t1)
          exact List.Nodup.sublist (hsub.append_left fl) g3
        · refine chain_next_congr s s2 fl ?_ g4
          intro x hx
          have hxp : x ≠ pv := fun he => hdisj hx (he ▸ hpvsl)
          have hxb : x ≠ b := fun he => hdisj hx (he ▸ hbm2)
          rw [hlk x hxp hxb]
        · rw [List.chain'_append]
          refine ⟨?_, ?_, ?_⟩
          · refine chain_sl_congr_butlast s s2 (a :: t1) pv hpvl hnd1 ?_ ?_ ch1
            · intro x hx hxp
              have hxb : x ≠ b := fun he => hdisj12 hx (he ▸ (by simp : b ∈ b :: t2))
              rw [hlk x hxp hxb]
            · intro x hx
              have hxb : x ≠ b := fun he => hdisj12 hx (he ▸ (by simp : b ∈ b :: t2))
              by_cases hxp : x = pv
              · rw [hxp, hlink2 pv hpb, hself1]
              · rw [hlk x hxp hxb]
          · refine chain_sl_congr_buthead s s2 (b :: t2) b rfl hndbt ?_ ?_
              (List.chain'_cons.mp ch2).2
            · intro x hx
              have hxp : x ≠ pv := fun he => hdisj12 (he ▸ hpvm) hx
              by_cases hxb : x = b
              · rw [hxb, hself2, hlink1 b (fun he => hpb he.symm)]
              · rw [hlk x hxp hxb]
            · intro x hx hxb
              have hxp : x ≠ pv := fun he => hdisj12 (he ▸ hpvm) hx
              rw [hlk x hxp hxb]
          · intro x hx y hy
            rw [hpvl] at hx
            cases hx
            simp only [List.head?] at hy
            cases hy
            constructor
            · rw [hlink2 pv hpb, hself1, hnxn]
            · rw [hself2]
        · show s.sfHead = _
          rw [g7]
          rfl
        · intro _
          show s.sfTail = ((a :: t1) ++ (b :: t2)).getLast?
          rw [htl, List.getLast?_append, hglb]
          rfl
        · intro x hx
          have hxm := List.mem_of_mem_getLast? hx
          have hxp : x ≠ pv := fun he => hdisj hxm (he ▸ hpvsl)
          have hxb : x ≠ b := fun he => hdisj hxm (he ▸ hbm2)
          rw [hlk x hxp hxb]
          exact g10 x hx
        · intro x hx
          have hxg : x = gb := by
            rw [List.getLast?_append, hglb] at hx
            have : (some gb).or ((a :: t1).getLast?) = some gb := rfl
            rw [this] at hx
            exact (Option.some.inj hx).symm
          subst hxg
          have hfull : ((a :: t1) ++ n :: b :: t2).getLast? = some gb := by
            rw [List.getLast?_append, List.getLast?_cons_cons, hglb]
            rfl
          have hnext := g11 gb hfull
          have hgbp : gb ≠ pv := fun he => hdisj12 (he ▸ hpvm) hgbm
          by_cases hgb2 : gb = b
          · rw [hgb2, hself2, hlink1 b (fun he => hpb he.symm)]
            rw [hgb2] at hnext
            exact hnext
          · rw [hlk gb hgbp hgb2]
            exact hnext

end VMSim

namespace VMSim

theorem evict_getF (s : SimState) (v : Nat) (i : Nat) :
    getF (evict s v) i
      = if v = i ∧ v < s.ft.length then { getF s i with bits := PROT_NONE } else getF s i := by
  obtain ⟨st, hev⟩ := evict_reduce s v
  rw [hev]
  show getF (updF (setEntry s (getF s v).page v PROT_NONE) v
      (fun w => { w with bits := PROT_NONE })) i = _
  rw [getF_updF]
  have hsl : (setEntry s (getF s v).page v PROT_NONE).ft.length = s.ft.length := rfl
  rw [hsl]
  by_cases hc : v = i ∧ v < s.ft.length
  · rw [if_pos hc, if_pos hc, hc.1]
    rfl
  · rw [if_neg hc, if_neg hc]
    rfl

theorem evict_getP (s : SimState) (v : Nat) (q : Nat) :
    getP (evict s v) q
      = if (getF s v).page = q ∧ (getF s v).page < s.pt.length then ⟨v, PROT_NONE⟩
        else getP s q := by
  obtain ⟨st, hev⟩ := evict_reduce s v
  rw [hev]
  show getP (setEntry s (getF s v).page v PROT_NONE) q = _
  rw [getP_setEntry]

theorem evict_lengths (s : SimState) (v : Nat) :
    (evict s v).ft.length = s.ft.length ∧ (evict s v).pt.length = s.pt.length := by
  obtain ⟨st, hev⟩ := evict_reduce s v
  rw [hev]
  constructor
  · show ((s.ft.set _ _)).length = _
    rw [List.length_set]
  · show ((s.pt.set _ _)).length = _
    rw [List.length_set]

theorem evict_heads (s : SimState) (v : Nat) :
    (evict s v).ffHead = s.ffHead ∧ (evict s v).ffTail = s.ffTail ∧
    (evict s v).sfHead = s.sfHead ∧ (evict s v).sfTail = s.sfTail ∧
    (evict s v).fEntries = s.fEntries ∧ (evict s v).sEntries = s.sEntries ∧
    (evict s v).fifoHead = s.fifoHead ∧ (evict s v).fifoTail = s.fifoTail := by
  obtain ⟨st, hev⟩ := evict_reduce s v
  rw [hev]
  exact ⟨rfl, rfl, rfl, rfl, rfl, rfl, rfl, rfl⟩

theorem evict_dr (s : SimState) (v : Nat) :
    (evict s v).stats.disk_reads = s.stats.disk_reads ∧
    (evict s v).stats.page_faults = s.stats.page_faults := by
  unfold evict
  by_cases hw : ((getF s v).bits &&& PROT_WRITE) ≠ 0
  · rw [if_pos hw]
    exact ⟨rfl, rfl⟩
  · rw [if_neg hw]
    exact ⟨rfl, rfl⟩

end VMSim

namespace VMSim

set_option maxHeartbeats 1000000 in
theorem sfoDemoteTail_wf (c : Config) (s : SimState) (flM slM : List Nat) (m : Nat)
    (hft : s.ft.length = c.nframes)
    (h3 : ∀ p, p < c.npages → (getP s p).frame < c.nframes)
    (hs : Shape c s flM (slM ++ [m]))
    (hfE : s.fEntries = ((flM.length + 1 : Nat) : Int))
    (hsE : s.sEntries = (slM.length : Int))
    (hflag : ∀ f, f < c.nframes → (getF s f).f_list = 2 → f ∈ slM ++ [m])
    (hsecond : 1 ≤ secondL c.nframes) :
    ∃ s' sl2, sfoDemoteTail c s = .ok s' ∧
      s'.ft.length = c.nframes ∧
      (∀ p, p < c.npages → (getP s' p).frame < c.nframes) ∧
      Shape c s' flM sl2 ∧
      s'.fEntries = (flM.length : Int) ∧
      s'.sEntries = (sl2.length : Int) ∧
      (∀ f, f < c.nframes → (getF s' f).f_list = 2 → f ∈ sl2) ∧
      (∀ x, x ∈ flM ++ sl2 → (getF s' x).free = (getF s x).free) ∧
      s'.stats.disk_reads = s.stats.disk_reads ∧
      s'.stats.page_faults = s.stats.page_faults ∧
      sl2 ≠ [] ∧ (∀ x, x ∈ sl2 → x ∈ slM ++ [m]) := by
  obtain ⟨g1, g2, g3, g4, g5, g6, g7, g8, g9, g10, g11⟩ := hs
  have hmm : m ∈ slM ++ [m] := by simp
  have hmlt : m < s.ft.length := by rw [hft]; exact g2 m hmm
  have hmn : m < c.nframes := g2 m hmm
  have htl : s.sfTail = some m := by
    rw [g9 (by simp), List.getLast?_concat]
  unfold sfoDemoteTail
  rw [htl]
  dsimp only
  have hGF1 : ∀ x, getF (updF s m (fun v => { v with f_list := 2 })) x
      = if m = x then { getF s x with f_list := 2 } else getF s x := by
    intro x
    rw [getF_updF]
    by_cases hc : m = x
    · rw [if_pos ⟨hc, hmlt⟩, if_pos hc, hc]
    · rw [if_neg (fun h2 => hc h2.1), if_neg hc]
  set s1 := updF s m (fun v => { v with f_list := 2 }) with hs1
  set pg := (getF s1 m).page with hpg
  set s2 := setEntry s1 pg m PROT_NONE with hs2
  have hGF2 : ∀ x, getF s2 x = getF s1 x := fun _ => rfl
  have hGP2 : ∀ q, getP s2 q = if pg = q ∧ pg < s.pt.length then ⟨m, PROT_NONE⟩
      else getP s q := by
    intro q
    rw [hs2, getP_setEntry]
    have hl : s1.pt.length = s.pt.length := rfl
    have hp1 : getP s1 q = getP s q := rfl
    rw [hl, hp1]
  have hg3s2 : ∀ p, p < c.npages → (getP s2 p).frame < c.nframes := by
    intro p hp
    rw [hGP2]
    split
    · exact hmn
    · exact h3 p hp
  have hlen2 : s2.ft.length = c.nframes := by
    rw [hs2]
    show s1.ft.length = c.nframes
    rw [hs1, ft_length_updF]
    exact hft
  by_cases hovf : ({ s2 with sEntries := s2.sEntries + 1 } : SimState).sEntries
      > (secondL c.nframes : Int)
  · rw [if_pos hovf]
    have hovn : (slM.length : Int) + 1 > (secondL c.nframes : Int) := by
      have : s2.sEntries = (slM.length : Int) := hsE
      rw [this] at hovf
      exact hovf
    cases slM with
    | nil =>
      exfalso
      simp at hovn
      omega
    | cons sh slM' =>
      have hshm : sh ∈ (sh :: slM') ++ [m] := by simp
      have hshlt : sh < s.ft.length := by rw [hft]; exact g2 sh hshm
      have hshn : sh < c.nframes := g2 sh hshm
      have hshhd : s.sfHead = some sh := by rw [g7]; rfl
      have hhd2 : ({ s2 with sEntries := s2.sEntries + 1 } : SimState).sfHead = some sh := hshhd
      rw [hhd2]
      dsimp only
      have hndsl : ((sh :: slM') ++ [m]).Nodup := (List.nodup_append.mp g3).2.1
      have hshne : ¬ (slM' ++ [m]) = [] := by simp
      have hnxe : ∃ nx, (slM' ++ [m]).head? = some nx := by
        cases h : (slM' ++ [m]).head? with
        | none => exact absurd (List.head?_eq_none_iff.mp h) hshne
        | some nx => exact ⟨nx, rfl⟩
      obtain ⟨nx, hnx⟩ := hnxe
      have hnxm : nx ∈ slM' ++ [m] := List.mem_of_mem_head? (by rw [hnx]; rfl)
      have hnxsl : nx ∈ (sh :: slM') ++ [m] := by
        simp at hnxm ⊢
        tauto
      have hnxlt : nx < s.ft.length := by rw [hft]; exact g2 nx hnxsl
      have hshnx : sh ≠ nx := by
        intro he
        have := (List.nodup_cons.mp (by simpa using hndsl : (sh :: (slM' ++ [m])).Nodup)).1
        exact this (he ▸ hnxm)
      have hshnext : (getF s sh).next = some nx := by
        have hch : List.Chain' (slR s) (sh :: (slM' ++ [m])) := by simpa using g5
        cases hl : slM' ++ [m] with
        | nil => exact absurd hl hshne
        | cons y t =>
          rw [hl] at hch hnx
          simp only [List.head?] at hnx
          cases hnx
          exact (List.chain'_cons.mp hch).1.1
      -- the evicted state chain
      set sA := evict { s2 with sfHead := some sh, sEntries := s2.sEntries + 1 } sh with hsA
      have hGFA : ∀ x, getF sA x = if sh = x then
          { getF s1 x with bits := PROT_NONE } else getF s1 x := by
        intro x
        rw [hsA, evict_getF]
        have hl : ({ s2 with sfHead := some sh, sEntries := s2.sEntries + 1 } : SimState).ft.length
            = s.ft.length := by
          show s1.ft.length = s.ft.length
          rw [hs1, ft_length_updF]
        rw [hl]
        by_cases hc : sh = x
        · rw [if_pos ⟨hc, hc ▸ hshlt⟩, if_pos hc]
          rfl
        · rw [if_neg (fun h2 => hc h2.1), if_neg hc]
          rfl
      set sB := updF sA sh (fun v => { v with free := 0, f_list := 0 }) with hsB
      have hshltA : sh < sA.ft.length := by
        rw [hsA]
        rw [(evict_lengths _ _).1]
        show sh < s1.ft.length
        rw [hs1, ft_length_updF]
        exact hshlt
      have hGFB : ∀ x, x ≠ sh → getF sB x = getF sA x := by
        intro x hx
        rw [hsB, getF_updF_ne _ _ _ _ (fun he => hx he.symm)]
      have hGFBs : getF sB sh = { getF sA sh with free := 0, f_list := 0 } := by
        rw [hsB, getF_updF_self _ _ _ hshltA]
      have hmsh : ¬ m = sh := by
        intro he
        have h1 : (sh :: (slM' ++ [m])).Nodup := by simpa using hndsl
        have h2 := (List.nodup_cons.mp h1).1
        apply h2
        rw [← he]
        simp
      have hBnext : (getF sB sh).next = some nx := by
        rw [hGFBs]
        show (getF sA sh).next = some nx
        rw [hGFA, if_pos rfl]
        show (getF s1 sh).next = some nx
        rw [hs1]
        have := hGF1 sh
        rw [hs1] at this
        rw [this, if_neg hmsh]
        exact hshnext
      rw [hBnext]
      dsimp only
      have hnxlt2 : nx < ({ sB with sfHead := some nx } : SimState).ft.length := by
        show nx < sB.ft.length
        rw [hsB, ft_length_updF, hsA, (evict_lengths _ _).1]
        show nx < s1.ft.length
        rw [hs1, ft_length_updF]
        exact hnxlt
      set sD := updF { sB with sfHead := some nx } nx (fun v => { v with prev := none }) with hsD
      set sFin := { sD with fEntries := sD.fEntries - 1, sEntries := sD.sEntries - 1 } with hsF
      have hstripB : ∀ (s0 : SimState) (x : Option Nat) (i : Nat),
          getF { s0 with sfHead := x } i = getF s0 i := fun _ _ _ => rfl
      have hD_ne : ∀ x, x ≠ nx → getF sD x = getF sB x := by
        intro x hx
        rw [hsD, getF_updF_ne _ _ _ _ (fun he => hx he.symm), hstripB]
      have hD_self : getF sD nx = { getF sB nx with prev := none } := by
        rw [hsD, getF_updF_self _ _ _ hnxlt2, hstripB]
      have hF0 : ∀ x, getF sFin x = getF sD x := fun _ => rfl
      have hnext_all : ∀ x, (getF sFin x).next = (getF s x).next := by
        intro x
        rw [hF0]
        have h1 : (getF sD x).next = (getF sB x).next := by
          by_cases hx : x = nx
          · rw [hx, hD_self]
          · rw [hD_ne x hx]
        rw [h1]
        have h2 : (getF sB x).next = (getF sA x).next := by
          by_cases hx : x = sh
          · rw [hx, hGFBs]
          · rw [hGFB x hx]
        rw [h2, hGFA]
        have h3a : (getF s1 x).next = (getF s x).next := by
          rw [hGF1]
          split
          · rfl
          · rfl
        split
        · exact h3a
        · exact h3a
      have hprev_all : ∀ x, x ≠ nx → (getF sFin x).prev = (getF s x).prev := by
        intro x hxnx
        rw [hF0, hD_ne x hxnx]
        have h2 : (getF sB x).prev = (getF sA x).prev := by
          by_cases hx : x = sh
          · rw [hx, hGFBs]
          · rw [hGFB x hx]
        rw [h2, hGFA]
        have h3a : (getF s1 x).prev = (getF s x).prev := by
          rw [hGF1]
          split
          · rfl
          · rfl
        split
        · exact h3a
        · exact h3a
      have hfree_ne : ∀ x, x ≠ sh → (getF sFin x).free = (getF s x).free := by
        intro x hxsh
        rw [hF0]
        have h1 : (getF sD x).free = (getF sB x).free := by
          by_cases hx : x = nx
          · rw [hx, hD_self]
          · rw [hD_ne x hx]
        rw [h1, hGFB x hxsh, hGFA]
        have h3a : (getF s1 x).free = (getF s x).free := by
          rw [hGF1]
          split
          · rfl
          · rfl
        split
        · exact h3a
        · exact h3a
      have hflist : ∀ x, x ≠ sh → (getF sFin x).f_list
          = if m = x then 2 else (getF s x).f_list := by
        intro x hxsh
        rw [hF0]
        have h1 : (getF sD x).f_list = (getF sB x).f_list := by
          by_cases hx : x = nx
          · rw [hx, hD_self]
          · rw [hD_ne x hx]
        rw [h1, hGFB x hxsh, hGFA]
        have h3a : (getF s1 x).f_list = if m = x then 2 else (getF s x).f_list := by
          rw [hGF1]
          split
          · rfl
          · rfl
        split
        · exact h3a
        · exact h3a
      have hflist_sh : (getF sFin sh).f_list = 0 := by
        rw [hF0]
        have h1 : (getF sD sh).f_list = (getF sB sh).f_list := by
          by_cases hx : sh = nx
          · exact absurd hx hshnx
          · rw [hD_ne sh hx]
        rw [h1, hGFBs]
      have hffh : sFin.ffHead = s.ffHead := by
        show (evict _ sh).ffHead = s.ffHead
        rw [(evict_heads _ _).1]
        rfl
      have hfft : sFin.ffTail = s.ffTail := by
        show (evict _ sh).ffTail = s.ffTail
        rw [(evict_heads _ _).2.1]
        rfl
      have hsft : sFin.sfTail = s.sfTail := by
        show (evict _ sh).sfTail = s.sfTail
        rw [(evict_heads _ _).2.2.2.1]
        rfl
      have hndtl : (slM' ++ [m]).Nodup := by
        have h1 : (sh :: (slM' ++ [m])).Nodup := by simpa using hndsl
        exact (List.nodup_cons.mp h1).2
      have hshnot : sh ∉ slM' ++ [m] := by
        have h1 : (sh :: (slM' ++ [m])).Nodup := by simpa using hndsl
        exact (List.nodup_cons.mp h1).1
      refine ⟨sFin, slM' ++ [m], rfl, ?_, ?_, ?_, ?_, ?_, ?_, ?_, ?_, ?_, (by simp),
        (by intro x hx; simp at hx ⊢; tauto)⟩
      · show sD.ft.length = c.nframes
        rw [hsD, ft_length_updF]
        show sB.ft.length = c.nframes
        rw [hsB, ft_length_updF, hsA, (evict_lengths _ _).1]
        exact hlen2
      · intro p hp
        have hGPF : getP sFin p = getP sA p := rfl
        rw [hGPF, hsA, evict_getP]
        split
        · exact hshn
        · exact hg3s2 p hp
      · refine ⟨g1, ?_, ?_, ?_, ?_, ?_, ?_, ?_, ?_, ?_, ?_⟩
        · intro x hx
          refine g2 x ?_
          simp at hx ⊢
          tauto
        · have hsub : List.Sublist (slM' ++ [m]) ((sh :: slM') ++ [m]) :=
            List.sublist_cons_self sh (slM' ++ [m])
          exact List.Nodup.sublist (hsub.append_left flM) g3
        · exact chain_next_congr s sFin flM (fun x _ => hnext_all x) g4
        · have hch : List.Chain' (slR s) (slM' ++ [m]) := by
            have h1 : List.Chain' (slR s) (sh :: (slM' ++ [m])) := by simpa using g5
            exact h1.tail
          exact chain_sl_congr_buthead s sFin (slM' ++ [m]) nx hnx hndtl
            (fun x _ => hnext_all x) (fun x _ hxnx => hprev_all x hxnx) hch
        · rw [hffh]
          exact g6
        · show some nx = (slM' ++ [m]).head?
          rw [hnx]
        · intro hne
          rw [hfft]
          exact g8 hne
        · intro _
          rw [hsft, htl, List.getLast?_concat]
        · intro x hx
          rw [hnext_all]
          exact g10 x hx
        · intro x hx
          rw [List.getLast?_concat] at hx
          cases hx
          rw [hnext_all]
          exact g11 m (List.getLast?_concat _)
      · have hfe2 : sFin.fEntries = s.fEntries - 1 := by
          show (evict _ sh).fEntries - 1 = s.fEntries - 1
          rw [(evict_heads _ _).2.2.2.2.1]
          rfl
        rw [hfe2, hfE]
        push_cast
        ring
      · have hse2 : sFin.sEntries = s.sEntries + 1 - 1 := by
          show (evict _ sh).sEntries - 1 = s.sEntries + 1 - 1
          rw [(evict_heads _ _).2.2.2.2.2.1]
          rfl
        rw [hse2, hsE]
        simp [List.length_append]
      · intro f hf hfl2
        by_cases hfsh : f = sh
        · rw [hfsh, hflist_sh] at hfl2
          cases hfl2
        · rw [hflist f hfsh] at hfl2
          by_cases hmf : m = f
          · rw [← hmf]
            simp
          · rw [if_neg hmf] at hfl2
            have := hflag f hf hfl2
            simp at this ⊢
            rcases this with h | h | h
            · exact absurd h hfsh
            · exact Or.inl h
            · exact Or.inr h
      · intro x hx
        rw [List.mem_append] at hx
        have hxsh : x ≠ sh := by
          cases hx with
          | inl h => exact fun he => (List.nodup_append.mp g3).2.2 h (he ▸ hshm)
          | inr h => exact fun he => hshnot (he ▸ h)
        exact hfree_ne x hxsh
      · show (evict _ sh).stats.disk_reads = s.stats.disk_reads
        rw [(evict_dr _ _).1]
        rfl
      · show (evict _ sh).stats.page_faults = s.stats.page_faults
        rw [(evict_dr _ _).2]
        rfl
  · rw [if_neg hovf]
    dsimp only [Res.bind]
    set sN := { s2 with fEntries := s2.fEntries - 1, sEntries := s2.sEntries + 1 }
      with hsN
    have hGFN : ∀ x, getF sN x = if m = x then { getF s x with f_list := 2 }
        else getF s x := by
      intro x
      show getF (updF s m (fun v => { v with f_list := 2 })) x = _
      rw [hGF1]
    have hnext : ∀ x, (getF sN x).next = (getF s x).next := by
      intro x
      rw [hGFN]
      split
      · rfl
      · rfl
    have hprev : ∀ x, (getF sN x).prev = (getF s x).prev := by
      intro x
      rw [hGFN]
      split
      · rfl
      · rfl
    refine ⟨sN, slM ++ [m], rfl, hlen2, hg3s2, ?_, ?_, ?_, ?_, ?_, rfl, rfl, (by simp),
      (fun x hx => hx)⟩
    · refine shape_congr c s sN flM (slM ++ [m]) (fun x _ => hnext x)
        (fun x _ => ⟨hnext x, hprev x⟩) rfl rfl rfl rfl
        ⟨g1, g2, g3, g4, g5, g6, g7, g8, g9, g10, g11⟩
    · show s.fEntries - 1 = _
      rw [hfE]
      push_cast
      ring
    · show s.sEntries + 1 = _
      rw [hsE]
      simp
    · intro f hf hfl2
      rw [hGFN] at hfl2
      by_cases hmf : m = f
      · rw [← hmf]
        simp
      · rw [if_neg hmf] at hfl2
        exact hflag f hf hfl2
    · intro x _
      rw [hGFN]
      split
      · rfl
      · rfl

end VMSim

namespace VMSim

theorem sfoCascade_wf (c : Config) (sK : SimState) (flK slK : List Nat)
    (hft : sK.ft.length = c.nframes)
    (h3 : ∀ p, p < c.npages → (getP sK p).frame < c.nframes)
    (hs : Shape c sK flK slK)
    (hfE : sK.fEntries = (flK.length : Int))
    (hsE : sK.sEntries = (slK.length : Int))
    (hflag : ∀ f, f < c.nframes → (getF sK f).f_list = 2 → f ∈ slK)
    (hKne : flK ≠ [])
    (hfirst : 1 ≤ firstL c.nframes) (hsecond : 1 ≤ secondL c.nframes) :
    ∃ s' fl2 sl2, sfoCascade c sK = .ok s' ∧
      s'.ft.length = c.nframes ∧
      (∀ p, p < c.npages → (getP s' p).frame < c.nframes) ∧
      Shape c s' fl2 sl2 ∧
      s'.fEntries = (fl2.length : Int) ∧
      s'.sEntries = (sl2.length : Int) ∧
      (∀ f, f < c.nframes → (getF s' f).f_list = 2 → f ∈ sl2) ∧
      (∀ x, x ∈ fl2 ++ sl2 → (getF s' x).free = (getF sK x).free) ∧
      s'.stats.disk_reads = sK.stats.disk_reads ∧
      s'.stats.page_faults = sK.stats.page_faults ∧
      (fl2 = flK ∨ fl2 = flK.tail) ∧ fl2 ≠ [] ∧
      (∀ x, x ∈ sl2 → x ∈ flK ∨ x ∈ slK) := by
  unfold sfoCascade
  by_cases hov : sK.fEntries > (firstL c.nframes : Int)
  case neg =>
    rw [if_neg hov]
    exact ⟨sK, flK, slK, rfl, hft, h3, hs, hfE, hsE, hflag,
      (fun x _ => rfl), rfl, rfl, Or.inl rfl, hKne, (fun x hx => Or.inr hx)⟩
  case pos =>
    rw [if_pos hov]
    obtain ⟨g1, g2, g3, g4, g5, g6, g7, g8, g9, g10, g11⟩ := hs
    have hlen2 : 2 ≤ flK.length := by
      rw [hfE] at hov
      have : (firstL c.nframes : Int) ≥ 1 := by exact_mod_cast hfirst
      omega
    obtain ⟨h1, tl1, rfl⟩ : ∃ h1 tl1, flK = h1 :: tl1 := by
      cases flK with
      | nil => cases hKne rfl
      | cons a b => exact ⟨a, b, rfl⟩
    obtain ⟨h2, tl2, rfl⟩ : ∃ h2 tl2, tl1 = h2 :: tl2 := by
      cases tl1 with
      | nil => simp at hlen2
      | cons a b => exact ⟨a, b, rfl⟩
    have hh1n : h1 < c.nframes := g1 h1 (by simp)
    have hh1lt : h1 < sK.ft.length := by rw [hft]; exact hh1n
    have hh2lt : h2 < sK.ft.length := by rw [hft]; exact g1 h2 (by simp)
    have hh12 : h1 ≠ h2 := by
      intro he
      have := List.Nodup.of_append_left g3
      rw [List.nodup_cons] at this
      exact this.1 (he ▸ (by simp : h2 ∈ h2 :: tl2))
    have hnext1 : (getF sK h1).next = some h2 := (List.chain'_cons.mp g4).1
    by_cases hsf : sK.sfHead = none
    case pos =>
      rw [if_pos hsf]
      have hslnil : slK = [] := by
        rw [g7] at hsf
        cases slK with
        | nil => rfl
        | cons x xs => cases hsf
      subst hslnil
      rw [g6]
      dsimp only [List.head?]
      have hnext1' :
          (getF { sK with ffHead := some h1, sfHead := some h1, sfTail := some h1 } h1).next
            = some h2 := hnext1
      rw [hnext1']
      dsimp only
      set base : SimState :=
        { sK with ffHead := some h2, sfHead := some h1, sfTail := some h1 } with hbase
      have hh2b : h2 < base.ft.length := hh2lt
      set sC := updF base h2 (fun v => { v with prev := none }) with hsC
      have hh1c : h1 < sC.ft.length := by rw [hsC, ft_length_updF]; exact hh1lt
      set sM := updF sC h1 (fun v => { v with next := none }) with hsM
      have hC_ne : ∀ x, x ≠ h2 → getF sC x = getF sK x := by
        intro x hx
        rw [hsC, getF_updF_ne _ _ _ _ (fun he => hx he.symm)]
        rfl
      have hC_self : getF sC h2 = { getF sK h2 with prev := none } := by
        rw [hsC, getF_updF_self _ _ _ hh2b]
        rfl
      have hM_ne : ∀ x, x ≠ h1 → getF sM x = getF sC x := by
        intro x hx
        rw [hsM, getF_updF_ne _ _ _ _ (fun he => hx he.symm)]
      have hM_self : getF sM h1 = { getF sC h1 with next := none } := by
        rw [hsM, getF_updF_self _ _ _ hh1c]
      have hndfl : (h1 :: h2 :: tl2).Nodup := List.Nodup.of_append_left g3
      have hnexteq : ∀ x, x ∈ h2 :: tl2 → (getF sM x).next = (getF sK x).next := by
        intro x hx
        have hx1 : x ≠ h1 := by
          intro he
          exact (List.nodup_cons.mp hndfl).1 (he ▸ hx)
        rw [hM_ne x hx1]
        by_cases hx2 : x = h2
        · rw [hx2, hC_self]
        · rw [hC_ne x hx2]
      have hfreeM : ∀ x, (getF sM x).free = (getF sK x).free := by
        intro x
        by_cases hx1 : x = h1
        · rw [hx1, hM_self]
          show (getF sC h1).free = _
          by_cases hx2 : h1 = h2
          · exact absurd hx2 hh12
          · rw [hC_ne h1 hx2]
        · rw [hM_ne x hx1]
          by_cases hx2 : x = h2
          · rw [hx2, hC_self]
          · rw [hC_ne x hx2]
      have hflistM : ∀ x, (getF sM x).f_list = (getF sK x).f_list := by
        intro x
        by_cases hx1 : x = h1
        · rw [hx1, hM_self]
          show (getF sC h1).f_list = _
          by_cases hx2 : h1 = h2
          · exact absurd hx2 hh12
          · rw [hC_ne h1 hx2]
        · rw [hM_ne x hx1]
          by_cases hx2 : x = h2
          · rw [hx2, hC_self]
          · rw [hC_ne x hx2]
      have hshape : Shape c sM (h2 :: tl2) ([] ++ [h1]) := by
        refine ⟨(fun x hx => g1 x (List.mem_cons_of_mem _ hx)),
          (by intro x hx; simp at hx; rw [hx]; exact hh1n), ?_, ?_,
          (by show List.Chain' (slR sM) [h1]; exact List.chain'_singleton h1),
          rfl, rfl, ?_, (fun _ => rfl), ?_, ?_⟩
        · rw [List.nodup_append]
          refine ⟨(List.nodup_cons.mp hndfl).2, by simp, ?_⟩
          intro x hx
          simp only [List.nil_append, List.mem_singleton]
          intro he
          exact (List.nodup_cons.mp hndfl).1 (he ▸ hx)
        · exact chain_next_congr sK sM (h2 :: tl2) hnexteq (List.chain'_cons.mp g4).2
        · intro _
          show sK.ffTail = _
          rw [g8 (by simp), List.getLast?_cons_cons]
        · intro x hx
          rw [hnexteq x (List.mem_of_mem_getLast? hx)]
          exact g10 x (by rw [List.getLast?_cons_cons]; exact hx)
        · intro x hx
          have hx2 : some h1 = some x := hx
          cases hx2
          rw [hM_self]
      obtain ⟨s', sl2, heq, hoft, ho3, hoshape, hofE, hosE, hoflag, hofree, hodr, hopf, hone,
          hprov⟩ :=
        sfoDemoteTail_wf c sM (h2 :: tl2) [] h1
          (by rw [hsM, ft_length_updF, hsC, ft_length_updF]; exact hft)
          (by intro p hp; exact h3 p hp)
          hshape
          (by show sK.fEntries = _; rw [hfE]; simp)
          (by show sK.sEntries = _; rw [hsE])
          (by
            intro f hf hfl2
            rw [hflistM] at hfl2
            exact absurd (hflag f hf hfl2) (by simp))
          hsecond
      refine ⟨s', h2 :: tl2, sl2, ?_, hoft, ho3, hoshape, hofE, hosE, hoflag, ?_, ?_, ?_,
        Or.inr rfl, (by simp), ?_⟩
      · show sfoDemoteTail c sM = .ok s'
        exact heq
      · intro x hx
        rw [hofree x hx, hfreeM]
      · rw [hodr]
        rfl
      · rw [hopf]
        rfl
      · intro x hx
        have := hprov x hx
        simp at this
        rw [this]
        exact Or.inl (by simp)
    case neg =>
      rw [if_neg hsf]
      rw [g6]
      dsimp only [List.head?]
      have hslne : slK ≠ [] := by
        intro he
        rw [g7, he] at hsf
        exact hsf rfl
      obtain ⟨sA, heqR, hcoreA, hshapeA⟩ :=
        sfoRemove_ffHead_wf c sK h1 (h2 :: tl2) slK hft
          ⟨g1, g2, g3, g4, g5, g6, g7, g8, g9, g10, g11⟩
      rw [heqR]
      dsimp only
      obtain ⟨a1, a2, a3, a4, a5, a6, a7, a8, a9, a10, a11⟩ := hshapeA
      obtain ⟨cpt, cst, cfe, cse, cln, ccore⟩ := hcoreA
      have hstl : slK.getLast? = some (slK.getLast hslne) := List.getLast?_eq_getLast _ _
      set st := slK.getLast hslne with hsts
      have hstm : st ∈ slK := List.mem_of_mem_getLast? hstl
      have hstn : st < c.nframes := a2 st hstm
      have hstlt : st < sA.ft.length := by rw [cln, hft]; exact hstn
      have hsta : sA.sfTail = some st := by rw [a9 hslne, hstl]
      rw [hsta]
      dsimp only
      have hndfl : (h1 :: h2 :: tl2).Nodup := List.Nodup.of_append_left g3
      have hh1slK : h1 ∉ slK := by
        intro hx
        exact (List.nodup_append.mp g3).2.2 (by simp) hx
      have hsth1 : st ≠ h1 := fun he => hh1slK (he ▸ hstm)
      have hdisjA : List.Disjoint (h2 :: tl2) slK := (List.nodup_append.mp a3).2.2
      set sB := updF sA st (fun v => { v with next := some h1 }) with hsB
      have hh1B : h1 < sB.ft.length := by
        rw [hsB, ft_length_updF, cln, hft]
        exact hh1n
      set sC := updF sB h1 (fun v => { v with prev := some st, next := none }) with hsC
      set sM := { sC with sfTail := some h1 } with hsM
      have hB_ne : ∀ x, x ≠ st → getF sB x = getF sA x := by
        intro x hx
        rw [hsB, getF_updF_ne _ _ _ _ (fun he => hx he.symm)]
      have hB_self : getF sB st = { getF sA st with next := some h1 } := by
        rw [hsB, getF_updF_self _ _ _ hstlt]
      have hC_ne : ∀ x, x ≠ h1 → getF sC x = getF sB x := by
        intro x hx
        rw [hsC, getF_updF_ne _ _ _ _ (fun he => hx he.symm)]
      have hC_self : getF sC h1 = { getF sB h1 with prev := some st, next := none } := by
        rw [hsC, getF_updF_self _ _ _ hh1B]
      have hM0 : ∀ x, getF sM x = getF sC x := fun _ => rfl
      have hMlk : ∀ x, x ≠ st → x ≠ h1 → getF sM x = getF sA x := by
        intro x hx1 hx2
        rw [hM0, hC_ne x hx2, hB_ne x hx1]
      have hfreeM : ∀ x, (getF sM x).free = (getF sK x).free := by
        intro x
        have hbase : (getF sA x).free = (getF sK x).free := (ccore x).2.2.1
        by_cases hx2 : x = h1
        · rw [hx2, hM0, hC_self]
          show (getF sB h1).free = _
          rw [hB_ne h1 (fun he => hsth1 he.symm)]
          rw [hx2] at hbase
          exact hbase
        · rw [hM0, hC_ne x hx2]
          by_cases hx1 : x = st
          · rw [hx1, hB_self]
            show (getF sA st).free = _
            rw [hx1] at hbase
            exact hbase
          · rw [hB_ne x hx1]
            exact hbase
      have hflistM : ∀ x, (getF sM x).f_list = (getF sK x).f_list := by
        intro x
        have hbase : (getF sA x).f_list = (getF sK x).f_list := (ccore x).2.2.2
        by_cases hx2 : x = h1
        · rw [hx2, hM0, hC_self]
          show (getF sB h1).f_list = _
          rw [hB_ne h1 (fun he => hsth1 he.symm)]
          rw [hx2] at hbase
          exact hbase
        · rw [hM0, hC_ne x hx2]
          by_cases hx1 : x = st
          · rw [hx1, hB_self]
            show (getF sA st).f_list = _
            rw [hx1] at hbase
            exact hbase
          · rw [hB_ne x hx1]
            exact hbase
      have hndslh : (slK ++ [h1]).Nodup := by
        rw [List.nodup_append]
        refine ⟨(List.nodup_append.mp a3).2.1, by simp, ?_⟩
        intro x hx
        simp only [List.mem_singleton]
        intro he
        exact hh1slK (he ▸ hx)
      have hshapeM : Shape c sM (h2 :: tl2) (slK ++ [h1]) := by
        refine ⟨a1, ?_, ?_, ?_, ?_, ?_, ?_, ?_, ?_, ?_, ?_⟩
        · intro x hx
          rw [List.mem_append] at hx
          cases hx with
          | inl h => exact a2 x h
          | inr h => simp at h; rw [h]; exact hh1n
        · rw [List.nodup_append]
          refine ⟨(List.nodup_append.mp a3).1, hndslh, ?_⟩
          intro x hx hx2
          rw [List.mem_append] at hx2
          cases hx2 with
          | inl h => exact hdisjA hx h
          | inr h =>
            simp at h
            rw [h] at hx
            exact (List.nodup_cons.mp hndfl).1 hx
        · refine chain_next_congr sA sM (h2 :: tl2) ?_ a4
          intro x hx
          have hx1 : x ≠ st := fun he => hdisjA hx (he ▸ hstm)
          have hx2 : x ≠ h1 := by
            intro he
            rw [he] at hx
            exact (List.nodup_cons.mp hndfl).1 hx
          rw [hMlk x hx1 hx2]
        · rw [List.chain'_append]
          refine ⟨?_, List.chain'_singleton h1, ?_⟩
          · refine chain_sl_congr_butlast sA sM slK st hstl (List.nodup_append.mp a3).2.1
              ?_ ?_ a5
            · intro x hx hx1
              have hx2 : x ≠ h1 := fun he => hh1slK (he ▸ hx)
              rw [hMlk x hx1 hx2]
            · intro x hx
              have hx2 : x ≠ h1 := fun he => hh1slK (he ▸ hx)
              by_cases hx1 : x = st
              · rw [hx1, hM0, hC_ne st (fun he => hsth1 he), hB_self]
              · rw [hMlk x hx1 hx2]
          · intro x hx y hy
            rw [hstl] at hx
            cases hx
            simp only [List.head?] at hy
            cases hy
            constructor
            · rw [hM0, hC_ne st (fun he => hsth1 he), hB_self]
            · rw [hM0, hC_self]
        · show sA.ffHead = _
          exact a6
        · show sA.sfHead = _
          rw [a7]
          cases slK with
          | nil => exact absurd rfl hslne
          | cons q qs => rfl
        · intro hne
          show sA.ffTail = _
          exact a8 hne
        · intro _
          show some h1 = _
          rw [List.getLast?_concat]
        · intro x hx
          have hxm := List.mem_of_mem_getLast? hx
          have hx1 : x ≠ st := fun he => hdisjA hxm (he ▸ hstm)
          have hx2 : x ≠ h1 := by
            intro he
            rw [he] at hxm
            exact (List.nodup_cons.mp hndfl).1 hxm
          rw [hMlk x hx1 hx2]
          exact a10 x hx
        · intro x hx
          rw [List.getLast?_concat] at hx
          cases hx
          rw [hM0, hC_self]
      obtain ⟨s', sl2, heq, hoft, ho3, hoshape, hofE, hosE, hoflag, hofree, hodr, hopf, hone,
          hprov⟩ :=
        sfoDemoteTail_wf c sM (h2 :: tl2) slK h1
          (by show sC.ft.length = c.nframes
              rw [hsC, ft_length_updF, hsB, ft_length_updF, cln]
              exact hft)
          (by intro p hp
              have hgp : getP sM p = getP sK p := by
                show getP sA p = getP sK p
                unfold getP
                rw [cpt]
              rw [hgp]
              exact h3 p hp)
          hshapeM
          (by show sA.fEntries = _
              rw [cfe, hfE]
              simp)
          (by show sA.sEntries = _
              rw [cse, hsE])
          (by intro f hf hfl2
              rw [hflistM] at hfl2
              exact List.mem_append_left _ (hflag f hf hfl2))
          hsecond
      refine ⟨s', h2 :: tl2, sl2, ?_, hoft, ho3, hoshape, hofE, hosE, hoflag, ?_, ?_, ?_,
        Or.inr rfl, (by simp), ?_⟩
      · show sfoDemoteTail c sM = .ok s'
        exact heq
      · intro x hx
        rw [hofree x hx, hfreeM]
      · rw [hodr]
        show sA.stats.disk_reads = _
        rw [cst]
      · rw [hopf]
        show sA.stats.page_faults = _
        rw [cst]
      · intro x hx
        have := hprov x hx
        rw [List.mem_append] at this
        cases this with
        | inl h => exact Or.inr h
        | inr h =>
          simp at h
          rw [h]
          exact Or.inl (by simp)

end VMSim

namespace VMSim

theorem sfoInsert_wf (c : Config) (s : SimState) (fl sl : List Nat) (n : Nat)
    (hft : s.ft.length = c.nframes)
    (h3 : ∀ p, p < c.npages → (getP s p).frame < c.nframes)
    (hs : Shape c s fl sl)
    (hfE : s.fEntries = (fl.length : Int))
    (hsE : s.sEntries = (sl.length : Int))
    (hflag : ∀ f, f < c.nframes → f ≠ n → (getF s f).f_list = 2 → f ∈ sl)
    (hn : n < c.nframes) (hnf : n ∉ fl) (hns : n ∉ sl)
    (hfirst : 1 ≤ firstL c.nframes) (hsecond : 1 ≤ secondL c.nframes) :
    ∃ s' fl2 sl2, sfoInsert c s n = .ok s' ∧
      s'.ft.length = c.nframes ∧
      (∀ p, p < c.npages → (getP s' p).frame < c.nframes) ∧
      Shape c s' fl2 sl2 ∧
      s'.fEntries = (fl2.length : Int) ∧
      s'.sEntries = (sl2.length : Int) ∧
      (∀ f, f < c.nframes → (getF s' f).f_list = 2 → f ∈ sl2) ∧
      (∀ x, x ∈ fl2 ++ sl2 → x ≠ n → (getF s' x).free = (getF s x).free) ∧
      (getF s' n).free = (getF s n).free ∧
      s'.stats.disk_reads = s.stats.disk_reads ∧
      s'.stats.page_faults = s.stats.page_faults ∧
      n ∈ fl2 ∧ fl2 ≠ [] ∧
      (∀ x, x ∈ fl2 → x = n ∨ x ∈ fl) ∧
      (∀ x, x ∈ sl2 → x = n ∨ x ∈ fl ∨ x ∈ sl) := by
  obtain ⟨sI, heqA, hcoreI, hshapeI⟩ := sfoAppend_wf c s fl sl n hft hn hnf hns hs
  obtain ⟨ipt, ist, ife, ise, iln, icore⟩ := hcoreI
  unfold sfoInsert
  rw [heqA]
  dsimp only [Res.bind]
  have hnltI : n < sI.ft.length := by rw [iln, hft]; exact hn
  set sJ := updF sI n (fun v => { v with f_list := 1 }) with hsJ
  set sK := { sJ with fEntries := sJ.fEntries + 1 } with hsK
  have hJ_ne : ∀ x, x ≠ n → getF sJ x = getF sI x := by
    intro x hx
    rw [hsJ, getF_updF_ne _ _ _ _ (fun he => hx he.symm)]
  have hJ_self : getF sJ n = { getF sI n with f_list := 1 } := by
    rw [hsJ, getF_updF_self _ _ _ hnltI]
  have hK0 : ∀ x, getF sK x = getF sJ x := fun _ => rfl
  have hfreeK : ∀ x, (getF sK x).free = (getF s x).free := by
    intro x
    rw [hK0]
    have hbase : (getF sI x).free = (getF s x).free := (icore x).2.2.1
    by_cases hx : x = n
    · rw [hx, hJ_self]
      show (getF sI n).free = _
      rw [hx] at hbase
      exact hbase
    · rw [hJ_ne x hx]
      exact hbase
  have hflistK : ∀ x, x ≠ n → (getF sK x).f_list = (getF s x).f_list := by
    intro x hx
    rw [hK0, hJ_ne x hx]
    exact (icore x).2.2.2
  have hshapeK : Shape c sK (fl ++ [n]) sl := by
    refine shape_congr c sI sK (fl ++ [n]) sl ?_ ?_ rfl rfl rfl rfl hshapeI
    · intro x _
      rw [hK0]
      by_cases hx : x = n
      · rw [hx, hJ_self]
      · rw [hJ_ne x hx]
    · intro x _
      constructor
      · rw [hK0]
        by_cases hx : x = n
        · rw [hx, hJ_self]
        · rw [hJ_ne x hx]
      · rw [hK0]
        by_cases hx : x = n
        · rw [hx, hJ_self]
        · rw [hJ_ne x hx]
  obtain ⟨s', fl2, sl2, heqC, hoft, ho3, hoshape, hofE, hosE, hoflag, hofree, hodr, hopf,
      hcase, hone, hsl2prov⟩ :=
    sfoCascade_wf c sK (fl ++ [n]) sl
      (by show sJ.ft.length = _
          rw [hsJ, ft_length_updF, iln]
          exact hft)
      (by intro p hp
          have hgp : getP sK p = getP s p := by
            show getP sI p = getP s p
            unfold getP
            rw [ipt]
          rw [hgp]
          exact h3 p hp)
      hshapeK
      (by show sJ.fEntries + 1 = _
          show sI.fEntries + 1 = _
          rw [ife, hfE]
          simp)
      (by show sI.sEntries = _
          rw [ise, hsE])
      (by intro f hf hfl2
          by_cases hfn : f = n
          · rw [hfn, hK0, hJ_self] at hfl2
            cases hfl2
          · rw [hflistK f hfn] at hfl2
            exact hflag f hf hfn hfl2)
      (by simp)
      hfirst hsecond
  have hnfl2 : n ∈ fl2 := by
    cases hcase with
    | inl h => rw [h]; simp
    | inr h =>
      rw [h]
      cases fl with
      | nil =>
        exfalso
        rw [h] at hone
        simp at hone
      | cons a t => simp
  refine ⟨s', fl2, sl2, heqC, hoft, ho3, hoshape, hofE, hosE, hoflag, ?_, ?_, ?_, ?_,
    hnfl2, hone, ?_, ?_⟩
  · intro x hx hxn
    rw [hofree x hx, hfreeK]
  · have hnmem : n ∈ fl2 ++ sl2 := List.mem_append_left _ hnfl2
    rw [hofree n hnmem, hfreeK]
  · rw [hodr]
    show sI.stats.disk_reads = _
    rw [ist]
  · rw [hopf]
    show sI.stats.page_faults = _
    rw [ist]
  · intro x hx
    have hx2 : x ∈ fl ++ [n] := by
      cases hcase with
      | inl h => rw [h] at hx; exact hx
      | inr h =>
        rw [h] at hx
        exact List.mem_of_mem_tail hx
    rw [List.mem_append] at hx2
    cases hx2 with
    | inl h => exact Or.inr h
    | inr h => simp at h; exact Or.inl h
  · intro x hx
    have := hsl2prov x hx
    cases this with
    | inr h => exact Or.inr (Or.inr h)
    | inl h =>
      rw [List.mem_append] at h
      cases h with
      | inl h2 => exact Or.inr (Or.inl h2)
      | inr h2 => simp at h2; exact Or.inl h2

end VMSim

namespace VMSim

theorem firstL_pos (n : Nat) (h : 2 ≤ n) : 1 ≤ firstL n := by
  unfold firstL
  split
  · omega
  · have h5 : 5 ≤ n := by omega
    have : 3 ≤ n * 3 / 4 := by
      calc 3 = 5 * 3 / 4 := by decide
        _ ≤ n * 3 / 4 := by
          apply Nat.div_le_div_right
          omega
    omega

theorem secondL_pos (n : Nat) (h : 2 ≤ n) : 1 ≤ secondL n := by
  unfold secondL
  split
  · omega
  · have h5 : 5 ≤ n := by omega
    calc 1 = 5 * 1 / 4 := by decide
      _ ≤ n * 1 / 4 := by
        apply Nat.div_le_div_right
        omega

theorem findFreeFrame_cases (c : Config) (s : SimState) :
    findFreeFrame c s = -1 ∨
    (0 ≤ findFreeFrame c s ∧ (findFreeFrame c s).toNat < c.nframes ∧
      (getF s ((findFreeFrame c s).toNat)).free = 0) := by
  by_cases h : findFreeFrame c s < 0
  · left
    unfold findFreeFrame at h ⊢
    cases hfind : (List.range c.nframes).find? (fun i => (getF s i).free == 0) with
    | none => rfl
    | some i =>
      rw [hfind] at h
      dsimp only at h
      omega
  · right
    obtain ⟨h1, h2⟩ := findFreeFrame_nonneg c s h
    exact ⟨by omega, h1, h2⟩

theorem tail2fifo_wf (c : Config) (t : SimState) (fl2 sl2 : List Nat) (page n bits : Nat)
    (hft : t.ft.length = c.nframes)
    (h3 : ∀ p, p < c.npages → (getP t p).frame < c.nframes)
    (hs : Shape c t fl2 sl2)
    (hfE : t.fEntries = (fl2.length : Int))
    (hsE : t.sEntries = (sl2.length : Int))
    (hflag : ∀ f, f < c.nframes → (getF t f).f_list = 2 → f ∈ sl2)
    (hfree : ∀ x, x ∈ fl2 ++ sl2 → x ≠ n → (getF t x).free = 1)
    (hn : n < c.nframes) (hne : sl2 ≠ [] → fl2 ≠ []) :
    WF2 c (tail2fifo t page n bits) fl2 sl2 := by
  have hnlt : n < t.ft.length := by rw [hft]; exact hn
  unfold tail2fifo
  set s1 := if (getF t n).f_list ≠ 2 then
      updF (setEntry t page n bits) n (fun v => { v with page := page, bits := bits })
    else t with hs1
  have hlen1 : s1.ft.length = t.ft.length := by
    rw [hs1]
    split
    · rw [ft_length_updF]
      rfl
    · rfl
  have hGP1 : ∀ q, (getP s1 q).frame = n ∨ (getP s1 q).frame = (getP t q).frame := by
    intro q
    rw [hs1]
    split
    · show (getP (setEntry t page n bits) q).frame = n ∨
        (getP (setEntry t page n bits) q).frame = (getP t q).frame
      rw [getP_setEntry]
      split
      · exact Or.inl rfl
      · exact Or.inr rfl
    · exact Or.inr rfl
  have hGF1 : ∀ x, (getF s1 x).next = (getF t x).next ∧ (getF s1 x).prev = (getF t x).prev ∧
      (getF s1 x).free = (getF t x).free ∧ (getF s1 x).f_list = (getF t x).f_list := by
    intro x
    rw [hs1]
    split
    · by_cases hx : x = n
      · rw [hx]
        have hl : n < (setEntry t page n bits).ft.length := hnlt
        rw [getF_updF_self _ _ _ hl]
        exact ⟨rfl, rfl, rfl, rfl⟩
      · rw [getF_updF_ne _ _ _ _ (fun he => hx he.symm)]
        exact ⟨rfl, rfl, rfl, rfl⟩
    · exact ⟨rfl, rfl, rfl, rfl⟩
  have hregs : s1.ffHead = t.ffHead ∧ s1.sfHead = t.sfHead ∧ s1.ffTail = t.ffTail ∧
      s1.sfTail = t.sfTail ∧ s1.fEntries = t.fEntries ∧ s1.sEntries = t.sEntries := by
    rw [hs1]
    split
    · exact ⟨rfl, rfl, rfl, rfl, rfl, rfl⟩
    · exact ⟨rfl, rfl, rfl, rfl, rfl, rfl⟩
  have hnlt1 : n < s1.ft.length := by rw [hlen1]; exact hnlt
  set s2 := updF s1 n (fun v => { v with free := 1 }) with hs2
  have h2_ne : ∀ x, x ≠ n → getF s2 x = getF s1 x := by
    intro x hx
    rw [hs2, getF_updF_ne _ _ _ _ (fun he => hx he.symm)]
  have h2_self : getF s2 n = { getF s1 n with free := 1 } := by
    rw [hs2, getF_updF_self _ _ _ hnlt1]
  have hlk2 : ∀ x, (getF s2 x).next = (getF t x).next ∧ (getF s2 x).prev = (getF t x).prev ∧
      (getF s2 x).f_list = (getF t x).f_list := by
    intro x
    by_cases hx : x = n
    · rw [hx, h2_self]
      exact ⟨(hGF1 n).1, (hGF1 n).2.1, (hGF1 n).2.2.2⟩
    · rw [h2_ne x hx]
      exact ⟨(hGF1 x).1, (hGF1 x).2.1, (hGF1 x).2.2.2⟩
  refine ⟨?_, ?_, ?_, ?_, ?_, ?_, ?_, ?_, hne⟩
  · rw [hs2, ft_length_updF, hlen1, hft]
  · intro p hp
    have hgp2 : getP s2 p = getP s1 p := rfl
    rw [hgp2]
    cases hGP1 p with
    | inl h => rw [h]; exact hn
    | inr h => rw [h]; exact h3 p hp
  · refine shape_congr c t s2 fl2 sl2 ?_ ?_ ?_ ?_ ?_ ?_ hs
    · intro x _
      exact (hlk2 x).1
    · intro x _
      exact ⟨(hlk2 x).1, (hlk2 x).2.1⟩
    · show s1.ffHead = _
      exact hregs.1
    · show s1.sfHead = _
      exact hregs.2.1
    · show s1.ffTail = _
      exact hregs.2.2.1
    · show s1.sfTail = _
      exact hregs.2.2.2.1
  · show s1.fEntries = _
    rw [hregs.2.2.2.2.1, hfE]
  · show s1.sEntries = _
    rw [hregs.2.2.2.2.2, hsE]
  · intro f hf hf2
    rw [(hlk2 f).2.2] at hf2
    exact hflag f hf hf2
  · intro x hx
    by_cases hxn : x = n
    · rw [hxn, h2_self]
    · rw [h2_ne x hxn]
      rw [(hGF1 x).2.2.1]
      exact hfree x (List.mem_append_left _ hx) hxn
  · intro x hx
    by_cases hxn : x = n
    · rw [hxn, h2_self]
    · rw [h2_ne x hxn]
      rw [(hGF1 x).2.2.1]
      exact hfree x (List.mem_append_right _ hx) hxn

end VMSim

namespace VMSim

theorem insert_tail_wf (c : Config) (sIn : SimState) (flE slE : List Nat) (n page : Nat)
    (hft : sIn.ft.length = c.nframes)
    (h3 : ∀ p, p < c.npages → (getP sIn p).frame < c.nframes)
    (hs : Shape c sIn flE slE)
    (hfE : sIn.fEntries = (flE.length : Int))
    (hsE : sIn.sEntries = (slE.length : Int))
    (hflagx : ∀ f, f < c.nframes → f ≠ n → (getF sIn f).f_list = 2 → f ∈ slE)
    (hn : n < c.nframes) (hnf : n ∉ flE) (hns : n ∉ slE)
    (hfree1 : ∀ x, (x ∈ flE ∨ x ∈ slE) → x ≠ n → (getF sIn x).free = 1)
    (hfirst : 1 ≤ firstL c.nframes) (hsecond : 1 ≤ secondL c.nframes) :
    ∃ s3 fl2 sl2, sfoInsert c sIn n = .ok s3 ∧
      (∀ bits, WF2 c (tail2fifo (updF s3 n (fun v => { v with f_list := 1 })) page n bits)
        fl2 sl2) ∧
      (∀ bits, WF2 c (tail2fifo (addRead (updF s3 n (fun v => { v with f_list := 1 })))
        page n bits) fl2 sl2) := by
  obtain ⟨s3, fl2, sl2, heqI, hoft, ho3, hoshape, hofE, hosE, hoflag, hofree, hofreen,
      hodr, hopf, hnfl2, hone, hflprov, hslprov⟩ :=
    sfoInsert_wf c sIn flE slE n hft h3 hs hfE hsE hflagx hn hnf hns hfirst hsecond
  have hnlt3 : n < s3.ft.length := by rw [hoft]; exact hn
  set t := updF s3 n (fun v => { v with f_list := 1 }) with hts
  have ht_ne : ∀ x, x ≠ n → getF t x = getF s3 x := by
    intro x hx
    rw [hts, getF_updF_ne _ _ _ _ (fun he => hx he.symm)]
  have ht_self : getF t n = { getF s3 n with f_list := 1 } := by
    rw [hts, getF_updF_self _ _ _ hnlt3]
  have hT1 : t.ft.length = c.nframes := by rw [hts, ft_length_updF, hoft]
  have hT2 : ∀ p, p < c.npages → (getP t p).frame < c.nframes := by
    intro p hp
    have : getP t p = getP s3 p := rfl
    rw [this]
    exact ho3 p hp
  have hT3 : Shape c t fl2 sl2 := by
    refine shape_congr c s3 t fl2 sl2 ?_ ?_ rfl rfl rfl rfl hoshape
    · intro x _
      by_cases hx : x = n
      · rw [hx, ht_self]
      · rw [ht_ne x hx]
    · intro x _
      constructor
      · by_cases hx : x = n
        · rw [hx, ht_self]
        · rw [ht_ne x hx]
      · by_cases hx : x = n
        · rw [hx, ht_self]
        · rw [ht_ne x hx]
  have hT4 : t.fEntries = (fl2.length : Int) := hofE
  have hT5 : t.sEntries = (sl2.length : Int) := hosE
  have hT6 : ∀ f, f < c.nframes → (getF t f).f_list = 2 → f ∈ sl2 := by
    intro f hf hf2
    by_cases hx : f = n
    · rw [hx, ht_self] at hf2
      cases hf2
    · rw [ht_ne f hx] at hf2
      exact hoflag f hf hf2
  have hT7 : ∀ x, x ∈ fl2 ++ sl2 → x ≠ n → (getF t x).free = 1 := by
    intro x hx hxn
    rw [ht_ne x hxn, hofree x hx hxn]
    rw [List.mem_append] at hx
    refine hfree1 x ?_ hxn
    cases hx with
    | inl h =>
      cases hflprov x h with
      | inl h2 => exact absurd h2 hxn
      | inr h2 => exact Or.inl h2
    | inr h =>
      cases hslprov x h with
      | inl h2 => exact absurd h2 hxn
      | inr h2 => exact h2
  refine ⟨s3, fl2, sl2, heqI, ?_, ?_⟩
  · intro bits
    exact tail2fifo_wf c t fl2 sl2 page n bits hT1 hT2 hT3 hT4 hT5 hT6 hT7 hn (fun _ => hone)
  · intro bits
    exact tail2fifo_wf c (addRead t) fl2 sl2 page n bits hT1 hT2 hT3 hT4 hT5 hT6 hT7 hn
      (fun _ => hone)

end VMSim

namespace VMSim

theorem handler2fifo_wf (c : Config) (s : SimState) (page : Nat) (fl sl : List Nat)
    (hw : WF2 c s fl sl) (hp : page < c.npages) (hn2 : 2 ≤ c.nframes) :
    handler2fifo c s page = .halted ∨
    ∃ s' fl' sl', handler2fifo c s page = .ok s' ∧ WF2 c s' fl' sl' := by
  obtain ⟨hft, h3, hs, hfE, hsE, hflag, hfreeF, hfreeS, hslfl⟩ := hw
  have hfirst := firstL_pos c.nframes hn2
  have hsecond := secondL_pos c.nframes hn2
  have hfr : (getP s page).frame < c.nframes := h3 page hp
  unfold handler2fifo
  dsimp only
  by_cases h0 : (getP s page).bits = PROT_NONE
  · rw [if_pos h0]
    by_cases hprom : page = (getF s (getP s page).frame).page ∧
        (getF s (getP s page).frame).f_list = 2
    · rw [if_pos hprom]
      set frame := (getP s page).frame with hfrs
      have hfsl : frame ∈ sl := hflag frame hfr hprom.2
      obtain ⟨l1, l2, hsleq⟩ := List.append_of_mem hfsl
      subst hsleq
      have hfl_ne : fl ≠ [] := hslfl (by simp)
      obtain ⟨s1, heqR, hcore1, hshape1⟩ := sfoRemove_sf_wf c s frame fl l1 l2 hft hfl_ne hs
      obtain ⟨cpt, cst, cfe, cse, cln, ccore⟩ := hcore1
      rw [heqR]
      dsimp only
      have hnodup := hs.2.2.1
      have hfnfl : frame ∉ fl := by
        intro hx
        exact (List.nodup_append.mp hnodup).2.2 hx (by simp)
      have hfnl12 : frame ∉ l1 ++ l2 := by
        have hnd : (l1 ++ frame :: l2).Nodup := (List.nodup_append.mp hnodup).2.1
        intro hx
        rw [List.mem_append] at hx
        cases hx with
        | inl h => exact (List.nodup_append.mp hnd).2.2 h (by simp)
        | inr h =>
          exact (List.nodup_cons.mp (List.nodup_append.mp hnd).2.1).1 h
      obtain ⟨s3, fl2, sl2, heqI, hWFall, hWFallR⟩ :=
        insert_tail_wf c { s1 with sEntries := s1.sEntries - 1 } fl (l1 ++ l2) frame page
          (by show s1.ft.length = _; rw [cln]; exact hft)
          (by intro p hp
              have : getP ({ s1 with sEntries := s1.sEntries - 1 } : SimState) p
                  = getP s p := by
                show getP s1 p = getP s p
                unfold getP
                rw [cpt]
              rw [this]
              exact h3 p hp)
          (by exact hshape1)
          (by show s1.fEntries = _; rw [cfe]; exact hfE)
          (by show s1.sEntries - 1 = _
              rw [cse, hsE]
              push_cast
              simp [List.length_append]
              ring)
          (by intro f hf hfn hf2
              have : (getF s1 f).f_list = (getF s f).f_list := (ccore f).2.2.2
              rw [(show getF ({ s1 with sEntries := s1.sEntries - 1 } : SimState) f
                  = getF s1 f from rfl), this] at hf2
              have hmem := hflag f hf hf2
              rw [List.mem_append] at hmem ⊢
              cases hmem with
              | inl h => exact Or.inl h
              | inr h =>
                rw [List.mem_cons] at h
                cases h with
                | inl h => exact absurd h hfn
                | inr h => exact Or.inr h)
          hfr hfnfl hfnl12
          (by intro x hx hxn
              have hcf : (getF s1 x).free = (getF s x).free := (ccore x).2.2.1
              rw [(show getF ({ s1 with sEntries := s1.sEntries - 1 } : SimState) x
                  = getF s1 x from rfl), hcf]
              cases hx with
              | inl h => exact hfreeF x h
              | inr h =>
                refine hfreeS x ?_
                rw [List.mem_append] at h ⊢
                cases h with
                | inl h2 => exact Or.inl h2
                | inr h2 => exact Or.inr (List.mem_cons_of_mem _ h2))
          hfirst hsecond
      rw [heqI]
      dsimp only
      exact Or.inr ⟨_, fl2, sl2, rfl, hWFall _⟩
    · rw [if_neg hprom]
      by_cases hfat : page = (getF s (getP s page).frame).page ∧
          (getF s (getP s page).frame).f_list = 1
      · rw [if_pos hfat]
        exact Or.inl rfl
      · rw [if_neg hfat]
        rcases findFreeFrame_cases c s with hffr | ⟨hge, hlt2, hfree0⟩
        · rw [if_pos hffr]
          by_cases hsfh : s.sfHead = none
          · rw [if_pos hsfh]
            have hslnil : sl = [] := by
              have g7 := hs.2.2.2.2.2.2.1
              rw [g7] at hsfh
              cases sl with
              | nil => rfl
              | cons q qs => cases hsfh
            subst hslnil
            cases hfl : fl with
            | nil =>
              have hffh : s.ffHead = none := by
                rw [hs.2.2.2.2.2.1, hfl]
                rfl
              rw [hffh]
              exact Or.inl rfl
            | cons fh tl =>
              have hffh : s.ffHead = some fh := by
                rw [hs.2.2.2.2.2.1, hfl]
                rfl
              rw [hffh]
              subst hfl
              dsimp only
              obtain ⟨s1, heqR, hcore1, hshape1⟩ := sfoRemove_ffHead_wf c s fh tl [] hft hs
              obtain ⟨cpt, cst, cfe, cse, cln, ccore⟩ := hcore1
              rw [heqR]
              dsimp only [Res.bind]
              have hfhn : fh < c.nframes := hs.1 fh (by simp)
              have hfhnt : fh ∉ tl :=
                (List.nodup_cons.mp (List.Nodup.of_append_left hs.2.2.1)).1
              set s2 : SimState := { s1 with fEntries := s1.fEntries - 1 } with hs2
              set sE := evict s2 fh with hsEv
              set sIn := updF sE fh (fun v => { v with page := page }) with hsIn
              have hlenE : sE.ft.length = c.nframes := by
                rw [hsEv, (evict_lengths s2 fh).1]
                show s1.ft.length = _
                rw [cln]
                exact hft
              have hfhltE : fh < sE.ft.length := by rw [hlenE]; exact hfhn
              have hGFE : ∀ x, getF sE x
                  = if fh = x then { getF s1 x with bits := PROT_NONE } else getF s1 x := by
                intro x
                rw [hsEv, evict_getF]
                have hl : s2.ft.length = s.ft.length := by
                  show s1.ft.length = _
                  rw [cln]
                by_cases hc : fh = x
                · rw [if_pos ⟨hc, by rw [hl, hft]; exact hfhn⟩, if_pos hc]
                  rfl
                · rw [if_neg (fun h2 => hc h2.1), if_neg hc]
                  rfl
              have hI_ne : ∀ x, x ≠ fh → getF sIn x = getF s1 x := by
                intro x hx
                rw [hsIn, getF_updF_ne _ _ _ _ (fun he => hx he.symm), hGFE,
                  if_neg (fun he => hx he.symm)]
              obtain ⟨s3, fl2, sl2, heqI, hWFall, hWFallR⟩ :=
                insert_tail_wf c sIn tl [] fh page
                  (by rw [hsIn, ft_length_updF]; exact hlenE)
                  (by intro p hp
                      have hstep : getP sIn p = getP (evict s2 fh) p := rfl
                      rw [hstep, evict_getP]
                      by_cases hc : (getF s2 fh).page = p ∧ (getF s2 fh).page < s2.pt.length
                      · rw [if_pos hc]
                        exact hfhn
                      · rw [if_neg hc]
                        have hgp : getP s2 p = getP s p := by
                          show getP s1 p = getP s p
                          unfold getP
                          rw [cpt]
                        rw [hgp]
                        exact h3 p hp)
                  (by refine shape_congr c s1 sIn tl [] ?_ ?_ ?_ ?_ ?_ ?_ hshape1
                      · intro x hx
                        rw [hI_ne x (fun he => hfhnt (he ▸ hx))]
                      · intro x hx
                        cases hx
                      · show sE.ffHead = s1.ffHead
                        rw [hsEv]
                        exact (evict_heads s2 fh).1
                      · show sE.sfHead = s1.sfHead
                        rw [hsEv]
                        exact (evict_heads s2 fh).2.2.1
                      · show sE.ffTail = s1.ffTail
                        rw [hsEv]
                        exact (evict_heads s2 fh).2.1
                      · show sE.sfTail = s1.sfTail
                        rw [hsEv]
                        exact (evict_heads s2 fh).2.2.2.1)
                  (by show sE.fEntries = _
                      rw [hsEv, (evict_heads s2 fh).2.2.2.2.1]
                      show s1.fEntries - 1 = _
                      rw [cfe, hfE, List.length_cons]
                      push_cast
                      ring)
                  (by show sE.sEntries = _
                      rw [hsEv, (evict_heads s2 fh).2.2.2.2.2.1]
                      show s1.sEntries = _
                      rw [cse]
                      exact hsE)
                  (by intro f hf hfn h2
                      rw [hI_ne f hfn] at h2
                      have hcf : (getF s1 f).f_list = (getF s f).f_list := (ccore f).2.2.2
                      rw [hcf] at h2
                      exact hflag f hf h2)
                  hfhn hfhnt (by simp)
                  (by intro x hx hxn
                      rw [hI_ne x hxn]
                      have hcf : (getF s1 x).free = (getF s x).free := (ccore x).2.2.1
                      rw [hcf]
                      cases hx with
                      | inl h => exact hfreeF x (List.mem_cons_of_mem _ h)
                      | inr h => cases h)
                  hfirst hsecond
              rw [heqI]
              exact Or.inr ⟨_, fl2, sl2, rfl, hWFallR _⟩
          · rw [if_neg hsfh]
            cases hsl : sl with
            | nil =>
              refine absurd ?_ hsfh
              rw [hs.2.2.2.2.2.2.1, hsl]
              rfl
            | cons sh slt =>
              have hsh : s.sfHead = some sh := by
                rw [hs.2.2.2.2.2.2.1, hsl]
                rfl
              rw [hsh]
              dsimp only
              subst hsl
              have hfl_ne : fl ≠ [] := hslfl (by simp)
              have hsx : Shape c s fl ([] ++ sh :: slt) := hs
              obtain ⟨s1, heqR, hcore1, hshape1⟩ :=
                sfoRemove_sf_wf c s sh fl [] slt hft hfl_ne hsx
              obtain ⟨cpt, cst, cfe, cse, cln, ccore⟩ := hcore1
              have hshape1b : Shape c s1 fl slt := hshape1
              rw [heqR]
              dsimp only [Res.bind]
              have hshn : sh < c.nframes := hs.2.1 sh (by simp)
              have hnodup := hs.2.2.1
              have hshnfl : sh ∉ fl := by
                intro hx
                exact (List.nodup_append.mp hnodup).2.2 hx (by simp)
              have hshnslt : sh ∉ slt :=
                (List.nodup_cons.mp (List.nodup_append.mp hnodup).2.1).1
              set s2 : SimState := { s1 with sEntries := s1.sEntries - 1 } with hs2
              set sE := evict s2 sh with hsEv
              set sIn := updF sE sh (fun v => { v with page := page }) with hsIn
              have hlenE : sE.ft.length = c.nframes := by
                rw [hsEv, (evict_lengths s2 sh).1]
                show s1.ft.length = _
                rw [cln]
                exact hft
              have hshltE : sh < sE.ft.length := by rw [hlenE]; exact hshn
              have hGFE : ∀ x, getF sE x
                  = if sh = x then { getF s1 x with bits := PROT_NONE } else getF s1 x := by
                intro x
                rw [hsEv, evict_getF]
                have hl : s2.ft.length = s.ft.length := by
                  show s1.ft.length = _
                  rw [cln]
                by_cases hc : sh = x
                · rw [if_pos ⟨hc, by rw [hl, hft]; exact hshn⟩, if_pos hc]
                  rfl
                · rw [if_neg (fun h2 => hc h2.1), if_neg hc]
                  rfl
              have hI_ne : ∀ x, x ≠ sh → getF sIn x = getF s1 x := by
                intro x hx
                rw [hsIn, getF_updF_ne _ _ _ _ (fun he => hx he.symm), hGFE,
                  if_neg (fun he => hx he.symm)]
              obtain ⟨s3, fl2, sl2, heqI, hWFall, hWFallR⟩ :=
                insert_tail_wf c sIn fl slt sh page
                  (by rw [hsIn, ft_length_updF]; exact hlenE)
                  (by intro p hp
                      have hstep : getP sIn p = getP (evict s2 sh) p := rfl
                      rw [hstep, evict_getP]
                      by_cases hc : (getF s2 sh).page = p ∧ (getF s2 sh).page < s2.pt.length
                      · rw [if_pos hc]
                        exact hshn
                      · rw [if_neg hc]
                        have hgp : getP s2 p = getP s p := by
                          show getP s1 p = getP s p
                          unfold getP
                          rw [cpt]
                        rw [hgp]
                        exact h3 p hp)
                  (by refine shape_congr c s1 sIn fl slt ?_ ?_ ?_ ?_ ?_ ?_ hshape1b
                      · intro x hx
                        rw [hI_ne x (fun he => hshnfl (he ▸ hx))]
                      · intro x hx
                        rw [hI_ne x (fun he => hshnslt (he ▸ hx))]
                        exact ⟨rfl, rfl⟩
                      · show sE.ffHead = s1.ffHead
                        rw [hsEv]
                        exact (evict_heads s2 sh).1
                      · show sE.sfHead = s1.sfHead
                        rw [hsEv]
                        exact (evict_heads s2 sh).2.2.1
                      · show sE.ffTail = s1.ffTail
                        rw [hsEv]
                        exact (evict_heads s2 sh).2.1
                      · show sE.sfTail = s1.sfTail
                        rw [hsEv]
                        exact (evict_heads s2 sh).2.2.2.1)
                  (by show sE.fEntries = _
                      rw [hsEv, (evict_heads s2 sh).2.2.2.2.1]
                      show s1.fEntries = _
                      rw [cfe]
                      exact hfE)
                  (by show sE.sEntries = _
                      rw [hsEv, (evict_heads s2 sh).2.2.2.2.2.1]
                      show s1.sEntries - 1 = _
                      rw [cse, hsE, List.length_cons]
                      push_cast
                      ring)
                  (by intro f hf hfn h2
                      rw [hI_ne f hfn] at h2
                      have hcf : (getF s1 f).f_list = (getF s f).f_list := (ccore f).2.2.2
                      rw [hcf] at h2
                      have hmem := hflag f hf h2
                      rw [List.mem_cons] at hmem
                      cases hmem with
                      | inl h => exact absurd h hfn
                      | inr h => exact h)
                  hshn hshnfl hshnslt
                  (by intro x hx hxn
                      rw [hI_ne x hxn]
                      have hcf : (getF s1 x).free = (getF s x).free := (ccore x).2.2.1
                      rw [hcf]
                      cases hx with
                      | inl h => exact hfreeF x h
                      | inr h => exact hfreeS x (List.mem_cons_of_mem _ h))
                  hfirst hsecond
              rw [heqI]
              exact Or.inr ⟨_, fl2, sl2, rfl, hWFallR _⟩
        · have hne1 : ¬ findFreeFrame c s = -1 := by omega
          rw [if_neg hne1]
          set fi := (findFreeFrame c s).toNat with hfis
          have hfin : fi < c.nframes := hlt2
          have hfinf : fi ∉ fl := by
            intro hx
            rw [hfreeF fi hx] at hfree0
            cases hfree0
          have hfins : fi ∉ sl := by
            intro hx
            rw [hfreeS fi hx] at hfree0
            cases hfree0
          have hfilt : fi < s.ft.length := by rw [hft]; exact hfin
          set sIn := updF s fi (fun v => { v with page := page }) with hsIn
          have hI_ne : ∀ x, x ≠ fi → getF sIn x = getF s x := by
            intro x hx
            rw [hsIn, getF_updF_ne _ _ _ _ (fun he => hx he.symm)]
          have hI_self : getF sIn fi = { getF s fi with page := page } := by
            rw [hsIn, getF_updF_self _ _ _ hfilt]
          obtain ⟨s3, fl2, sl2, heqI, hWFall, hWFallR⟩ :=
            insert_tail_wf c sIn fl sl fi page
              (by rw [hsIn, ft_length_updF]; exact hft)
              (by intro p hp
                  have : getP sIn p = getP s p := rfl
                  rw [this]
                  exact h3 p hp)
              (by refine shape_congr c s sIn fl sl ?_ ?_ rfl rfl rfl rfl hs
                  · intro x _
                    by_cases hx : x = fi
                    · rw [hx, hI_self]
                    · rw [hI_ne x hx]
                  · intro x _
                    constructor
                    · by_cases hx : x = fi
                      · rw [hx, hI_self]
                      · rw [hI_ne x hx]
                    · by_cases hx : x = fi
                      · rw [hx, hI_self]
                      · rw [hI_ne x hx])
              (by show s.fEntries = _; exact hfE)
              (by show s.sEntries = _; exact hsE)
              (by intro f hf hfn hf2
                  rw [hI_ne f hfn] at hf2
                  exact hflag f hf hf2)
              hfin hfinf hfins
              (by intro x hx hxn
                  rw [hI_ne x hxn]
                  cases hx with
                  | inl h => exact hfreeF x h
                  | inr h => exact hfreeS x h)
              hfirst hsecond
          dsimp only [Res.bind]
          rw [← hsIn, heqI]
          exact Or.inr ⟨_, fl2, sl2, rfl, hWFallR _⟩
  · rw [if_neg h0]
    by_cases h1 : ((getP s page).bits &&& PROT_READ) ≠ 0 ∧
        ((getP s page).bits &&& PROT_WRITE) = 0
    · rw [if_pos h1]
      refine Or.inr ⟨_, fl, sl, rfl, ?_⟩
      refine tail2fifo_wf c s fl sl page ((getP s page).frame) _ hft h3 hs hfE hsE hflag
        ?_ hfr hslfl
      intro x hx hxn
      rw [List.mem_append] at hx
      cases hx with
      | inl h => exact hfreeF x h
      | inr h => exact hfreeS x h
    · rw [if_neg h1]
      exact Or.inr ⟨s, fl, sl, rfl, hft, h3, hs, hfE, hsE, hflag, hfreeF, hfreeS, hslfl⟩

end VMSim

namespace VMSim

theorem initState_wf2 (c : Config) (hn : 0 < c.nframes) : WF2 c (initState c) [] [] := by
  refine ⟨by simp [initState], ?_, ?_, by simp [initState], by simp [initState], ?_,
    ?_, ?_, ?_⟩
  · intro p hp
    rw [getP_initState]
    exact hn
  · refine ⟨?_, ?_, List.nodup_nil, List.chain'_nil, List.chain'_nil, rfl, rfl,
      ?_, ?_, ?_, ?_⟩
    · intro x hx
      cases hx
    · intro x hx
      cases hx
    · intro h
      exact absurd rfl h
    · intro h
      exact absurd rfl h
    · intro x hx
      cases hx
    · intro x hx
      cases hx
  · intro f hf h2
    rw [getF_initState] at h2
    exact absurd h2 (by decide)
  · intro x hx
    cases hx
  · intro x hx
    cases hx
  · intro h
    exact absurd rfl h

theorem wf2_stats (c : Config) (s : SimState) (st : Stats) (fl sl : List Nat)
    (hw : WF2 c s fl sl) : WF2 c { s with stats := st } fl sl := by
  obtain ⟨h1, h2, h3, h4, h5, h6, h7, h8, h9⟩ := hw
  exact ⟨h1, h2,
    shape_congr c s { s with stats := st } fl sl (fun x _ => rfl)
      (fun x _ => ⟨rfl, rfl⟩) rfl rfl rfl rfl h3,
    h4, h5, h6, h7, h8, h9⟩

theorem pageFaultHandler2_wf (c : Config) (s : SimState) (page : Nat) (fl sl : List Nat)
    (hw : WF2 c s fl sl) (hp : page < c.npages) (hn2 : 2 ≤ c.nframes) :
    pageFaultHandler c .twoFifo 0 s page = .halted ∨
    ∃ s' fl' sl', pageFaultHandler c .twoFifo 0 s page = .ok s' ∧ WF2 c s' fl' sl' := by
  unfold pageFaultHandler
  dsimp only
  exact handler2fifo_wf c
    { s with stats := { s.stats with page_faults := s.stats.page_faults + 1 } } page fl sl
    (wf2_stats c s _ fl sl hw) hp hn2

theorem runTwoFifo_go_nocrash (c : Config) (hn2 : 2 ≤ c.nframes) :
    ∀ (tr : List Nat) (a : Res SimState),
      a ≠ .crashed →
      (∀ s0, a = .ok s0 → ∃ fl sl, WF2 c s0 fl sl) →
      (∀ p ∈ tr, p < c.npages) →
      tr.foldl (fun r p => Res.bind r (fun s => pageFaultHandler c .twoFifo 0 s p)) a ≠
        .crashed
  | [], _, hnc, _, _ => hnc
  | p :: tl, a, hnc, ha, htr => by
    refine runTwoFifo_go_nocrash c hn2 tl
      (Res.bind a (fun s => pageFaultHandler c .twoFifo 0 s p)) ?_ ?_ ?_
    · cases a with
      | crashed => exact absurd rfl hnc
      | halted => exact fun h => Res.noConfusion h
      | ok s0 =>
        obtain ⟨fl, sl, hw⟩ := ha s0 rfl
        show pageFaultHandler c .twoFifo 0 s0 p ≠ .crashed
        rcases pageFaultHandler2_wf c s0 p fl sl hw (htr p (List.mem_cons_self p tl)) hn2
          with h | ⟨s', fl', sl', h, _⟩
        · rw [h]
          exact fun hc => Res.noConfusion hc
        · rw [h]
          exact fun hc => Res.noConfusion hc
    · intro s0 hb
      obtain ⟨sm, hm, hstep⟩ := Res.bind_eq_ok _ _ _ hb
      obtain ⟨fl, sl, hw⟩ := ha sm hm
      rcases pageFaultHandler2_wf c sm p fl sl hw (htr p (List.mem_cons_self p tl)) hn2
        with h | ⟨s', fl', sl', h, hw'⟩
      · rw [h] at hstep
        cases hstep
      · rw [h] at hstep
        cases hstep
        exact ⟨fl', sl', hw'⟩
    · intro q hq
      exact htr q (List.mem_cons_of_mem p hq)

theorem runTwoFifo_nocrash (c : Config) (tr : List Nat) (hn2 : 2 ≤ c.nframes)
    (htr : ∀ p ∈ tr, p < c.npages) : runTwoFifo c tr ≠ .crashed := by
  unfold runTwoFifo
  refine runTwoFifo_go_nocrash c hn2 tr (.ok (initState c)) ?_ ?_ htr
  · exact fun h => Res.noConfusion h
  · intro s0 hb
    cases hb
    exact ⟨[], [], initState_wf2 c (by omega)⟩

end VMSim

namespace VMSim

/-- C10: with at least two frames, a 2FIFO run over in-range pages never
reaches undefined behaviour — in particular the first-chance overflow
branch of `sfoInsert` never follows a null first-chance head (the
embedding yields `.crashed` exactly at the C code's null dereferences);
with a single frame `FIRST_L` is `0` and the very first first-touch fault
crashes in that branch. -/
theorem c10_overflow_null_deref (c : Config) (tr : List Nat)
    (hn2 : 2 ≤ c.nframes) (htr : ∀ p ∈ tr, p < c.npages) :
    runTwoFifo c tr ≠ .crashed ∧ firstL 1 = 0 ∧
      runTwoFifo ⟨2, 1⟩ [0] = .crashed :=
  ⟨runTwoFifo_nocrash c tr hn2 htr, by decide, by decide⟩

theorem c10_witness :
    (2 : Nat) ≤ 2 ∧ (runTwoFifo ⟨3, 2⟩ [0, 1, 2, 0, 1] ≠ .crashed ∧ firstL 1 = 0 ∧
      runTwoFifo ⟨2, 1⟩ [0] = .crashed) :=
  ⟨by decide, c10_overflow_null_deref ⟨3, 2⟩ [0, 1, 2, 0, 1] (by decide) (by decide)⟩

end VMSim

namespace VMSim

/-- C5: under the 2FIFO policy, a fault on a page with empty protection
whose frame still holds the page and is tracked in the second-chance list
is a promotion: the handler succeeds, the frame ends up in the
first-chance list and out of the second-chance list, the state stays
well-formed, and `disk_reads` is not incremented. -/
theorem c5_second_chance_promotion (c : Config) (s : SimState) (page : Nat)
    (fl sl : List Nat) (hw : WF2 c s fl sl) (hp : page < c.npages) (hn2 : 2 ≤ c.nframes)
    (h0 : (getP s page).bits = PROT_NONE)
    (hres : page = (getF s (getP s page).frame).page)
    (hsec : (getF s (getP s page).frame).f_list = 2) :
    ∃ s' fl' sl', handler2fifo c s page = .ok s' ∧ WF2 c s' fl' sl' ∧
      s'.stats.disk_reads = s.stats.disk_reads ∧
      (getP s page).frame ∈ fl' ∧ (getP s page).frame ∉ sl' := by
  obtain ⟨hft, h3, hs, hfE, hsE, hflag, hfreeF, hfreeS, hslfl⟩ := hw
  have hfirst := firstL_pos c.nframes hn2
  have hsecond := secondL_pos c.nframes hn2
  have hfr : (getP s page).frame < c.nframes := h3 page hp
  unfold handler2fifo
  dsimp only
  rw [if_pos h0, if_pos ⟨hres, hsec⟩]
  set frame := (getP s page).frame with hfrs
  have hfsl : frame ∈ sl := hflag frame hfr hsec
  obtain ⟨l1, l2, hsleq⟩ := List.append_of_mem hfsl
  subst hsleq
  have hfl_ne : fl ≠ [] := hslfl (by simp)
  obtain ⟨s1, heqR, hcore1, hshape1⟩ := sfoRemove_sf_wf c s frame fl l1 l2 hft hfl_ne hs
  obtain ⟨cpt, cst, cfe, cse, cln, ccore⟩ := hcore1
  rw [heqR]
  dsimp only
  have hnodup := hs.2.2.1
  have hfnfl : frame ∉ fl := by
    intro hx
    exact (List.nodup_append.mp hnodup).2.2 hx (by simp)
  have hfnl12 : frame ∉ l1 ++ l2 := by
    have hnd : (l1 ++ frame :: l2).Nodup := (List.nodup_append.mp hnodup).2.1
    intro hx
    rw [List.mem_append] at hx
    cases hx with
    | inl h => exact (List.nodup_append.mp hnd).2.2 h (by simp)
    | inr h =>
      exact (List.nodup_cons.mp (List.nodup_append.mp hnd).2.1).1 h
  set sIn : SimState := { s1 with sEntries := s1.sEntries - 1 } with hsIns
  obtain ⟨s3, fl2, sl2, heqI, hoft, ho3, hoshape, hofE, hosE, hoflag, hofree, hofreen,
      hodr, hopf, hnfl2, hone, hflprov, hslprov⟩ :=
    sfoInsert_wf c sIn fl (l1 ++ l2) frame
      (by show s1.ft.length = _; rw [cln]; exact hft)
      (by intro p hp2
          have hgp : getP sIn p = getP s p := by
            show getP s1 p = getP s p
            unfold getP
            rw [cpt]
          rw [hgp]
          exact h3 p hp2)
      (by exact hshape1)
      (by show s1.fEntries = _; rw [cfe]; exact hfE)
      (by show s1.sEntries - 1 = _
          rw [cse, hsE]
          push_cast
          simp [List.length_append]
          ring)
      (by intro f hf hfn hf2
          have hcf : (getF s1 f).f_list = (getF s f).f_list := (ccore f).2.2.2
          rw [(show getF sIn f = getF s1 f from rfl), hcf] at hf2
          have hmem := hflag f hf hf2
          rw [List.mem_append] at hmem ⊢
          cases hmem with
          | inl h => exact Or.inl h
          | inr h =>
            rw [List.mem_cons] at h
            cases h with
            | inl h => exact absurd h hfn
            | inr h => exact Or.inr h)
      hfr hfnfl hfnl12
      hfirst hsecond
  have hfree1 : ∀ x, (x ∈ fl ∨ x ∈ l1 ++ l2) → x ≠ frame → (getF sIn x).free = 1 := by
    intro x hx hxn
    have hcf : (getF s1 x).free = (getF s x).free := (ccore x).2.2.1
    rw [(show getF sIn x = getF s1 x from rfl), hcf]
    cases hx with
    | inl h => exact hfreeF x h
    | inr h =>
      refine hfreeS x ?_
      rw [List.mem_append] at h ⊢
      cases h with
      | inl h2 => exact Or.inl h2
      | inr h2 => exact Or.inr (List.mem_cons_of_mem _ h2)
  rw [heqI]
  dsimp only
  have hnlt3 : frame < s3.ft.length := by rw [hoft]; exact hfr
  set t := updF s3 frame (fun v => { v with f_list := 1 }) with hts
  have ht_ne : ∀ x, x ≠ frame → getF t x = getF s3 x := by
    intro x hx
    rw [hts, getF_updF_ne _ _ _ _ (fun he => hx he.symm)]
  have ht_self : getF t frame = { getF s3 frame with f_list := 1 } := by
    rw [hts, getF_updF_self _ _ _ hnlt3]
  have hT1 : t.ft.length = c.nframes := by rw [hts, ft_length_updF, hoft]
  have hT2 : ∀ p, p < c.npages → (getP t p).frame < c.nframes := by
    intro p hp2
    have hstep : getP t p = getP s3 p := rfl
    rw [hstep]
    exact ho3 p hp2
  have hT3 : Shape c t fl2 sl2 := by
    refine shape_congr c s3 t fl2 sl2 ?_ ?_ rfl rfl rfl rfl hoshape
    · intro x _
      by_cases hx : x = frame
      · rw [hx, ht_self]
      · rw [ht_ne x hx]
    · intro x _
      constructor
      · by_cases hx : x = frame
        · rw [hx, ht_self]
        · rw [ht_ne x hx]
      · by_cases hx : x = frame
        · rw [hx, ht_self]
        · rw [ht_ne x hx]
  have hT4 : t.fEntries = (fl2.length : Int) := hofE
  have hT5 : t.sEntries = (sl2.length : Int) := hosE
  have hT6 : ∀ f, f < c.nframes → (getF t f).f_list = 2 → f ∈ sl2 := by
    intro f hf hf2
    by_cases hx : f = frame
    · rw [hx, ht_self] at hf2
      cases hf2
    · rw [ht_ne f hx] at hf2
      exact hoflag f hf hf2
  have hT7 : ∀ x, x ∈ fl2 ++ sl2 → x ≠ frame → (getF t x).free = 1 := by
    intro x hx hxn
    rw [ht_ne x hxn, hofree x hx hxn]
    rw [List.mem_append] at hx
    refine hfree1 x ?_ hxn
    cases hx with
    | inl h =>
      cases hflprov x h with
      | inl h2 => exact absurd h2 hxn
      | inr h2 => exact Or.inl h2
    | inr h =>
      cases hslprov x h with
      | inl h2 => exact absurd h2 hxn
      | inr h2 => exact h2
  refine ⟨_, fl2, sl2, rfl, ?_, ?_, hnfl2, ?_⟩
  · exact tail2fifo_wf c t fl2 sl2 page frame _ hT1 hT2 hT3 hT4 hT5 hT6 hT7 hfr
      (fun _ => hone)
  · rw [tail2fifo_stats]
    show s3.stats.disk_reads = _
    rw [hodr]
    show s1.stats.disk_reads = _
    rw [cst]
  · intro hx
    exact (List.nodup_append.mp hT3.2.2.1).2.2 hnfl2 hx

theorem c5_promotion_witness :
    WF2 ⟨2, 2⟩ (resState ⟨2, 2⟩ (runTwoFifo ⟨2, 2⟩ [0, 1])) [1] [0] ∧
    (∃ s' fl' sl',
      handler2fifo ⟨2, 2⟩ (resState ⟨2, 2⟩ (runTwoFifo ⟨2, 2⟩ [0, 1])) 0 = .ok s' ∧
      WF2 ⟨2, 2⟩ s' fl' sl' ∧
      s'.stats.disk_reads =
        (resState ⟨2, 2⟩ (runTwoFifo ⟨2, 2⟩ [0, 1])).stats.disk_reads ∧
      (getP (resState ⟨2, 2⟩ (runTwoFifo ⟨2, 2⟩ [0, 1])) 0).frame ∈ fl' ∧
      (getP (resState ⟨2, 2⟩ (runTwoFifo ⟨2, 2⟩ [0, 1])) 0).frame ∉ sl') :=
  ⟨by decide,
    c5_second_chance_promotion ⟨2, 2⟩ (resState ⟨2, 2⟩ (runTwoFifo ⟨2, 2⟩ [0, 1])) 0
      [1] [0] (by decide) (by decide) (by decide) (by decide) (by decide) (by decide)⟩

end VMSim
